import Mathlib

/-!
# gotetris: the rules engine of `model.go`

A shallow embedding of the `Game` state of `model.go` and of its methods,
followed by theorems about them.

Conventions of the embedding.

* Go `int` values are `Int`, and `+` and unary `-` are the exact operations
  of `Int`, which are Go's wherever the result is a value of the 64-bit
  `int`.  For the coordinates of the piece that is so in every state a game
  can reach on a board whose sides are below `2^62` (`reachable_exact`).
  For what holds of every anchor and every offset, the fit test, the
  rotation and the loop of `fall` are embedded a second time with Go's
  wrap-around (`wrapInt`, `pieceFits64`, `stageRotated64`, `fallLoop64`).
  `time.Duration` is an `Int` number of nanoseconds.
* `boardWidth` and `boardHeight` are constants that `model.go` uses but does
  not declare; every definition takes them as the parameters
  `boardWidth boardHeight : Nat`.
* `g.board` is a `[][]int`, embedded as `List (List Int)`, indexed `[y][x]`.
  Every board access of `model.go` but one is dominated by an explicit
  comparison of the index with `0`, `boardHeight` and `boardWidth`; those are
  embedded with the total accessors `cellAt` and `setAt`.  The one access with
  no such guard is the row shift `g.board[k][x] = g.board[k-1][x]` of
  `removeLines`; it is embedded with `readCell` and `writeCell`, which give
  `none` where Go stops with an index-out-of-range run-time error.
* The offset slices `dx`, `dy`, `dxPrime`, `dyPrime` are lists; they are
  allocated with four entries by `resetGame` and never resized.
* `rand.Int()` is the parameter `r : Nat` of the methods that draw a piece.
* `fallingTimer` is embedded by what the engine can observe of it: `none` when
  the timer is stopped, `some d` when it has been armed with duration `d`.
* A method that mutates `*Game` is a function `Game → Game`; one that also
  returns a `bool` returns a pair; one that can reach the unguarded row shift
  returns an `Option`, and so does `fall`, whose loop is run on fuel.
-/

namespace GoTetris

/-! ## Constants and the piece catalog -/

/-- One `time.Millisecond`, in nanoseconds. -/
def millisecond : Int := 1000000

def slowestSpeed : Int := 700 * millisecond

def fastestSpeed : Int := 60 * millisecond

def numSquares : Nat := 4

def numTypes : Nat := 7

def defaultLevel : Int := 1

def maxLevel : Int := 10

def rowsPerLevel : Int := 5

def dxBank : List (List Int) :=
  [ [],
    [0, 1, -1, 0],
    [0, 1, -1, -1],
    [0, 1, -1, 1],
    [0, -1, 1, 0],
    [0, 1, -1, 0],
    [0, 1, -1, -2],
    [0, 1, 1, 0] ]

def dyBank : List (List Int) :=
  [ [],
    [0, 0, 0, 1],
    [0, 0, 0, 1],
    [0, 0, 0, 1],
    [0, 0, 1, 1],
    [0, 0, 1, 1],
    [0, 0, 0, 0],
    [0, 0, 1, 1] ]

inductive GameState where
  | gameIntro
  | gameStarted
  | gamePaused
  | gameOver
  deriving DecidableEq, Repr

/-- The board, indexed `[y][x]`. -/
abbrev Board := List (List Int)

/-- The fields of the Go struct `Game`. -/
structure Game where
  curLevel : Int
  curX : Int
  curY : Int
  curPiece : Int
  skyline : Int
  state : GameState
  numLines : Int
  board : Board
  dx : List Int
  dy : List Int
  dxPrime : List Int
  dyPrime : List Int
  fallingTimer : Option Int
  deriving DecidableEq, Repr

/-! ## Board access -/

/-- The read `b[y][x]` at an index the caller has checked to be in range. -/
def cellAt (b : Board) (y x : Int) : Int :=
  if 0 ≤ y ∧ 0 ≤ x then (b.getD y.toNat []).getD x.toNat 0 else 0

/-- The write `b[y][x] = v` at an index the caller has checked to be in range. -/
def setAt (b : Board) (y x : Int) (v : Int) : Board :=
  if 0 ≤ y ∧ 0 ≤ x then b.set y.toNat ((b.getD y.toNat []).set x.toNat v) else b

/-- The read `b[y][x]` at an unchecked index: `none` is Go's index-out-of-range
run-time error. -/
def readCell (b : Board) (y x : Int) : Option Int :=
  if 0 ≤ y ∧ 0 ≤ x then
    match b[y.toNat]? with
    | some row => row[x.toNat]?
    | none => none
  else none

/-- The write `b[y][x] = v` at an unchecked index: `none` is Go's
index-out-of-range run-time error. -/
def writeCell (b : Board) (y x : Int) (v : Int) : Option Board :=
  if 0 ≤ y ∧ 0 ≤ x then
    match b[y.toNat]? with
    | some row =>
      if x.toNat < row.length then some (b.set y.toNat (row.set x.toNat v)) else none
    | none => none
  else none

/-! ## Construction and timer -/

/-- What `new(Game)` allocates: every field is the zero value of its type. -/
def zeroGame : Game :=
  { curLevel := 0, curX := 0, curY := 0, curPiece := 0, skyline := 0,
    state := GameState.gameIntro, numLines := 0, board := [],
    dx := [], dy := [], dxPrime := [], dyPrime := [], fallingTimer := none }

/-- `resetGame`: every field but `curPiece` is assigned; the new timer is
stopped at once. -/
def resetGame (boardWidth boardHeight : Nat) (g : Game) : Game :=
  { g with
    curLevel := 1
    curX := 1
    curY := 1
    skyline := (boardHeight : Int) - 1
    state := GameState.gameIntro
    numLines := 0
    board := List.replicate boardHeight (List.replicate boardWidth 0)
    dx := [0, 0, 0, 0]
    dy := [0, 0, 0, 0]
    dxPrime := [0, 0, 0, 0]
    dyPrime := [0, 0, 0, 0]
    fallingTimer := none }

def NewGame (boardWidth boardHeight : Nat) : Game :=
  resetGame boardWidth boardHeight zeroGame

def speed (g : Game) : Int :=
  slowestSpeed - fastestSpeed * g.curLevel

def resetFallingTimer (g : Game) : Game :=
  { g with fallingTimer := some (speed g) }

/-! ## Fit test, erase, place, settle -/

/-- `pieceFits`: the loop returns `false` at the first cell that fails, so the
result is the conjunction over the four cells.  The sums `theX` and `theY` are exact;
`pieceFits64` takes them in Go's 64-bit `int`, and gives the same result whenever no
sum leaves the range of `int`. -/
def pieceFits (boardWidth boardHeight : Nat) (g : Game) (x y : Int) : Bool :=
  (List.range numSquares).all fun k =>
    let theX := x + g.dxPrime.getD k 0
    let theY := y + g.dyPrime.getD k 0
    if theX < 0 ∨ theX ≥ (boardWidth : Int) ∨ theY ≥ (boardHeight : Int) then false
    else if theY > -1 ∧ cellAt g.board theY theX > 0 then false
    else true

/-- The predicate guarding every write of `erasePiece`, `placePiece` and
`fillMatrix`. -/
def inBoard (boardWidth boardHeight : Nat) (x y : Int) : Prop :=
  0 ≤ y ∧ y < (boardHeight : Int) ∧ 0 ≤ x ∧ x < (boardWidth : Int)

instance (boardWidth boardHeight : Nat) (x y : Int) :
    Decidable (inBoard boardWidth boardHeight x y) := by
  unfold inBoard; infer_instance

/-- One iteration of the loop of `erasePiece`. -/
def erasePieceStep (boardWidth boardHeight : Nat) (g : Game) (k : Nat) : Game :=
  let x := g.curX + g.dx.getD k 0
  let y := g.curY + g.dy.getD k 0
  if inBoard boardWidth boardHeight x y then { g with board := setAt g.board y x 0 } else g

def erasePiece (boardWidth boardHeight : Nat) (g : Game) : Game :=
  (List.range numSquares).foldl (erasePieceStep boardWidth boardHeight) g

/-- One iteration of the loop of `placePiece`. -/
def placePieceStep (boardWidth boardHeight : Nat) (g : Game) (k : Nat) : Game :=
  let x := g.curX + g.dx.getD k 0
  let y := g.curY + g.dy.getD k 0
  if inBoard boardWidth boardHeight x y ∧ cellAt g.board y x ≠ -g.curPiece then
    { g with board := setAt g.board y x (-g.curPiece) }
  else g

def placePiece (boardWidth boardHeight : Nat) (g : Game) : Game :=
  (List.range numSquares).foldl (placePieceStep boardWidth boardHeight) g

/-- One iteration of the loop of `fillMatrix`. -/
def fillMatrixStep (boardWidth boardHeight : Nat) (g : Game) (k : Nat) : Game :=
  let x := g.curX + g.dx.getD k 0
  let y := g.curY + g.dy.getD k 0
  if inBoard boardWidth boardHeight x y then
    let g1 := { g with board := setAt g.board y x g.curPiece }
    if y < g1.skyline then { g1 with skyline := y } else g1
  else g

def fillMatrix (boardWidth boardHeight : Nat) (g : Game) : Game :=
  (List.range numSquares).foldl (fillMatrixStep boardWidth boardHeight) g

/-! ## Row compaction -/

/-- The inner loop `for x := 0; x < boardWidth; x++ { g.board[k][x] = g.board[k-1][x] }`. -/
def copyRowDown (boardWidth : Nat) (b : Board) (k : Int) : Option Board :=
  (List.range boardWidth).foldlM
    (fun (b : Board) (x : Nat) =>
      (readCell b (k - 1) (x : Int)).bind fun v => writeCell b k (x : Int) v) b

/-- The values `k` takes in `for k := y; k >= skyline; k--`, in order. -/
def shiftIndices (y skyline : Int) : List Int :=
  (List.range (y + 1 - skyline).toNat).map fun (i : Nat) => y - (i : Int)

/-- The body of the loop of `removeLines` for one row `y`. -/
def removeLinesRow (boardWidth : Nat) (g : Game) (y : Nat) : Option Game :=
  let gapFound :=
    (List.range boardWidth).any fun (x : Nat) => cellAt g.board (y : Int) (x : Int) == 0
  if gapFound then some g
  else
    ((shiftIndices (y : Int) g.skyline).foldlM (copyRowDown boardWidth) g.board).bind fun b1 =>
      let b2 := (List.range boardWidth).foldl
        (fun (b : Board) (x : Nat) => setAt b 0 (x : Int) 0) b1
      let numLines := g.numLines + 1
      let skyline := g.skyline + 1
      let curLevel :=
        if numLines.tmod rowsPerLevel = 0 ∧ g.curLevel < maxLevel then g.curLevel + 1
        else g.curLevel
      some { g with board := b2, numLines := numLines, skyline := skyline, curLevel := curLevel }

def removeLines (boardWidth boardHeight : Nat) (g : Game) : Option Game :=
  (List.range boardHeight).foldlM (removeLinesRow boardWidth) g

/-! ## Commands -/

/-- The loop `for k { g.dxPrime[k] = g.dx[k]; g.dyPrime[k] = g.dy[k] }` that opens
`moveLeft`, `moveRight`, `moveDown` and `fall` and closes the set-up of `getPiece`. -/
def stageLive (g : Game) : Game :=
  (List.range numSquares).foldl
    (fun g k => { g with dxPrime := g.dxPrime.set k (g.dx.getD k 0)
                         dyPrime := g.dyPrime.set k (g.dy.getD k 0) }) g

/-- The loop `for k { g.dxPrime[k] = g.dy[k]; g.dyPrime[k] = -g.dx[k] }` of `rotate`.
The negation is exact; `stageRotated64` takes it in Go's 64-bit `int`, and gives the
same result whenever no `dx[k]` is `-2^63`. -/
def stageRotated (g : Game) : Game :=
  (List.range numSquares).foldl
    (fun g k => { g with dxPrime := g.dxPrime.set k (g.dy.getD k 0)
                         dyPrime := g.dyPrime.set k (-(g.dx.getD k 0)) }) g

/-- The loop `for k { g.dx[k] = g.dxPrime[k]; g.dy[k] = g.dyPrime[k] }` of `rotate`. -/
def commitStaged (g : Game) : Game :=
  (List.range numSquares).foldl
    (fun g k => { g with dx := g.dx.set k (g.dxPrime.getD k 0)
                         dy := g.dy.set k (g.dyPrime.getD k 0) }) g

/-- The loop `for k { g.dx[k] = dxBank[g.curPiece][k]; g.dy[k] = dyBank[g.curPiece][k] }`
of `getPiece`. -/
def loadBank (g : Game) : Game :=
  (List.range numSquares).foldl
    (fun g k => { g with dx := g.dx.set k ((dxBank.getD g.curPiece.toNat []).getD k 0)
                         dy := g.dy.set k ((dyBank.getD g.curPiece.toNat []).getD k 0) }) g

/-- `getPiece`, with `r` the value of `rand.Int()`. -/
def getPiece (boardWidth boardHeight : Nat) (r : Nat) (g : Game) : Game × Bool :=
  let g1 := { g with curPiece := 1 + ((r % numTypes : Nat) : Int)
                     curX := ((boardWidth / 2 : Nat) : Int)
                     curY := 0 }
  let g2 := stageLive (loadBank g1)
  if !pieceFits boardWidth boardHeight g2 g2.curX g2.curY then (g2, false)
  else (placePiece boardWidth boardHeight g2, true)

def moveDown (boardWidth boardHeight : Nat) (g : Game) : Game × Bool :=
  if g.state ≠ GameState.gameStarted then (g, false)
  else
    let g1 := stageLive g
    if !pieceFits boardWidth boardHeight g1 g1.curX (g1.curY + 1) then (g1, false)
    else
      let g2 := erasePiece boardWidth boardHeight g1
      let g3 := { g2 with curY := g2.curY + 1 }
      (placePiece boardWidth boardHeight g3, true)

/-- `play`, the handler of the falling timer; `r` is the value `rand.Int()` would
give if `getPiece` is reached. -/
def play (boardWidth boardHeight : Nat) (r : Nat) (g : Game) : Option Game :=
  let md := moveDown boardWidth boardHeight g
  if md.2 then some (resetFallingTimer md.1)
  else
    (removeLines boardWidth boardHeight (fillMatrix boardWidth boardHeight md.1)).bind fun g2 =>
      if g2.skyline > 0 then
        let gp := getPiece boardWidth boardHeight r g2
        if gp.2 then some (resetFallingTimer gp.1)
        else some { gp.1 with state := GameState.gameOver }
      else some { g2 with state := GameState.gameOver }

def resume (boardWidth boardHeight : Nat) (r : Nat) (g : Game) : Option Game :=
  play boardWidth boardHeight r { g with state := GameState.gameStarted }

/-- The `default` branch of the switch of `start`. -/
def startDefault (boardWidth boardHeight : Nat) (r : Nat) (g : Game) : Game :=
  let g1 := { g with state := GameState.gameStarted }
  let g2 := (getPiece boardWidth boardHeight r g1).1
  resetFallingTimer (placePiece boardWidth boardHeight g2)

def start (boardWidth boardHeight : Nat) (r : Nat) (g : Game) : Option Game :=
  match g.state with
  | GameState.gameStarted => some g
  | GameState.gamePaused => resume boardWidth boardHeight r g
  | GameState.gameOver =>
    some (startDefault boardWidth boardHeight r (resetGame boardWidth boardHeight g))
  | GameState.gameIntro => some (startDefault boardWidth boardHeight r g)

def pause (boardWidth boardHeight : Nat) (r : Nat) (g : Game) : Option Game :=
  match g.state with
  | GameState.gameStarted => some { g with state := GameState.gamePaused, fallingTimer := none }
  | GameState.gamePaused => resume boardWidth boardHeight r g
  | _ => some g

def moveLeft (boardWidth boardHeight : Nat) (g : Game) : Game :=
  if g.state ≠ GameState.gameStarted then g
  else
    let g1 := stageLive g
    if pieceFits boardWidth boardHeight g1 (g1.curX - 1) g1.curY then
      let g2 := erasePiece boardWidth boardHeight g1
      placePiece boardWidth boardHeight { g2 with curX := g2.curX - 1 }
    else g1

def moveRight (boardWidth boardHeight : Nat) (g : Game) : Game :=
  if g.state ≠ GameState.gameStarted then g
  else
    let g1 := stageLive g
    if pieceFits boardWidth boardHeight g1 (g1.curX + 1) g1.curY then
      let g2 := erasePiece boardWidth boardHeight g1
      placePiece boardWidth boardHeight { g2 with curX := g2.curX + 1 }
    else g1

def rotate (boardWidth boardHeight : Nat) (g : Game) : Game :=
  if g.state ≠ GameState.gameStarted then g
  else
    let g1 := stageRotated g
    if pieceFits boardWidth boardHeight g1 g1.curX g1.curY then
      let g2 := erasePiece boardWidth boardHeight g1
      placePiece boardWidth boardHeight (commitStaged g2)
    else g1

/-- The loop `for g.pieceFits(g.curX, g.curY+1) { g.curY++ }` of `fall`, run for at
most `fuel` iterations: `none` when the fuel runs out with the condition still true. -/
def fallLoop (boardWidth boardHeight : Nat) : Nat → Game → Option Game
  | 0, g => if pieceFits boardWidth boardHeight g g.curX (g.curY + 1) then none else some g
  | fuel + 1, g =>
    if pieceFits boardWidth boardHeight g g.curX (g.curY + 1) then
      fallLoop boardWidth boardHeight fuel { g with curY := g.curY + 1 }
    else some g

/-- A number of iterations the loop of `fall` cannot exceed: the fit test fails once the
first staged cell is at row `boardHeight`. -/
def fallFuel (boardHeight : Nat) (g : Game) : Nat :=
  ((boardHeight : Int) - (g.curY + g.dyPrime.getD 0 0)).toNat

/-- `fall`; `none` only if the loop were to outrun `fallFuel`. -/
def fall (boardWidth boardHeight : Nat) (g : Game) : Option Game :=
  if g.state ≠ GameState.gameStarted then some g
  else
    let g1 := stageLive g
    if !pieceFits boardWidth boardHeight g1 g1.curX (g1.curY + 1) then some g1
    else
      let g2 := erasePiece boardWidth boardHeight { g1 with fallingTimer := none }
      (fallLoop boardWidth boardHeight (fallFuel boardHeight g2) g2).map fun g3 =>
        resetFallingTimer (placePiece boardWidth boardHeight g3)

/-! ## Well-formed boards -/

/-- The board has `boardHeight` rows of `boardWidth` cells each, as `resetGame`
allocates it. -/
def BoardWF (boardWidth boardHeight : Nat) (b : Board) : Prop :=
  b.length = boardHeight ∧ ∀ row ∈ b, row.length = boardWidth

instance (boardWidth boardHeight : Nat) (b : Board) :
    Decidable (BoardWF boardWidth boardHeight b) := by
  unfold BoardWF; infer_instance


/-! ## The cells of the current piece -/

/-- Cell `(y, x)` is one of the four cells `(cx + dx[k], cy + dy[k])`. -/
def onCells (cx cy : Int) (dx dy : List Int) (y x : Int) : Prop :=
  ∃ k, k < numSquares ∧ x = cx + dx.getD k 0 ∧ y = cy + dy.getD k 0

/-- Cell `(y, x)` is one of the four cells `(curX + dx[k], curY + dy[k])` of the
current piece. -/
def onPiece (g : Game) (y x : Int) : Prop :=
  onCells g.curX g.curY g.dx g.dy y x

/-! ## Invariants and reachable states -/

/-- A piece is in play: the game is started or paused. -/
def Active (g : Game) : Prop :=
  g.state = GameState.gameStarted ∨ g.state = GameState.gamePaused

/-- What holds of a game between two commands. -/
structure Inv (boardWidth boardHeight : Nat) (g : Game) : Prop where
  wf : BoardWF boardWidth boardHeight g.board
  len_dx : g.dx.length = 4
  len_dy : g.dy.length = 4
  len_dxPrime : g.dxPrime.length = 4
  len_dyPrime : g.dyPrime.length = 4
  neg_cells : ∀ y x, inBoard boardWidth boardHeight x y → cellAt g.board y x < 0 →
    Active g ∧ onPiece g y x
  pos_cells : ∀ y x, inBoard boardWidth boardHeight x y → 0 < cellAt g.board y x →
    cellAt g.board y x ≤ 7 ∧ g.skyline ≤ y
  piece : Active g → 1 ≤ g.curPiece ∧ g.curPiece ≤ 7 ∧ (List.zip g.dx g.dy).Nodup ∧
    ∀ y x, inBoard boardWidth boardHeight x y → onPiece g y x →
      cellAt g.board y x = -g.curPiece
  intro : g.state = GameState.gameIntro → ∀ y x, cellAt g.board y x = 0
  level : 0 ≤ g.numLines ∧ g.curLevel = min maxLevel (1 + g.numLines / rowsPerLevel)
  fits : 4 ≤ boardWidth → 2 ≤ boardHeight → Active g → ∀ k, k < numSquares →
    0 ≤ g.curX + g.dx.getD k 0 ∧ g.curX + g.dx.getD k 0 < (boardWidth : Int) ∧
      g.curY + g.dy.getD k 0 < (boardHeight : Int)

/-- What holds of a game inside `play` once the piece has been settled: as `Inv`, with
no active cell left on the board. -/
structure Settled (boardWidth boardHeight : Nat) (g : Game) : Prop where
  wf : BoardWF boardWidth boardHeight g.board
  len_dx : g.dx.length = 4
  len_dy : g.dy.length = 4
  len_dxPrime : g.dxPrime.length = 4
  len_dyPrime : g.dyPrime.length = 4
  nonneg : ∀ y x, inBoard boardWidth boardHeight x y → 0 ≤ cellAt g.board y x
  pos_cells : ∀ y x, inBoard boardWidth boardHeight x y → 0 < cellAt g.board y x →
    cellAt g.board y x ≤ 7 ∧ g.skyline ≤ y
  level : 0 ≤ g.numLines ∧ g.curLevel = min maxLevel (1 + g.numLines / rowsPerLevel)

/-- The states a game can be in: those `NewGame` returns and those a command or a tick
of the falling timer, delivered while the game is started, leads to.  A command whose
embedding is `none` has no successor state. -/
inductive Reachable (boardWidth boardHeight : Nat) : Game → Prop where
  | init : Reachable boardWidth boardHeight (NewGame boardWidth boardHeight)
  | start (r : Nat) {g g' : Game} : Reachable boardWidth boardHeight g →
      start boardWidth boardHeight r g = some g' → Reachable boardWidth boardHeight g'
  | pause (r : Nat) {g g' : Game} : Reachable boardWidth boardHeight g →
      pause boardWidth boardHeight r g = some g' → Reachable boardWidth boardHeight g'
  | moveLeft {g : Game} : Reachable boardWidth boardHeight g →
      Reachable boardWidth boardHeight (moveLeft boardWidth boardHeight g)
  | moveRight {g : Game} : Reachable boardWidth boardHeight g →
      Reachable boardWidth boardHeight (moveRight boardWidth boardHeight g)
  | rotate {g : Game} : Reachable boardWidth boardHeight g →
      Reachable boardWidth boardHeight (rotate boardWidth boardHeight g)
  | fall {g g' : Game} : Reachable boardWidth boardHeight g →
      fall boardWidth boardHeight g = some g' → Reachable boardWidth boardHeight g'
  | tick (r : Nat) {g g' : Game} : Reachable boardWidth boardHeight g →
      g.state = GameState.gameStarted →
      play boardWidth boardHeight r g = some g' → Reachable boardWidth boardHeight g'

/-- Row `y` is full: none of its cells is `0`. -/
def rowFull (boardWidth : Nat) (b : Board) (y : Int) : Prop :=
  ∀ x : Nat, x < boardWidth → cellAt b y (x : Int) ≠ 0

/-- The level `removeLines` leaves after counting one more line, when `numLines` lines
were counted before at level `curLevel`. -/
def levelAfterLine (numLines curLevel : Int) : Int :=
  if (numLines + 1).tmod rowsPerLevel = 0 ∧ curLevel < maxLevel then curLevel + 1
  else curLevel

/-- The state `getPiece` builds before its fit test: the new type, the spawn anchor, and
the catalog offsets of the type in the live and in the staged slices. -/
def spawned (boardWidth : Nat) (r : Nat) (g : Game) : Game :=
  { g with curPiece := 1 + ((r % numTypes : Nat) : Int)
           curX := ((boardWidth / 2 : Nat) : Int)
           curY := 0
           dx := dxBank.getD (1 + ((r % numTypes : Nat) : Int)).toNat []
           dy := dyBank.getD (1 + ((r % numTypes : Nat) : Int)).toNat []
           dxPrime := dxBank.getD (1 + ((r % numTypes : Nat) : Int)).toNat []
           dyPrime := dyBank.getD (1 + ((r % numTypes : Nat) : Int)).toNat [] }

/-- The live orientation fits at anchor `(x, y)`: the fit test with the live offsets
staged, as `moveLeft`, `moveRight`, `moveDown` and `fall` run it. -/
def liveFits (boardWidth boardHeight : Nat) (g : Game) (x y : Int) : Bool :=
  pieceFits boardWidth boardHeight { g with dxPrime := g.dx, dyPrime := g.dy } x y

/-- The number of active (negative) cells on the board. -/
def activeCount (b : Board) : Nat :=
  (b.map fun row => row.countP fun v => decide (v < 0)).sum

/-- The number of the four cells of the current piece that lie on the board. -/
def onBoardCount (boardWidth boardHeight : Nat) (g : Game) : Nat :=
  ((List.range numSquares).filter fun k =>
    decide (inBoard boardWidth boardHeight (g.curX + g.dx.getD k 0)
      (g.curY + g.dy.getD k 0))).length

/-- The indices `(y, x)` of the cells of a board. -/
def boardCells (boardWidth boardHeight : Nat) : List (Nat × Nat) :=
  List.product (List.range boardHeight) (List.range boardWidth)

/-- A started game on a board of 4 columns and 3 rows: a settled T piece on rows 1 and 2
and a fresh I piece across row 0. -/
def stuckGame : Game :=
  { curLevel := 1, curX := 2, curY := 0, curPiece := 6, skyline := 1,
    state := GameState.gameStarted, numLines := 0,
    board := [[-6, -6, -6, -6], [0, 1, 1, 1], [0, 0, 1, 0]],
    dx := [0, 1, -1, -2], dy := [0, 0, 0, 0],
    dxPrime := [0, 1, -1, -2], dyPrime := [0, 0, 0, 0],
    fallingTimer := some 640000000 }

instance (boardWidth : Nat) (b : Board) (y : Int) : Decidable (rowFull boardWidth b y) := by
  unfold rowFull; infer_instance

/-- A started game on a board of 4 columns and 4 rows in which one line has been
cleared. -/
def clearedGame : Game :=
  { curLevel := 1, curX := 2, curY := 0, curPiece := 1, skyline := 4,
    state := GameState.gameStarted, numLines := 1,
    board := [[0, -1, -1, -1], [0, 0, -1, 0], [0, 0, 0, 0], [0, 0, 0, 0]],
    dx := [0, 1, -1, 0], dy := [0, 0, 0, 1],
    dxPrime := [0, 1, -1, 0], dyPrime := [0, 0, 0, 1],
    fallingTimer := some 640000000 }

/-- What the host delivers to the engine: a command, or a tick of the falling timer. -/
inductive Event where
  | start (r : Nat)
  | pause (r : Nat)
  | moveLeft
  | moveRight
  | rotate
  | fall
  | tick (r : Nat)
  deriving DecidableEq, Repr

/-- The state after one event; `none` when the engine stops with a run-time error, and
for a tick delivered while the game is not started, which the host does not do. -/
def applyEvent (boardWidth boardHeight : Nat) (g : Game) : Event → Option Game
  | Event.start r => start boardWidth boardHeight r g
  | Event.pause r => pause boardWidth boardHeight r g
  | Event.moveLeft => some (moveLeft boardWidth boardHeight g)
  | Event.moveRight => some (moveRight boardWidth boardHeight g)
  | Event.rotate => some (rotate boardWidth boardHeight g)
  | Event.fall => fall boardWidth boardHeight g
  | Event.tick r =>
    if g.state = GameState.gameStarted then play boardWidth boardHeight r g else none

/-- The state after a run of events. -/
def runEvents (boardWidth boardHeight : Nat) (es : List Event) (g : Game) : Option Game :=
  es.foldlM (applyEvent boardWidth boardHeight) g

/-- Drop an upright I piece two columns left of the spawn column and draw the next
piece. -/
def dropLeft (r : Nat) : List Event :=
  [Event.rotate, Event.moveLeft, Event.moveLeft, Event.fall, Event.tick r]

/-- Drop an upright I piece one column right of the spawn column and draw the next
piece. -/
def dropRight (r : Nat) : List Event :=
  [Event.rotate, Event.moveRight, Event.fall, Event.tick r]

/-- A run of 47 events on a board of 10 columns and 18 rows, every piece drawn an I
piece but the last: four upright I pieces stacked in column 3, a flat I piece laid on
them across columns 0 to 3 of row 1, four upright I pieces stacked in column 6, a flat
I piece laid on them across columns 6 to 9 of row 1, and a piece of type 5 drawn. -/
def stuckTrace : List Event :=
  [Event.start 5] ++ dropLeft 5 ++ dropLeft 5 ++ dropLeft 5 ++ dropLeft 5 ++
  [Event.moveLeft, Event.moveLeft, Event.moveLeft, Event.fall, Event.tick 5] ++
  dropRight 5 ++ dropRight 5 ++ dropRight 5 ++ dropRight 5 ++
  [Event.moveRight, Event.moveRight, Event.moveRight, Event.fall, Event.tick 4]

/-- The started game `stuckTrace` leads to on a board of 10 columns and 18 rows: row 1
is full but for columns 4 and 5, and a piece of type 5 has been drawn whose lower cells
are in those two columns of row 1. -/
def wideStuckGame : Game :=
  { curLevel := 1, curX := 5, curY := 0, curPiece := 5, skyline := 1,
    state := GameState.gameStarted, numLines := 0,
    board := [[0, 0, 0, 0, 0, -5, -5, 0, 0, 0],
              [6, 6, 6, 6, -5, -5, 6, 6, 6, 6],
              [0, 0, 0, 6, 0, 0, 6, 0, 0, 0],
              [0, 0, 0, 6, 0, 0, 6, 0, 0, 0],
              [0, 0, 0, 6, 0, 0, 6, 0, 0, 0],
              [0, 0, 0, 6, 0, 0, 6, 0, 0, 0],
              [0, 0, 0, 6, 0, 0, 6, 0, 0, 0],
              [0, 0, 0, 6, 0, 0, 6, 0, 0, 0],
              [0, 0, 0, 6, 0, 0, 6, 0, 0, 0],
              [0, 0, 0, 6, 0, 0, 6, 0, 0, 0],
              [0, 0, 0, 6, 0, 0, 6, 0, 0, 0],
              [0, 0, 0, 6, 0, 0, 6, 0, 0, 0],
              [0, 0, 0, 6, 0, 0, 6, 0, 0, 0],
              [0, 0, 0, 6, 0, 0, 6, 0, 0, 0],
              [0, 0, 0, 6, 0, 0, 6, 0, 0, 0],
              [0, 0, 0, 6, 0, 0, 6, 0, 0, 0],
              [0, 0, 0, 6, 0, 0, 6, 0, 0, 0],
              [0, 0, 0, 6, 0, 0, 6, 0, 0, 0]],
    dx := [0, 1, -1, 0], dy := [0, 0, 1, 1],
    dxPrime := [0, 1, -1, 0], dyPrime := [0, 0, 1, 1],
    fallingTimer := some 640000000 }

/-! ## A finished game -/

/-- A game that is over on a board of 4 columns and 4 rows: the stack has reached
row 0. -/
def overGame : Game :=
  { curLevel := 1, curX := 2, curY := 0, curPiece := 7, skyline := 0,
    state := GameState.gameOver, numLines := 0,
    board := [[0, 0, 7, 7], [0, 0, 7, 7], [0, 1, 1, 1], [0, 0, 1, 0]],
    dx := [0, 1, 1, 0], dy := [0, 0, 1, 1],
    dxPrime := [0, 1, 1, 0], dyPrime := [0, 0, 1, 1],
    fallingTimer := some 640000000 }

/-! ## Reference compaction -/

/-- The value Go's 64-bit `int` holds for the exact result `n` of `+` or unary `-`:
the integer congruent to `n` modulo `2^64` that lies in `[-2^63, 2^63)`. -/
def wrapInt (n : Int) : Int :=
  (n + 9223372036854775808) % 18446744073709551616 - 9223372036854775808

/-- The integer `n` is a value of Go's `int`: it lies in `[-2^63, 2^63)`. -/
def IsInt64 (n : Int) : Prop :=
  -9223372036854775808 ≤ n ∧ n < 9223372036854775808

instance (n : Int) : Decidable (IsInt64 n) := by
  unfold IsInt64; infer_instance

/-- `pieceFits` with `theX := x + g.dxPrime[k]` and `theY := y + g.dyPrime[k]` computed
in 64-bit `int`s: the loop returns `false` at the first cell that fails, so the result
is the conjunction over the four cells. -/
def pieceFits64 (boardWidth boardHeight : Nat) (g : Game) (x y : Int) : Bool :=
  (List.range numSquares).all fun k =>
    let theX := wrapInt (x + g.dxPrime.getD k 0)
    let theY := wrapInt (y + g.dyPrime.getD k 0)
    if theX < 0 ∨ theX ≥ (boardWidth : Int) ∨ theY ≥ (boardHeight : Int) then false
    else if theY > -1 ∧ cellAt g.board theY theX > 0 then false
    else true

/-- The loop `for k { g.dxPrime[k] = g.dy[k]; g.dyPrime[k] = -g.dx[k] }` of `rotate`,
with the negation computed in 64-bit `int`s. -/
def stageRotated64 (g : Game) : Game :=
  (List.range numSquares).foldl
    (fun g k => { g with dxPrime := g.dxPrime.set k (g.dy.getD k 0)
                         dyPrime := g.dyPrime.set k (wrapInt (-(g.dx.getD k 0))) }) g

/-- What `rotate` does to the offsets when the fit test passes, in 64-bit `int`s and
without the board: the live offsets are staged rotated and the staged offsets are
committed. -/
def rotateLive64 (g : Game) : Game :=
  commitStaged (stageRotated64 g)

/-- A game whose four staged cells are one row below the anchor. -/
def lowStagedGame : Game :=
  { NewGame 10 18 with dyPrime := [1, 1, 1, 1] }

/-- A game whose first offset is `(-2^63, -2^63)`, the least value of `int` twice. -/
def minOffsetGame : Game :=
  { NewGame 10 18 with
    dx := [-9223372036854775808, 0, 0, 0]
    dy := [-9223372036854775808, 0, 0, 0] }

/-- The state of the falling timer between two commands: armed at `speed()` while the
game is started, stopped while it is in `Intro` or paused. -/
def TimerInv (g : Game) : Prop :=
  (g.state = GameState.gameStarted → g.fallingTimer = some (speed g)) ∧
  (g.state = GameState.gameIntro ∨ g.state = GameState.gamePaused → g.fallingTimer = none)

/-- The anchor of the piece is within two cells of the board and every live offset is
between `-2` and `2`. -/
structure Ranged (boardWidth boardHeight : Nat) (g : Game) : Prop where
  dx_small : ∀ a ∈ g.dx, -2 ≤ a ∧ a ≤ 2
  dy_small : ∀ a ∈ g.dy, -2 ≤ a ∧ a ≤ 2
  curX_range : -2 ≤ g.curX ∧ g.curX ≤ (boardWidth : Int) + 2
  curY_range : 0 ≤ g.curY ∧ g.curY ≤ (boardHeight : Int) + 2
/-! ## Board lemmas -/

theorem setAt_wf {W H : Nat} {b : Board} (hwf : BoardWF W H b) (y x v : Int) :
    BoardWF W H (setAt b y x v) := by
  unfold setAt
  split_ifs with h
  · by_cases hy : y.toNat < b.length
    · refine ⟨by simp [hwf.1], ?_⟩
      intro row hrow
      rcases List.mem_or_eq_of_mem_set hrow with hm | he
      · exact hwf.2 row hm
      · subst he
        rw [List.length_set, List.getD_eq_getElem _ _ hy]
        exact hwf.2 _ (List.getElem_mem _)
    · rw [List.set_eq_of_length_le (by omega)]
      exact hwf
  · exact hwf

theorem cellAt_setAt {W H : Nat} {b : Board} (hwf : BoardWF W H b) {x y : Int}
    (hin : inBoard W H x y) (v : Int) (y' x' : Int) :
    cellAt (setAt b y x v) y' x' = if y' = y ∧ x' = x then v else cellAt b y' x' := by
  obtain ⟨hy0, hyH, hx0, hxW⟩ := hin
  have hylt : y.toNat < b.length := by rw [hwf.1]; omega
  have hrow : (b[y.toNat]).length = W := hwf.2 _ (List.getElem_mem _)
  unfold cellAt setAt
  simp only [hy0, hx0, and_self, if_true, List.getD_eq_getElem?_getD, List.getElem?_set]
  by_cases h0 : 0 ≤ y' ∧ 0 ≤ x'
  · simp only [h0, and_self, if_true]
    by_cases hyy : y' = y
    · subst hyy
      simp only [true_and, if_true, hylt, Option.getD_some, List.getElem?_eq_getElem hylt]
      by_cases hxx : x' = x
      · subst hxx
        have : x'.toNat < (b[y'.toNat]).length := by rw [hrow]; omega
        simp only [if_true, List.getElem?_set, this, Option.getD_some]
      · have hne : ¬ x.toNat = x'.toNat := by omega
        simp only [hxx, hne, if_false, List.getElem?_set]
    · have hne : ¬ y.toNat = y'.toNat := by omega
      simp only [hyy, hne, false_and, if_false]
  · have : ¬ (y' = y ∧ x' = x) := by
      rintro ⟨rfl, rfl⟩; exact h0 ⟨hy0, hx0⟩
    simp only [h0, this, if_false]

theorem cellAt_replicate (W H : Nat) (y x : Int) :
    cellAt (List.replicate H (List.replicate W 0)) y x = 0 := by
  unfold cellAt
  split_ifs with h
  · simp only [List.getD_eq_getElem?_getD, List.getElem?_replicate]
    by_cases hy : y.toNat < H
    · simp only [hy, if_true, Option.getD_some, List.getElem?_replicate]
      by_cases hx : x.toNat < W <;> simp [hx]
    · simp [hy]
  · rfl

theorem replicate_wf (W H : Nat) : BoardWF W H (List.replicate H (List.replicate W 0)) := by
  refine ⟨by simp, ?_⟩
  intro row hrow
  rw [List.eq_of_mem_replicate hrow]
  simp

/-- Outside the board a well-formed board reads as `0`. -/
theorem cellAt_out {W H : Nat} {b : Board} (hwf : BoardWF W H b) {x y : Int}
    (hout : ¬ inBoard W H x y) : cellAt b y x = 0 := by
  unfold cellAt
  split_ifs with h
  · simp only [List.getD_eq_getElem?_getD]
    by_cases hy : y.toNat < b.length
    · have hrow : (b[y.toNat]).length = W := hwf.2 _ (List.getElem_mem _)
      have hx : ¬ x.toNat < (b[y.toNat]).length := by
        rw [hrow]; intro hx; apply hout
        refine ⟨h.1, ?_, h.2, ?_⟩ <;> [(rw [hwf.1] at hy; omega); omega]
      simp [List.getElem?_eq_getElem hy, List.getElem?_eq_none (Nat.le_of_not_lt hx)]
    · simp [List.getElem?_eq_none (Nat.le_of_not_lt hy)]
  · rfl

/-! ## The loops over the four cells of the piece -/

/-- A loop whose step writes `v curPiece` at the `k`-th cell of the piece when that
cell is on the board, and touches neither the piece nor any other cell, writes
`v curPiece` at every cell of the piece that is on the board. -/
theorem paint_foldl (W H : Nat) (v : Int → Int) (step : Game → Nat → Game)
    (hframe : ∀ g k, (step g k).curX = g.curX ∧ (step g k).curY = g.curY ∧
      (step g k).dx = g.dx ∧ (step g k).dy = g.dy ∧ (step g k).curPiece = g.curPiece)
    (hpaint : ∀ g k, BoardWF W H g.board → BoardWF W H (step g k).board ∧
      ∀ y x, cellAt (step g k).board y x =
        if inBoard W H x y ∧ x = g.curX + g.dx.getD k 0 ∧ y = g.curY + g.dy.getD k 0
        then v g.curPiece else cellAt g.board y x) :
    ∀ (ks : List Nat) (g : Game), BoardWF W H g.board →
      BoardWF W H (ks.foldl step g).board ∧
      ∀ y x, cellAt (ks.foldl step g).board y x =
        if inBoard W H x y ∧
            ∃ k ∈ ks, x = g.curX + g.dx.getD k 0 ∧ y = g.curY + g.dy.getD k 0
        then v g.curPiece else cellAt g.board y x := by
  intro ks
  induction ks with
  | nil => intro g hwf; exact ⟨hwf, fun y x => by simp⟩
  | cons k ks ih =>
    intro g hwf
    obtain ⟨hX, hY, hdx, hdy, hcp⟩ := hframe g k
    obtain ⟨hwf1, hc1⟩ := hpaint g k hwf
    obtain ⟨hwf2, hc2⟩ := ih (step g k) hwf1
    refine ⟨hwf2, fun y x => ?_⟩
    rw [List.foldl_cons, hc2, hc1, hX, hY, hdx, hdy, hcp]
    by_cases hin : inBoard W H x y
    · by_cases hk : x = g.curX + g.dx.getD k 0 ∧ y = g.curY + g.dy.getD k 0
      · have hall : inBoard W H x y ∧ ∃ k' ∈ k :: ks,
            x = g.curX + g.dx.getD k' 0 ∧ y = g.curY + g.dy.getD k' 0 :=
          ⟨hin, k, List.mem_cons_self _ _, hk⟩
        have hk1 : inBoard W H x y ∧ x = g.curX + g.dx.getD k 0 ∧ y = g.curY + g.dy.getD k 0 :=
          ⟨hin, hk⟩
        rw [if_pos hall, if_pos hk1]
        split_ifs <;> rfl
      · have hk1 : ¬ (inBoard W H x y ∧
            x = g.curX + g.dx.getD k 0 ∧ y = g.curY + g.dy.getD k 0) := fun h => hk h.2
        rw [if_neg hk1]
        by_cases hks : ∃ k' ∈ ks, x = g.curX + g.dx.getD k' 0 ∧ y = g.curY + g.dy.getD k' 0
        · have hall : inBoard W H x y ∧ ∃ k' ∈ k :: ks,
              x = g.curX + g.dx.getD k' 0 ∧ y = g.curY + g.dy.getD k' 0 := by
            obtain ⟨k', hk', h⟩ := hks
            exact ⟨hin, k', List.mem_cons_of_mem _ hk', h⟩
          have hks1 : inBoard W H x y ∧ ∃ k' ∈ ks,
              x = g.curX + g.dx.getD k' 0 ∧ y = g.curY + g.dy.getD k' 0 := ⟨hin, hks⟩
          rw [if_pos hks1, if_pos hall]
        · have hall : ¬ (inBoard W H x y ∧ ∃ k' ∈ k :: ks,
              x = g.curX + g.dx.getD k' 0 ∧ y = g.curY + g.dy.getD k' 0) := by
            rintro ⟨_, k', hk', h⟩
            rcases List.mem_cons.1 hk' with rfl | hm
            · exact hk h
            · exact hks ⟨k', hm, h⟩
          have hks1 : ¬ (inBoard W H x y ∧ ∃ k' ∈ ks,
              x = g.curX + g.dx.getD k' 0 ∧ y = g.curY + g.dy.getD k' 0) := fun h => hks h.2
          rw [if_neg hks1, if_neg hall]
    · have h1 : ¬ (inBoard W H x y ∧ ∃ k' ∈ k :: ks,
          x = g.curX + g.dx.getD k' 0 ∧ y = g.curY + g.dy.getD k' 0) := fun h => hin h.1
      have h2 : ¬ (inBoard W H x y ∧ ∃ k' ∈ ks,
          x = g.curX + g.dx.getD k' 0 ∧ y = g.curY + g.dy.getD k' 0) := fun h => hin h.1
      have h3 : ¬ (inBoard W H x y ∧
          x = g.curX + g.dx.getD k 0 ∧ y = g.curY + g.dy.getD k 0) := fun h => hin h.1
      rw [if_neg h1, if_neg h2, if_neg h3]

/-- The loop index `k` runs over `0, …, numSquares - 1`. -/
theorem mem_range_numSquares (k : Nat) : k ∈ List.range numSquares ↔ k < numSquares :=
  List.mem_range

theorem cellAt_setAt_paint {W H : Nat} {b : Board} (hwf : BoardWF W H b) {cx cy : Int}
    (hin : inBoard W H cx cy) (v : Int) (y x : Int) :
    cellAt (setAt b cy cx v) y x =
      if inBoard W H x y ∧ x = cx ∧ y = cy then v else cellAt b y x := by
  rw [cellAt_setAt hwf hin]
  by_cases hxy : y = cy ∧ x = cx
  · have h2 : inBoard W H x y ∧ x = cx ∧ y = cy := by
      obtain ⟨rfl, rfl⟩ := hxy
      exact ⟨hin, rfl, rfl⟩
    rw [if_pos hxy, if_pos h2]
  · have h2 : ¬ (inBoard W H x y ∧ x = cx ∧ y = cy) := fun h => hxy ⟨h.2.2, h.2.1⟩
    rw [if_neg hxy, if_neg h2]

theorem not_paint_cond {W H : Nat} {cx cy : Int} (hin : ¬ inBoard W H cx cy) (y x : Int) :
    ¬ (inBoard W H x y ∧ x = cx ∧ y = cy) := by
  rintro ⟨h1, rfl, rfl⟩
  exact hin h1

/-- The form of `paint_foldl` for the loops `for k := 0; k < numSquares; k++`. -/
theorem paint_piece (W H : Nat) (v : Int → Int) (step : Game → Nat → Game)
    (hframe : ∀ g k, (step g k).curX = g.curX ∧ (step g k).curY = g.curY ∧
      (step g k).dx = g.dx ∧ (step g k).dy = g.dy ∧ (step g k).curPiece = g.curPiece)
    (hpaint : ∀ g k, BoardWF W H g.board → BoardWF W H (step g k).board ∧
      ∀ y x, cellAt (step g k).board y x =
        if inBoard W H x y ∧ x = g.curX + g.dx.getD k 0 ∧ y = g.curY + g.dy.getD k 0
        then v g.curPiece else cellAt g.board y x)
    (g : Game) (hwf : BoardWF W H g.board) :
    BoardWF W H ((List.range numSquares).foldl step g).board ∧
    ∀ y x,
      (inBoard W H x y → onPiece g y x →
        cellAt ((List.range numSquares).foldl step g).board y x = v g.curPiece) ∧
      (¬ (inBoard W H x y ∧ onPiece g y x) →
        cellAt ((List.range numSquares).foldl step g).board y x = cellAt g.board y x) := by
  have h := paint_foldl W H v step hframe hpaint (List.range numSquares) g hwf
  refine ⟨h.1, fun y x => ⟨fun hin hon => ?_, fun hn => ?_⟩⟩
  · obtain ⟨k, hk, hx, hy⟩ := hon
    have hc : inBoard W H x y ∧ ∃ k ∈ List.range numSquares,
        x = g.curX + g.dx.getD k 0 ∧ y = g.curY + g.dy.getD k 0 :=
      ⟨hin, k, List.mem_range.2 hk, hx, hy⟩
    exact (h.2 y x).trans (if_pos hc)
  · have hc : ¬ (inBoard W H x y ∧ ∃ k ∈ List.range numSquares,
        x = g.curX + g.dx.getD k 0 ∧ y = g.curY + g.dy.getD k 0) := by
      rintro ⟨hin, k, hk, hx, hy⟩
      exact hn ⟨hin, k, List.mem_range.1 hk, hx, hy⟩
    exact (h.2 y x).trans (if_neg hc)

/-! ### `erasePiece` -/

theorem erasePieceStep_frame (W H : Nat) (g : Game) (k : Nat) :
    erasePieceStep W H g k = { g with board := (erasePieceStep W H g k).board } := by
  by_cases h : inBoard W H (g.curX + g.dx.getD k 0) (g.curY + g.dy.getD k 0)
  · simp only [erasePieceStep, h, if_true]
  · simp only [erasePieceStep, h, if_false]

theorem erasePiece_frame (W H : Nat) (g : Game) :
    erasePiece W H g = { g with board := (erasePiece W H g).board } := by
  unfold erasePiece
  generalize List.range numSquares = ks
  induction ks generalizing g with
  | nil => rfl
  | cons k ks ih =>
    rw [List.foldl_cons, ih, erasePieceStep_frame]

/-- `erasePiece` writes `0` at the cells of the piece that are on the board and leaves
every other cell as it was. -/
theorem erasePiece_board (W H : Nat) (g : Game) (hwf : BoardWF W H g.board) :
    BoardWF W H (erasePiece W H g).board ∧
    ∀ y x, (inBoard W H x y → onPiece g y x → cellAt (erasePiece W H g).board y x = 0) ∧
      (¬ (inBoard W H x y ∧ onPiece g y x) →
        cellAt (erasePiece W H g).board y x = cellAt g.board y x) :=
  paint_piece W H (fun _ => 0) (erasePieceStep W H)
    (fun g k => by
      rw [erasePieceStep_frame]; exact ⟨rfl, rfl, rfl, rfl, rfl⟩)
    (fun g k hwf => by
      by_cases hin : inBoard W H (g.curX + g.dx.getD k 0) (g.curY + g.dy.getD k 0)
      · simp only [erasePieceStep, hin, if_true]
        exact ⟨setAt_wf hwf _ _ _, fun y x => cellAt_setAt_paint hwf hin 0 y x⟩
      · simp only [erasePieceStep, hin, if_false]
        exact ⟨hwf, fun y x => by rw [if_neg (not_paint_cond hin y x)]⟩)
    g hwf

/-! ### `placePiece` -/

theorem placePieceStep_pos {W H : Nat} {g : Game} {k : Nat}
    (h : inBoard W H (g.curX + g.dx.getD k 0) (g.curY + g.dy.getD k 0) ∧
      cellAt g.board (g.curY + g.dy.getD k 0) (g.curX + g.dx.getD k 0) ≠ -g.curPiece) :
    placePieceStep W H g k =
      { g with board := setAt g.board (g.curY + g.dy.getD k 0) (g.curX + g.dx.getD k 0)
                          (-g.curPiece) } :=
  if_pos h

theorem placePieceStep_neg {W H : Nat} {g : Game} {k : Nat}
    (h : ¬ (inBoard W H (g.curX + g.dx.getD k 0) (g.curY + g.dy.getD k 0) ∧
      cellAt g.board (g.curY + g.dy.getD k 0) (g.curX + g.dx.getD k 0) ≠ -g.curPiece)) :
    placePieceStep W H g k = g :=
  if_neg h

theorem placePieceStep_frame (W H : Nat) (g : Game) (k : Nat) :
    placePieceStep W H g k = { g with board := (placePieceStep W H g k).board } := by
  by_cases h : inBoard W H (g.curX + g.dx.getD k 0) (g.curY + g.dy.getD k 0) ∧
      cellAt g.board (g.curY + g.dy.getD k 0) (g.curX + g.dx.getD k 0) ≠ -g.curPiece
  · rw [placePieceStep_pos h]
  · rw [placePieceStep_neg h]

theorem placePiece_frame (W H : Nat) (g : Game) :
    placePiece W H g = { g with board := (placePiece W H g).board } := by
  unfold placePiece
  generalize List.range numSquares = ks
  induction ks generalizing g with
  | nil => rfl
  | cons k ks ih =>
    rw [List.foldl_cons, ih, placePieceStep_frame]

/-- `placePiece` leaves `-curPiece` at the cells of the piece that are on the board and
leaves every other cell as it was. -/
theorem placePiece_board (W H : Nat) (g : Game) (hwf : BoardWF W H g.board) :
    BoardWF W H (placePiece W H g).board ∧
    ∀ y x, (inBoard W H x y → onPiece g y x →
        cellAt (placePiece W H g).board y x = -g.curPiece) ∧
      (¬ (inBoard W H x y ∧ onPiece g y x) →
        cellAt (placePiece W H g).board y x = cellAt g.board y x) :=
  paint_piece W H (fun c => -c) (placePieceStep W H)
    (fun g k => by
      rw [placePieceStep_frame]; exact ⟨rfl, rfl, rfl, rfl, rfl⟩)
    (fun g k hwf => by
      by_cases hc : inBoard W H (g.curX + g.dx.getD k 0) (g.curY + g.dy.getD k 0) ∧
          cellAt g.board (g.curY + g.dy.getD k 0) (g.curX + g.dx.getD k 0) ≠ -g.curPiece
      · rw [placePieceStep_pos hc]
        exact ⟨setAt_wf hwf _ _ _, fun y x => cellAt_setAt_paint hwf hc.1 _ y x⟩
      · rw [placePieceStep_neg hc]
        refine ⟨hwf, fun y x => ?_⟩
        by_cases hxy : inBoard W H x y ∧
            x = g.curX + g.dx.getD k 0 ∧ y = g.curY + g.dy.getD k 0
        · rw [if_pos hxy]
          obtain ⟨hin, rfl, rfl⟩ := hxy
          by_contra hne
          exact hc ⟨hin, hne⟩
        · rw [if_neg hxy])
    g hwf

/-! ### `fillMatrix` -/

theorem fillMatrixStep_in_lt {W H : Nat} {g : Game} {k : Nat}
    (h : inBoard W H (g.curX + g.dx.getD k 0) (g.curY + g.dy.getD k 0))
    (h2 : g.curY + g.dy.getD k 0 < g.skyline) :
    fillMatrixStep W H g k =
      { g with board := setAt g.board (g.curY + g.dy.getD k 0) (g.curX + g.dx.getD k 0)
                          g.curPiece
               skyline := g.curY + g.dy.getD k 0 } := by
  unfold fillMatrixStep
  simp only []
  rw [if_pos h, if_pos h2]

theorem fillMatrixStep_in_ge {W H : Nat} {g : Game} {k : Nat}
    (h : inBoard W H (g.curX + g.dx.getD k 0) (g.curY + g.dy.getD k 0))
    (h2 : ¬ g.curY + g.dy.getD k 0 < g.skyline) :
    fillMatrixStep W H g k =
      { g with board := setAt g.board (g.curY + g.dy.getD k 0) (g.curX + g.dx.getD k 0)
                          g.curPiece } := by
  unfold fillMatrixStep
  simp only []
  rw [if_pos h, if_neg h2]

theorem fillMatrixStep_out {W H : Nat} {g : Game} {k : Nat}
    (h : ¬ inBoard W H (g.curX + g.dx.getD k 0) (g.curY + g.dy.getD k 0)) :
    fillMatrixStep W H g k = g :=
  if_neg h

theorem fillMatrixStep_frame (W H : Nat) (g : Game) (k : Nat) :
    fillMatrixStep W H g k =
      { g with board := (fillMatrixStep W H g k).board
               skyline := (fillMatrixStep W H g k).skyline } := by
  by_cases h : inBoard W H (g.curX + g.dx.getD k 0) (g.curY + g.dy.getD k 0)
  · by_cases h2 : g.curY + g.dy.getD k 0 < g.skyline
    · rw [fillMatrixStep_in_lt h h2]
    · rw [fillMatrixStep_in_ge h h2]
  · rw [fillMatrixStep_out h]

theorem fillMatrix_frame (W H : Nat) (g : Game) :
    fillMatrix W H g =
      { g with board := (fillMatrix W H g).board, skyline := (fillMatrix W H g).skyline } := by
  unfold fillMatrix
  generalize List.range numSquares = ks
  induction ks generalizing g with
  | nil => rfl
  | cons k ks ih =>
    rw [List.foldl_cons, ih, fillMatrixStep_frame]

/-- `fillMatrix` writes `curPiece` at the cells of the piece that are on the board and
leaves every other cell as it was. -/
theorem fillMatrix_board (W H : Nat) (g : Game) (hwf : BoardWF W H g.board) :
    BoardWF W H (fillMatrix W H g).board ∧
    ∀ y x, (inBoard W H x y → onPiece g y x →
        cellAt (fillMatrix W H g).board y x = g.curPiece) ∧
      (¬ (inBoard W H x y ∧ onPiece g y x) →
        cellAt (fillMatrix W H g).board y x = cellAt g.board y x) :=
  paint_piece W H (fun c => c) (fillMatrixStep W H)
    (fun g k => by
      rw [fillMatrixStep_frame]; exact ⟨rfl, rfl, rfl, rfl, rfl⟩)
    (fun g k hwf => by
      by_cases hin : inBoard W H (g.curX + g.dx.getD k 0) (g.curY + g.dy.getD k 0)
      · have hb : (fillMatrixStep W H g k).board =
            setAt g.board (g.curY + g.dy.getD k 0) (g.curX + g.dx.getD k 0) g.curPiece := by
          by_cases h2 : g.curY + g.dy.getD k 0 < g.skyline
          · rw [fillMatrixStep_in_lt hin h2]
          · rw [fillMatrixStep_in_ge hin h2]
        rw [hb]
        exact ⟨setAt_wf hwf _ _ _, fun y x => cellAt_setAt_paint hwf hin _ y x⟩
      · rw [fillMatrixStep_out hin]
        exact ⟨hwf, fun y x => by rw [if_neg (not_paint_cond hin y x)]⟩)
    g hwf

/-- The skyline after a run of `fillMatrixStep` is the least of the old skyline and the
rows of the cells written. -/
theorem fillMatrix_skyline_foldl (W H : Nat) (ks : List Nat) (g : Game) :
    (ks.foldl (fillMatrixStep W H) g).skyline ≤ g.skyline ∧
    (∀ k ∈ ks, inBoard W H (g.curX + g.dx.getD k 0) (g.curY + g.dy.getD k 0) →
      (ks.foldl (fillMatrixStep W H) g).skyline ≤ g.curY + g.dy.getD k 0) ∧
    ((ks.foldl (fillMatrixStep W H) g).skyline = g.skyline ∨
      ∃ k ∈ ks, inBoard W H (g.curX + g.dx.getD k 0) (g.curY + g.dy.getD k 0) ∧
        (ks.foldl (fillMatrixStep W H) g).skyline = g.curY + g.dy.getD k 0) := by
  induction ks generalizing g with
  | nil => exact ⟨le_refl _, fun k hk => absurd hk (List.not_mem_nil k), Or.inl rfl⟩
  | cons k ks ih =>
    obtain ⟨h1, h2, h3⟩ := ih (fillMatrixStep W H g k)
    have hfr := fillMatrixStep_frame W H g k
    have hX : (fillMatrixStep W H g k).curX = g.curX := by rw [hfr]
    have hY : (fillMatrixStep W H g k).curY = g.curY := by rw [hfr]
    have hdx : (fillMatrixStep W H g k).dx = g.dx := by rw [hfr]
    have hdy : (fillMatrixStep W H g k).dy = g.dy := by rw [hfr]
    rw [hX, hY, hdx, hdy] at h2 h3
    rw [List.foldl_cons]
    have hs : (fillMatrixStep W H g k).skyline ≤ g.skyline ∧
        (inBoard W H (g.curX + g.dx.getD k 0) (g.curY + g.dy.getD k 0) →
          (fillMatrixStep W H g k).skyline ≤ g.curY + g.dy.getD k 0) ∧
        ((fillMatrixStep W H g k).skyline = g.skyline ∨
          (inBoard W H (g.curX + g.dx.getD k 0) (g.curY + g.dy.getD k 0) ∧
            (fillMatrixStep W H g k).skyline = g.curY + g.dy.getD k 0)) := by
      by_cases hin : inBoard W H (g.curX + g.dx.getD k 0) (g.curY + g.dy.getD k 0)
      · by_cases hlt : g.curY + g.dy.getD k 0 < g.skyline
        · rw [fillMatrixStep_in_lt hin hlt]
          exact ⟨le_of_lt hlt, fun _ => le_refl _, Or.inr ⟨hin, rfl⟩⟩
        · rw [fillMatrixStep_in_ge hin hlt]
          exact ⟨le_refl _, fun _ => not_lt.1 hlt, Or.inl rfl⟩
      · rw [fillMatrixStep_out hin]
        exact ⟨le_refl _, fun h => absurd h hin, Or.inl rfl⟩
    obtain ⟨hs1, hs2, hs3⟩ := hs
    refine ⟨le_trans h1 hs1, ?_, ?_⟩
    · intro k' hk' hin
      rcases List.mem_cons.1 hk' with rfl | hm
      · exact le_trans h1 (hs2 hin)
      · exact h2 k' hm hin
    · rcases h3 with h3 | ⟨k', hk', hin, he⟩
      · rcases hs3 with hs3 | ⟨hin, he⟩
        · exact Or.inl (h3.trans hs3)
        · exact Or.inr ⟨k, List.mem_cons_self _ _, hin, h3.trans he⟩
      · exact Or.inr ⟨k', List.mem_cons_of_mem _ hk', hin, he⟩

/-! ## The loops over the offset slices -/

theorem length_four {l : List Int} (h : l.length = 4) : ∃ a b c d, l = [a, b, c, d] := by
  match l, h with
  | [a, b, c, d], _ => exact ⟨a, b, c, d, rfl⟩

theorem stageLive_eq (g : Game) (h1 : g.dxPrime.length = 4) (h2 : g.dyPrime.length = 4)
    (h3 : g.dx.length = 4) (h4 : g.dy.length = 4) :
    stageLive g = { g with dxPrime := g.dx, dyPrime := g.dy } := by
  obtain ⟨a1, b1, c1, d1, e1⟩ := length_four h1
  obtain ⟨a2, b2, c2, d2, e2⟩ := length_four h2
  obtain ⟨a3, b3, c3, d3, e3⟩ := length_four h3
  obtain ⟨a4, b4, c4, d4, e4⟩ := length_four h4
  cases g
  simp only at e1 e2 e3 e4
  subst e1 e2 e3 e4
  rfl

theorem stageRotated_eq (g : Game) (h1 : g.dxPrime.length = 4) (h2 : g.dyPrime.length = 4)
    (h3 : g.dx.length = 4) (h4 : g.dy.length = 4) :
    stageRotated g = { g with dxPrime := g.dy, dyPrime := g.dx.map fun a => -a } := by
  obtain ⟨a1, b1, c1, d1, e1⟩ := length_four h1
  obtain ⟨a2, b2, c2, d2, e2⟩ := length_four h2
  obtain ⟨a3, b3, c3, d3, e3⟩ := length_four h3
  obtain ⟨a4, b4, c4, d4, e4⟩ := length_four h4
  cases g
  simp only at e1 e2 e3 e4
  subst e1 e2 e3 e4
  rfl

theorem commitStaged_eq (g : Game) (h1 : g.dxPrime.length = 4) (h2 : g.dyPrime.length = 4)
    (h3 : g.dx.length = 4) (h4 : g.dy.length = 4) :
    commitStaged g = { g with dx := g.dxPrime, dy := g.dyPrime } := by
  obtain ⟨a1, b1, c1, d1, e1⟩ := length_four h1
  obtain ⟨a2, b2, c2, d2, e2⟩ := length_four h2
  obtain ⟨a3, b3, c3, d3, e3⟩ := length_four h3
  obtain ⟨a4, b4, c4, d4, e4⟩ := length_four h4
  cases g
  simp only at e1 e2 e3 e4
  subst e1 e2 e3 e4
  rfl

/-- The offsets of piece type `t`, as `getPiece` loads them. -/
theorem loadBank_eq (g : Game) (h3 : g.dx.length = 4) (h4 : g.dy.length = 4)
    (hp1 : 1 ≤ g.curPiece) (hp7 : g.curPiece ≤ 7) :
    loadBank g = { g with dx := dxBank.getD g.curPiece.toNat []
                          dy := dyBank.getD g.curPiece.toNat [] } := by
  obtain ⟨a3, b3, c3, d3, e3⟩ := length_four h3
  obtain ⟨a4, b4, c4, d4, e4⟩ := length_four h4
  cases g with
  | mk curLevel curX curY curPiece skyline state numLines board dx dy dxPrime dyPrime timer =>
  simp only at e3 e4 hp1 hp7
  subst e3 e4
  have : curPiece = 1 ∨ curPiece = 2 ∨ curPiece = 3 ∨ curPiece = 4 ∨ curPiece = 5 ∨
      curPiece = 6 ∨ curPiece = 7 := by omega
  rcases this with rfl | rfl | rfl | rfl | rfl | rfl | rfl <;> rfl

/-! ## The fit test -/

/-- `pieceFits` fails exactly when one of the four staged cells is outside the columns of
the board, at or below row `boardHeight`, or on a row `≥ 0` at a positive cell. -/
theorem pieceFits_eq_false_iff (boardWidth boardHeight : Nat) (g : Game) (x y : Int) :
    pieceFits boardWidth boardHeight g x y = false ↔
      ∃ k, k < 4 ∧
        (x + g.dxPrime.getD k 0 < 0 ∨ (boardWidth : Int) ≤ x + g.dxPrime.getD k 0 ∨
          (boardHeight : Int) ≤ y + g.dyPrime.getD k 0 ∨
          (0 ≤ y + g.dyPrime.getD k 0 ∧
            0 < cellAt g.board (y + g.dyPrime.getD k 0) (x + g.dxPrime.getD k 0))) := by
  unfold pieceFits
  rw [← Bool.not_eq_true, List.all_eq_true]
  simp only [List.mem_range, numSquares, not_forall]
  constructor
  · rintro ⟨k, hk, h⟩
    refine ⟨k, hk, ?_⟩
    by_contra hcon
    apply h
    simp only [not_or, not_and, not_lt, not_le] at hcon
    obtain ⟨h1, h2, h3, h4⟩ := hcon
    have hA : ¬ (x + g.dxPrime.getD k 0 < 0 ∨ x + g.dxPrime.getD k 0 ≥ (boardWidth : Int) ∨
        y + g.dyPrime.getD k 0 ≥ (boardHeight : Int)) := by
      intro hh; omega
    have hB : ¬ (y + g.dyPrime.getD k 0 > -1 ∧
        cellAt g.board (y + g.dyPrime.getD k 0) (x + g.dxPrime.getD k 0) > 0) := by
      rintro ⟨ha, hb⟩
      have := h4 (by omega)
      omega
    simp only [hA, hB, if_false]
  · rintro ⟨k, hk, h⟩
    refine ⟨k, hk, ?_⟩
    intro hcon
    by_cases hA : (x + g.dxPrime.getD k 0 < 0 ∨ x + g.dxPrime.getD k 0 ≥ (boardWidth : Int) ∨
        y + g.dyPrime.getD k 0 ≥ (boardHeight : Int))
    · simp only [hA, if_true] at hcon
      exact absurd hcon (by decide)
    · by_cases hB : (y + g.dyPrime.getD k 0 > -1 ∧
        cellAt g.board (y + g.dyPrime.getD k 0) (x + g.dxPrime.getD k 0) > 0)
      · simp only [hA, hB, if_true, if_false] at hcon
        exact absurd hcon (by decide)
      · apply hA
        rcases h with h | h | h | ⟨h, h'⟩
        · exact Or.inl h
        · exact Or.inr (Or.inl h)
        · exact Or.inr (Or.inr h)
        · exact absurd ⟨by omega, h'⟩ hB

theorem pieceFits_eq_true_iff (W H : Nat) (g : Game) (x y : Int) :
    pieceFits W H g x y = true ↔
      ∀ k, k < 4 →
        0 ≤ x + g.dxPrime.getD k 0 ∧ x + g.dxPrime.getD k 0 < (W : Int) ∧
          y + g.dyPrime.getD k 0 < (H : Int) ∧
          (0 ≤ y + g.dyPrime.getD k 0 →
            cellAt g.board (y + g.dyPrime.getD k 0) (x + g.dxPrime.getD k 0) ≤ 0) := by
  rw [← Bool.not_eq_false, pieceFits_eq_false_iff]
  constructor
  · intro h k hk
    by_contra hcon
    apply h
    refine ⟨k, hk, ?_⟩
    by_contra hno
    apply hcon
    simp only [not_or, not_and, not_lt, not_le] at hno
    obtain ⟨h1, h2, h3, h4⟩ := hno
    exact ⟨h1, h2, h3, h4⟩
  · rintro h ⟨k, hk, hbad⟩
    obtain ⟨h1, h2, h3, h4⟩ := h k hk
    rcases hbad with hb | hb | hb | ⟨hb, hb'⟩
    · omega
    · omega
    · omega
    · have := h4 hb
      omega

/-- The fit test reads only the board and the staged offsets. -/
theorem pieceFits_congr (W H : Nat) {g g' : Game} (hb : g'.board = g.board)
    (hx : g'.dxPrime = g.dxPrime) (hy : g'.dyPrime = g.dyPrime) (x y : Int) :
    pieceFits W H g' x y = pieceFits W H g x y := by
  unfold pieceFits
  rw [hb, hx, hy]

/-! ## Moving the piece: erase, change position or orientation, place -/

/-- The board after `erasePiece`, a change of position and orientation, and
`placePiece`. -/
theorem relocate_spec (W H : Nat) (g1 : Game) (hwf : BoardWF W H g1.board) (nx ny : Int)
    (ndx ndy : List Int) :
    placePiece W H { erasePiece W H g1 with curX := nx, curY := ny, dx := ndx, dy := ndy } =
      { g1 with curX := nx, curY := ny, dx := ndx, dy := ndy,
                board := (placePiece W H { erasePiece W H g1 with
                  curX := nx, curY := ny, dx := ndx, dy := ndy }).board } ∧
    BoardWF W H (placePiece W H { erasePiece W H g1 with
      curX := nx, curY := ny, dx := ndx, dy := ndy }).board ∧
    ∀ y x,
      (inBoard W H x y → onCells nx ny ndx ndy y x →
        cellAt (placePiece W H { erasePiece W H g1 with
          curX := nx, curY := ny, dx := ndx, dy := ndy }).board y x = -g1.curPiece) ∧
      (inBoard W H x y → ¬ onCells nx ny ndx ndy y x → onPiece g1 y x →
        cellAt (placePiece W H { erasePiece W H g1 with
          curX := nx, curY := ny, dx := ndx, dy := ndy }).board y x = 0) ∧
      (¬ (inBoard W H x y ∧ (onCells nx ny ndx ndy y x ∨ onPiece g1 y x)) →
        cellAt (placePiece W H { erasePiece W H g1 with
          curX := nx, curY := ny, dx := ndx, dy := ndy }).board y x = cellAt g1.board y x) := by
  obtain ⟨hwfE, hcE⟩ := erasePiece_board W H g1 hwf
  have hfE := erasePiece_frame W H g1
  generalize erasePiece W H g1 = gE at hwfE hcE hfE ⊢
  have hwfM : BoardWF W H
      ({ gE with curX := nx, curY := ny, dx := ndx, dy := ndy } : Game).board := hwfE
  obtain ⟨hwfP, hcP⟩ := placePiece_board W H _ hwfM
  have hfP := placePiece_frame W H { gE with curX := nx, curY := ny, dx := ndx, dy := ndy }
  generalize placePiece W H { gE with curX := nx, curY := ny, dx := ndx, dy := ndy } = gP
    at hwfP hcP hfP ⊢
  have hcp : gE.curPiece = g1.curPiece := by rw [hfE]
  refine ⟨?_, hwfP, fun y x => ⟨fun hin hon => ?_, fun hin hnon hold => ?_, fun hn => ?_⟩⟩
  · rw [hfP, hfE]
  · rw [← hcp]
    exact (hcP y x).1 hin hon
  · rw [(hcP y x).2 (fun h => hnon h.2)]
    exact (hcE y x).1 hin hold
  · rw [(hcP y x).2 (fun h => hn ⟨h.1, Or.inl h.2⟩)]
    exact (hcE y x).2 (fun h => hn ⟨h.1, Or.inr h.2⟩)

/-- Moving the piece of a started game to a position and orientation that pass the fit
test keeps the invariant, and neither adds, removes nor changes a settled cell. -/
theorem relocate_inv (W H : Nat) (g : Game) (hinv : Inv W H g)
    (hst : g.state = GameState.gameStarted) (nx ny : Int) (ndx ndy : List Int)
    (t : Option Int) (hl1 : ndx.length = 4) (hl2 : ndy.length = 4)
    (hnd : (List.zip ndx ndy).Nodup)
    (hfit : pieceFits W H { g with dxPrime := ndx, dyPrime := ndy, fallingTimer := t }
      nx ny = true) :
    Inv W H (placePiece W H
      { erasePiece W H { g with dxPrime := ndx, dyPrime := ndy, fallingTimer := t } with
        curX := nx, curY := ny, dx := ndx, dy := ndy }) ∧
    ∀ y x, inBoard W H x y →
      (0 < cellAt (placePiece W H
        { erasePiece W H { g with dxPrime := ndx, dyPrime := ndy, fallingTimer := t } with
          curX := nx, curY := ny, dx := ndx, dy := ndy }).board y x ∨
        0 < cellAt g.board y x) →
      cellAt (placePiece W H
        { erasePiece W H { g with dxPrime := ndx, dyPrime := ndy, fallingTimer := t } with
          curX := nx, curY := ny, dx := ndx, dy := ndy }).board y x = cellAt g.board y x := by
  have hwf1 : BoardWF W H
      ({ g with dxPrime := ndx, dyPrime := ndy, fallingTimer := t } : Game).board := hinv.wf
  obtain ⟨hfr, hwfP, hc⟩ := relocate_spec W H _ hwf1 nx ny ndx ndy
  generalize placePiece W H
    { erasePiece W H { g with dxPrime := ndx, dyPrime := ndy, fallingTimer := t } with
      curX := nx, curY := ny, dx := ndx, dy := ndy } = gP at hfr hwfP hc ⊢
  have hact : Active g := Or.inl hst
  obtain ⟨hp1, hp7, _, hpc⟩ := hinv.piece hact
  have hfit' := (pieceFits_eq_true_iff W H _ nx ny).1 hfit
  simp only at hfit' hc
  have hstP : gP.state = GameState.gameStarted := by rw [hfr]; exact hst
  have hactP : Active gP := Or.inl hstP
  have honP : ∀ y x, onPiece gP y x ↔ onCells nx ny ndx ndy y x := by
    intro y x; rw [hfr]; exact Iff.rfl
  have hcpP : gP.curPiece = g.curPiece := by rw [hfr]
  -- the three kinds of cell
  have hnew : ∀ y x, inBoard W H x y → onCells nx ny ndx ndy y x →
      cellAt gP.board y x = -g.curPiece ∧ cellAt g.board y x ≤ 0 := by
    intro y x hin hon
    refine ⟨(hc y x).1 hin hon, ?_⟩
    obtain ⟨k, hk, hx, hy⟩ := hon
    have := (hfit' k hk).2.2.2
    rw [hx, hy]
    exact this (by rw [← hy]; exact hin.1)
  have hold : ∀ y x, inBoard W H x y → ¬ onCells nx ny ndx ndy y x → onPiece g y x →
      cellAt gP.board y x = 0 ∧ cellAt g.board y x = -g.curPiece := by
    intro y x hin hnon hon
    exact ⟨(hc y x).2.1 hin hnon hon, hpc y x hin hon⟩
  have hrest : ∀ y x, ¬ onCells nx ny ndx ndy y x → ¬ onPiece g y x →
      cellAt gP.board y x = cellAt g.board y x := by
    intro y x h1 h2
    exact (hc y x).2.2 (fun h => h.2.elim h1 h2)
  refine ⟨?_, ?_⟩
  · refine
      { wf := hwfP
        len_dx := by rw [hfr]; exact hl1
        len_dy := by rw [hfr]; exact hl2
        len_dxPrime := by rw [hfr]; exact hl1
        len_dyPrime := by rw [hfr]; exact hl2
        neg_cells := ?_
        pos_cells := ?_
        piece := ?_
        intro := ?_
        level := by rw [hfr]; exact hinv.level
        fits := ?_ }
    · intro y x hin hneg
      refine ⟨hactP, ?_⟩
      rw [honP]
      by_contra hnon
      by_cases hon : onPiece g y x
      · rw [(hold y x hin hnon hon).1] at hneg
        exact lt_irrefl _ hneg
      · rw [hrest y x hnon hon] at hneg
        exact hon (hinv.neg_cells y x hin hneg).2
    · intro y x hin hpos
      have hsk : gP.skyline = g.skyline := by rw [hfr]
      rw [hsk]
      by_cases hon' : onCells nx ny ndx ndy y x
      · rw [(hnew y x hin hon').1] at hpos
        omega
      · by_cases hon : onPiece g y x
        · rw [(hold y x hin hon' hon).1] at hpos
          exact absurd hpos (lt_irrefl _)
        · rw [hrest y x hon' hon] at hpos ⊢
          exact hinv.pos_cells y x hin hpos
    · intro _
      refine ⟨by rw [hcpP]; exact hp1, by rw [hcpP]; exact hp7, by rw [hfr]; exact hnd, ?_⟩
      intro y x hin hon
      rw [hcpP]
      exact (hnew y x hin ((honP y x).1 hon)).1
    · intro hi
      rw [hstP] at hi
      exact absurd hi (by decide)
    · intro _ _ _ k hk
      have := hfit' k hk
      rw [hfr]
      exact ⟨this.1, this.2.1, this.2.2.1⟩
  · intro y x hin hpos
    by_cases hon' : onCells nx ny ndx ndy y x
    · obtain ⟨h1, h2⟩ := hnew y x hin hon'
      rw [h1] at hpos
      omega
    · by_cases hon : onPiece g y x
      · obtain ⟨h1, h2⟩ := hold y x hin hon' hon
        rw [h1, h2] at hpos
        omega
      · exact hrest y x hon' hon

/-! ## The invariant under the moves -/

/-- Staging offsets and touching the timer do not disturb the invariant. -/
theorem inv_staged {W H : Nat} {g : Game} (hinv : Inv W H g) (a b : List Int)
    (t : Option Int) (ha : a.length = 4) (hb : b.length = 4) :
    Inv W H { g with dxPrime := a, dyPrime := b, fallingTimer := t } :=
  { wf := hinv.wf
    len_dx := hinv.len_dx
    len_dy := hinv.len_dy
    len_dxPrime := ha
    len_dyPrime := hb
    neg_cells := hinv.neg_cells
    pos_cells := hinv.pos_cells
    piece := hinv.piece
    intro := hinv.intro
    level := hinv.level
    fits := hinv.fits }

theorem inv_timer {W H : Nat} {g : Game} (hinv : Inv W H g) (t : Option Int) :
    Inv W H { g with fallingTimer := t } :=
  inv_staged hinv g.dxPrime g.dyPrime t hinv.len_dxPrime hinv.len_dyPrime

theorem inv_stageLive {W H : Nat} {g : Game} (hinv : Inv W H g) : Inv W H (stageLive g) := by
  rw [stageLive_eq g hinv.len_dxPrime hinv.len_dyPrime hinv.len_dx hinv.len_dy]
  exact inv_staged hinv g.dx g.dy g.fallingTimer hinv.len_dx hinv.len_dy

/-- Rotating four distinct offsets gives four distinct offsets. -/
theorem nodup_rotated {dx dy : List Int} (h1 : dx.length = 4) (h2 : dy.length = 4)
    (hnd : (List.zip dx dy).Nodup) : (List.zip dy (dx.map fun a => -a)).Nodup := by
  obtain ⟨a1, b1, c1, d1, rfl⟩ := length_four h1
  obtain ⟨a2, b2, c2, d2, rfl⟩ := length_four h2
  have hinj : Function.Injective (fun p : Int × Int => (p.2, -p.1)) := by
    rintro ⟨u1, v1⟩ ⟨u2, v2⟩ h
    simp only [Prod.mk.injEq, neg_inj] at h
    rw [h.1, h.2]
  exact hnd.map hinj

/-- `moveLeft`, `moveRight` and `moveDown` of a started game whose piece fits at the new
position `(nx, ny)`. -/
theorem shift_eq (W H : Nat) (g : Game) (nx ny : Int) (gE : Game)
    (hE : gE = erasePiece W H { g with dxPrime := g.dx, dyPrime := g.dy })
    (gM : Game) (hM : gM = { gE with curX := nx, curY := ny }) :
    placePiece W H gM =
      placePiece W H
        { erasePiece W H { g with dxPrime := g.dx, dyPrime := g.dy,
                                  fallingTimer := g.fallingTimer } with
          curX := nx, curY := ny, dx := g.dx, dy := g.dy } := by
  subst hM hE
  congr 1
  rw [erasePiece_frame]

theorem moveLeft_of_fit (W H : Nat) (g : Game) (hinv : Inv W H g)
    (hst : g.state = GameState.gameStarted)
    (hfit : pieceFits W H { g with dxPrime := g.dx, dyPrime := g.dy }
      (g.curX - 1) g.curY = true) :
    moveLeft W H g =
      placePiece W H
        { erasePiece W H { g with dxPrime := g.dx, dyPrime := g.dy,
                                  fallingTimer := g.fallingTimer } with
          curX := g.curX - 1, curY := g.curY, dx := g.dx, dy := g.dy } := by
  unfold moveLeft
  rw [if_neg (not_not.2 hst)]
  simp only [stageLive_eq g hinv.len_dxPrime hinv.len_dyPrime hinv.len_dx hinv.len_dy]
  rw [if_pos hfit]
  apply shift_eq W H g _ _ _ rfl
  rw [erasePiece_frame]

theorem moveLeft_of_not_fit (W H : Nat) (g : Game) (hinv : Inv W H g)
    (hst : g.state = GameState.gameStarted)
    (hfit : ¬ pieceFits W H { g with dxPrime := g.dx, dyPrime := g.dy }
      (g.curX - 1) g.curY = true) :
    moveLeft W H g = { g with dxPrime := g.dx, dyPrime := g.dy } := by
  unfold moveLeft
  rw [if_neg (not_not.2 hst)]
  simp only [stageLive_eq g hinv.len_dxPrime hinv.len_dyPrime hinv.len_dx hinv.len_dy]
  rw [if_neg hfit]

theorem moveLeft_of_not_started (W H : Nat) (g : Game)
    (hst : g.state ≠ GameState.gameStarted) : moveLeft W H g = g := by
  unfold moveLeft
  rw [if_pos hst]

theorem moveLeft_inv (W H : Nat) (g : Game) (hinv : Inv W H g) : Inv W H (moveLeft W H g) := by
  by_cases hst : g.state = GameState.gameStarted
  · by_cases hfit : pieceFits W H { g with dxPrime := g.dx, dyPrime := g.dy }
        (g.curX - 1) g.curY = true
    · rw [moveLeft_of_fit W H g hinv hst hfit]
      exact (relocate_inv W H g hinv hst _ _ g.dx g.dy g.fallingTimer hinv.len_dx hinv.len_dy
        (hinv.piece (Or.inl hst)).2.2.1 hfit).1
    · rw [moveLeft_of_not_fit W H g hinv hst hfit]
      exact inv_staged hinv g.dx g.dy g.fallingTimer hinv.len_dx hinv.len_dy
  · rw [moveLeft_of_not_started W H g hst]
    exact hinv

theorem moveRight_of_fit (W H : Nat) (g : Game) (hinv : Inv W H g)
    (hst : g.state = GameState.gameStarted)
    (hfit : pieceFits W H { g with dxPrime := g.dx, dyPrime := g.dy }
      (g.curX + 1) g.curY = true) :
    moveRight W H g =
      placePiece W H
        { erasePiece W H { g with dxPrime := g.dx, dyPrime := g.dy,
                                  fallingTimer := g.fallingTimer } with
          curX := g.curX + 1, curY := g.curY, dx := g.dx, dy := g.dy } := by
  unfold moveRight
  rw [if_neg (not_not.2 hst)]
  simp only [stageLive_eq g hinv.len_dxPrime hinv.len_dyPrime hinv.len_dx hinv.len_dy]
  rw [if_pos hfit]
  apply shift_eq W H g _ _ _ rfl
  rw [erasePiece_frame]

theorem moveRight_of_not_fit (W H : Nat) (g : Game) (hinv : Inv W H g)
    (hst : g.state = GameState.gameStarted)
    (hfit : ¬ pieceFits W H { g with dxPrime := g.dx, dyPrime := g.dy }
      (g.curX + 1) g.curY = true) :
    moveRight W H g = { g with dxPrime := g.dx, dyPrime := g.dy } := by
  unfold moveRight
  rw [if_neg (not_not.2 hst)]
  simp only [stageLive_eq g hinv.len_dxPrime hinv.len_dyPrime hinv.len_dx hinv.len_dy]
  rw [if_neg hfit]

theorem moveRight_of_not_started (W H : Nat) (g : Game)
    (hst : g.state ≠ GameState.gameStarted) : moveRight W H g = g := by
  unfold moveRight
  rw [if_pos hst]

theorem moveRight_inv (W H : Nat) (g : Game) (hinv : Inv W H g) :
    Inv W H (moveRight W H g) := by
  by_cases hst : g.state = GameState.gameStarted
  · by_cases hfit : pieceFits W H { g with dxPrime := g.dx, dyPrime := g.dy }
        (g.curX + 1) g.curY = true
    · rw [moveRight_of_fit W H g hinv hst hfit]
      exact (relocate_inv W H g hinv hst _ _ g.dx g.dy g.fallingTimer hinv.len_dx hinv.len_dy
        (hinv.piece (Or.inl hst)).2.2.1 hfit).1
    · rw [moveRight_of_not_fit W H g hinv hst hfit]
      exact inv_staged hinv g.dx g.dy g.fallingTimer hinv.len_dx hinv.len_dy
  · rw [moveRight_of_not_started W H g hst]
    exact hinv

theorem moveDown_of_fit (W H : Nat) (g : Game) (hinv : Inv W H g)
    (hst : g.state = GameState.gameStarted)
    (hfit : pieceFits W H { g with dxPrime := g.dx, dyPrime := g.dy }
      g.curX (g.curY + 1) = true) :
    moveDown W H g =
      (placePiece W H
        { erasePiece W H { g with dxPrime := g.dx, dyPrime := g.dy,
                                  fallingTimer := g.fallingTimer } with
          curX := g.curX, curY := g.curY + 1, dx := g.dx, dy := g.dy }, true) := by
  unfold moveDown
  rw [if_neg (not_not.2 hst)]
  simp only [stageLive_eq g hinv.len_dxPrime hinv.len_dyPrime hinv.len_dx hinv.len_dy]
  have hfit' : ¬ (!pieceFits W H { g with dxPrime := g.dx, dyPrime := g.dy }
      g.curX (g.curY + 1)) = true := by
    rw [hfit]; decide
  rw [if_neg hfit']
  congr 1
  apply shift_eq W H g _ _ _ rfl
  rw [erasePiece_frame]

theorem moveDown_of_not_fit (W H : Nat) (g : Game) (hinv : Inv W H g)
    (hst : g.state = GameState.gameStarted)
    (hfit : ¬ pieceFits W H { g with dxPrime := g.dx, dyPrime := g.dy }
      g.curX (g.curY + 1) = true) :
    moveDown W H g = ({ g with dxPrime := g.dx, dyPrime := g.dy }, false) := by
  unfold moveDown
  rw [if_neg (not_not.2 hst)]
  simp only [stageLive_eq g hinv.len_dxPrime hinv.len_dyPrime hinv.len_dx hinv.len_dy]
  have hfit' : (!pieceFits W H { g with dxPrime := g.dx, dyPrime := g.dy }
      g.curX (g.curY + 1)) = true := by
    rw [Bool.not_eq_true] at hfit
    rw [hfit]; rfl
  rw [if_pos hfit']

theorem moveDown_of_not_started (W H : Nat) (g : Game)
    (hst : g.state ≠ GameState.gameStarted) : moveDown W H g = (g, false) := by
  unfold moveDown
  rw [if_pos hst]

theorem moveDown_inv (W H : Nat) (g : Game) (hinv : Inv W H g) :
    Inv W H (moveDown W H g).1 := by
  by_cases hst : g.state = GameState.gameStarted
  · by_cases hfit : pieceFits W H { g with dxPrime := g.dx, dyPrime := g.dy }
        g.curX (g.curY + 1) = true
    · rw [moveDown_of_fit W H g hinv hst hfit]
      exact (relocate_inv W H g hinv hst _ _ g.dx g.dy g.fallingTimer hinv.len_dx hinv.len_dy
        (hinv.piece (Or.inl hst)).2.2.1 hfit).1
    · rw [moveDown_of_not_fit W H g hinv hst hfit]
      exact inv_staged hinv g.dx g.dy g.fallingTimer hinv.len_dx hinv.len_dy
  · rw [moveDown_of_not_started W H g hst]
    exact hinv

theorem rotate_of_fit (W H : Nat) (g : Game) (hinv : Inv W H g)
    (hst : g.state = GameState.gameStarted)
    (hfit : pieceFits W H { g with dxPrime := g.dy, dyPrime := g.dx.map fun a => -a }
      g.curX g.curY = true) :
    rotate W H g =
      placePiece W H
        { erasePiece W H { g with dxPrime := g.dy, dyPrime := g.dx.map fun a => -a,
                                  fallingTimer := g.fallingTimer } with
          curX := g.curX, curY := g.curY, dx := g.dy, dy := g.dx.map fun a => -a } := by
  unfold rotate
  rw [if_neg (not_not.2 hst)]
  simp only [stageRotated_eq g hinv.len_dxPrime hinv.len_dyPrime hinv.len_dx hinv.len_dy]
  rw [if_pos hfit]
  have hl : (g.dx.map fun a => -a).length = 4 := by rw [List.length_map]; exact hinv.len_dx
  rw [commitStaged_eq _ (by rw [erasePiece_frame]; exact hinv.len_dy)
    (by rw [erasePiece_frame]; exact hl) (by rw [erasePiece_frame]; exact hinv.len_dx)
    (by rw [erasePiece_frame]; exact hinv.len_dy)]
  congr 1
  rw [erasePiece_frame]

theorem rotate_of_not_fit (W H : Nat) (g : Game) (hinv : Inv W H g)
    (hst : g.state = GameState.gameStarted)
    (hfit : ¬ pieceFits W H { g with dxPrime := g.dy, dyPrime := g.dx.map fun a => -a }
      g.curX g.curY = true) :
    rotate W H g = { g with dxPrime := g.dy, dyPrime := g.dx.map fun a => -a } := by
  unfold rotate
  rw [if_neg (not_not.2 hst)]
  simp only [stageRotated_eq g hinv.len_dxPrime hinv.len_dyPrime hinv.len_dx hinv.len_dy]
  rw [if_neg hfit]

theorem rotate_of_not_started (W H : Nat) (g : Game)
    (hst : g.state ≠ GameState.gameStarted) : rotate W H g = g := by
  unfold rotate
  rw [if_pos hst]

theorem rotate_inv (W H : Nat) (g : Game) (hinv : Inv W H g) : Inv W H (rotate W H g) := by
  have hl : (g.dx.map fun a => -a).length = 4 := by rw [List.length_map]; exact hinv.len_dx
  by_cases hst : g.state = GameState.gameStarted
  · by_cases hfit : pieceFits W H { g with dxPrime := g.dy, dyPrime := g.dx.map fun a => -a }
        g.curX g.curY = true
    · rw [rotate_of_fit W H g hinv hst hfit]
      exact (relocate_inv W H g hinv hst _ _ g.dy (g.dx.map fun a => -a) g.fallingTimer
        hinv.len_dy hl
        (nodup_rotated hinv.len_dx hinv.len_dy (hinv.piece (Or.inl hst)).2.2.1) hfit).1
    · rw [rotate_of_not_fit W H g hinv hst hfit]
      exact inv_staged hinv _ _ g.fallingTimer hinv.len_dy hl
  · rw [rotate_of_not_started W H g hst]
    exact hinv

/-! ## The hard drop -/

/-- The fit test does not see the cells of the active piece: erasing it first changes
no answer. -/
theorem pieceFits_erase (W H : Nat) (g : Game) (hinv : Inv W H g) (hact : Active g)
    (a b : List Int) (t : Option Int) (x y : Int) :
    pieceFits W H (erasePiece W H { g with dxPrime := a, dyPrime := b, fallingTimer := t }) x y
      = pieceFits W H { g with dxPrime := a, dyPrime := b, fallingTimer := t } x y := by
  have hwf1 : BoardWF W H
      ({ g with dxPrime := a, dyPrime := b, fallingTimer := t } : Game).board := hinv.wf
  obtain ⟨_, hcE⟩ := erasePiece_board W H _ hwf1
  have hfE := erasePiece_frame W H { g with dxPrime := a, dyPrime := b, fallingTimer := t }
  generalize erasePiece W H { g with dxPrime := a, dyPrime := b, fallingTimer := t } = gE
    at hcE hfE ⊢
  have hdx : gE.dxPrime = a := by rw [hfE]
  have hdy : gE.dyPrime = b := by rw [hfE]
  have hcell : ∀ cy cx, inBoard W H cx cy → (cellAt gE.board cy cx ≤ 0 ↔ cellAt g.board cy cx ≤ 0) := by
    intro cy cx hin
    by_cases hon : onPiece g cy cx
    · rw [(hcE cy cx).1 hin hon, (hinv.piece hact).2.2.2 cy cx hin hon]
      have := (hinv.piece hact).1
      constructor <;> intro _ <;> omega
    · rw [(hcE cy cx).2 (fun h => hon h.2)]
  rw [Bool.eq_iff_iff, pieceFits_eq_true_iff, pieceFits_eq_true_iff, hdx, hdy]
  constructor
  · intro h k hk
    obtain ⟨h1, h2, h3, h4⟩ := h k hk
    exact ⟨h1, h2, h3, fun h0 => (hcell _ _ ⟨h0, h3, h1, h2⟩).1 (h4 h0)⟩
  · intro h k hk
    obtain ⟨h1, h2, h3, h4⟩ := h k hk
    exact ⟨h1, h2, h3, fun h0 => (hcell _ _ ⟨h0, h3, h1, h2⟩).2 (h4 h0)⟩

/-- What the loop of `fall` returns: the piece `n` rows lower, where the fit test passed
at each of the `n` rows on the way and fails one row further. -/
theorem fallLoop_spec (W H : Nat) : ∀ (fuel : Nat) (g g' : Game),
    fallLoop W H fuel g = some g' →
    ∃ n : Nat, g' = { g with curY := g.curY + (n : Int) } ∧
      (∀ i : Nat, i < n → pieceFits W H g g.curX (g.curY + (i : Int) + 1) = true) ∧
      pieceFits W H g g.curX (g.curY + (n : Int) + 1) = false := by
  intro fuel
  induction fuel with
  | zero =>
    intro g g' h
    unfold fallLoop at h
    by_cases hf : pieceFits W H g g.curX (g.curY + 1) = true
    · rw [if_pos hf] at h
      exact absurd h (by simp)
    · rw [if_neg hf] at h
      refine ⟨0, ?_, fun i hi => absurd hi (Nat.not_lt_zero i), ?_⟩
      · rw [← Option.some.inj h]; simp
      · simpa using hf
  | succ fuel ih =>
    intro g g' h
    unfold fallLoop at h
    by_cases hf : pieceFits W H g g.curX (g.curY + 1) = true
    · rw [if_pos hf] at h
      obtain ⟨n, hg', hall, hlast⟩ := ih _ _ h
      have hpf : ∀ x y, pieceFits W H { g with curY := g.curY + 1 } x y = pieceFits W H g x y :=
        fun x y => rfl
      simp only [hpf] at hall hlast
      refine ⟨n + 1, ?_, ?_, ?_⟩
      · rw [hg']
        simp only [Nat.cast_add, Nat.cast_one]
        congr 1
        ring
      · intro i hi
        rcases Nat.eq_zero_or_pos i with rfl | hpos
        · simpa using hf
        · have := hall (i - 1) (by omega)
          have e : g.curY + 1 + ((i - 1 : Nat) : Int) + 1 = g.curY + (i : Int) + 1 := by omega
          rw [e] at this
          exact this
      · have e : g.curY + 1 + (n : Int) + 1 = g.curY + ((n + 1 : Nat) : Int) + 1 := by
          push_cast; ring
        rw [← e]
        exact hlast
    · rw [if_neg hf] at h
      refine ⟨0, ?_, fun i hi => absurd hi (Nat.not_lt_zero i), ?_⟩
      · rw [← Option.some.inj h]; simp
      · simpa using hf

/-- The loop of `fall` stops within `fallFuel` iterations. -/
theorem fallLoop_isSome (W H : Nat) : ∀ (fuel : Nat) (g : Game),
    fallFuel H g ≤ fuel → ∃ g', fallLoop W H fuel g = some g' := by
  intro fuel
  induction fuel with
  | zero =>
    intro g hb
    unfold fallLoop
    have hf : ¬ pieceFits W H g g.curX (g.curY + 1) = true := by
      intro hf
      have := ((pieceFits_eq_true_iff W H g _ _).1 hf 0 (by decide)).2.2.1
      unfold fallFuel at hb
      omega
    rw [if_neg hf]
    exact ⟨g, rfl⟩
  | succ fuel ih =>
    intro g hb
    unfold fallLoop
    by_cases hf : pieceFits W H g g.curX (g.curY + 1) = true
    · rw [if_pos hf]
      apply ih
      have := ((pieceFits_eq_true_iff W H g _ _).1 hf 0 (by decide)).2.2.1
      unfold fallFuel at hb ⊢
      simp only
      omega
    · rw [if_neg hf]
      exact ⟨g, rfl⟩

theorem fall_of_not_started (W H : Nat) (g : Game)
    (hst : g.state ≠ GameState.gameStarted) : fall W H g = some g := by
  unfold fall
  rw [if_pos hst]

theorem fall_of_not_fit (W H : Nat) (g : Game) (hinv : Inv W H g)
    (hst : g.state = GameState.gameStarted)
    (hfit : ¬ pieceFits W H { g with dxPrime := g.dx, dyPrime := g.dy }
      g.curX (g.curY + 1) = true) :
    fall W H g = some { g with dxPrime := g.dx, dyPrime := g.dy } := by
  unfold fall
  rw [if_neg (not_not.2 hst)]
  simp only [stageLive_eq g hinv.len_dxPrime hinv.len_dyPrime hinv.len_dx hinv.len_dy]
  have hfit' : (!pieceFits W H { g with dxPrime := g.dx, dyPrime := g.dy }
      g.curX (g.curY + 1)) = true := by
    rw [Bool.not_eq_true] at hfit
    rw [hfit]; rfl
  rw [if_pos hfit']

/-- `fall` of a started game whose piece can descend: the piece is put back `n ≥ 1` rows
lower, where it fitted at each row on the way down and does not fit one row further. -/
theorem fall_of_fit (W H : Nat) (g : Game) (hinv : Inv W H g)
    (hst : g.state = GameState.gameStarted)
    (hfit : pieceFits W H { g with dxPrime := g.dx, dyPrime := g.dy }
      g.curX (g.curY + 1) = true) :
    ∃ n : Nat, 1 ≤ n ∧
      fall W H g = some (resetFallingTimer (placePiece W H
        { erasePiece W H { g with dxPrime := g.dx, dyPrime := g.dy, fallingTimer := none } with
          curX := g.curX, curY := g.curY + (n : Int), dx := g.dx, dy := g.dy })) ∧
      (∀ i : Nat, i < n → pieceFits W H { g with dxPrime := g.dx, dyPrime := g.dy }
        g.curX (g.curY + (i : Int) + 1) = true) ∧
      pieceFits W H { g with dxPrime := g.dx, dyPrime := g.dy }
        g.curX (g.curY + (n : Int) + 1) = false := by
  have hact : Active g := Or.inl hst
  have hpe := pieceFits_erase W H g hinv hact g.dx g.dy none
  have hfE := erasePiece_frame W H { g with dxPrime := g.dx, dyPrime := g.dy, fallingTimer := none }
  obtain ⟨g3, h3⟩ := fallLoop_isSome W H _
    (erasePiece W H { g with dxPrime := g.dx, dyPrime := g.dy, fallingTimer := none })
    (le_refl _)
  obtain ⟨n, hg3, hall, hlast⟩ := fallLoop_spec W H _ _ _ h3
  have hX : (erasePiece W H
      { g with dxPrime := g.dx, dyPrime := g.dy, fallingTimer := none }).curX = g.curX := by
    rw [hfE]
  have hY : (erasePiece W H
      { g with dxPrime := g.dx, dyPrime := g.dy, fallingTimer := none }).curY = g.curY := by
    rw [hfE]
  simp only [hpe, hX, hY] at hall hlast
  have hnt : ∀ x y, pieceFits W H
      { g with dxPrime := g.dx, dyPrime := g.dy, fallingTimer := none } x y =
      pieceFits W H { g with dxPrime := g.dx, dyPrime := g.dy } x y := fun x y => rfl
  simp only [hnt] at hall hlast
  have hn : 1 ≤ n := by
    rcases Nat.eq_zero_or_pos n with rfl | hpos
    · simp only [Nat.cast_zero, add_zero] at hlast
      rw [hfit] at hlast
      exact absurd hlast (by decide)
    · exact hpos
  refine ⟨n, hn, ?_, hall, hlast⟩
  unfold fall
  rw [if_neg (not_not.2 hst)]
  simp only [stageLive_eq g hinv.len_dxPrime hinv.len_dyPrime hinv.len_dx hinv.len_dy]
  have hfit' : ¬ (!pieceFits W H { g with dxPrime := g.dx, dyPrime := g.dy }
      g.curX (g.curY + 1)) = true := by
    rw [hfit]; decide
  rw [if_neg hfit', h3, Option.map_some', hg3]
  congr 3
  rw [hfE]

theorem fall_inv (W H : Nat) (g g' : Game) (hinv : Inv W H g) (h : fall W H g = some g') :
    Inv W H g' := by
  by_cases hst : g.state = GameState.gameStarted
  · by_cases hfit : pieceFits W H { g with dxPrime := g.dx, dyPrime := g.dy }
        g.curX (g.curY + 1) = true
    · obtain ⟨n, hn, he, hall, _⟩ := fall_of_fit W H g hinv hst hfit
      rw [he] at h
      rw [← Option.some.inj h]
      have hf := hall (n - 1) (by omega)
      have e : g.curY + ((n - 1 : Nat) : Int) + 1 = g.curY + (n : Int) := by omega
      rw [e] at hf
      exact inv_timer (relocate_inv W H g hinv hst _ _ g.dx g.dy none hinv.len_dx hinv.len_dy
        (hinv.piece (Or.inl hst)).2.2.1 hf).1 _
    · rw [fall_of_not_fit W H g hinv hst hfit] at h
      rw [← Option.some.inj h]
      exact inv_staged hinv g.dx g.dy g.fallingTimer hinv.len_dx hinv.len_dy
  · rw [fall_of_not_started W H g hst] at h
    rw [← Option.some.inj h]
    exact hinv

/-! ## Row compaction -/

theorem readCell_in {W H : Nat} {b : Board} (hwf : BoardWF W H b) {x y : Int}
    (hin : inBoard W H x y) : readCell b y x = some (cellAt b y x) := by
  obtain ⟨hy0, hyH, hx0, hxW⟩ := hin
  have hylt : y.toNat < b.length := by rw [hwf.1]; omega
  have hrow : (b[y.toNat]).length = W := hwf.2 _ (List.getElem_mem _)
  have hxlt : x.toNat < (b[y.toNat]).length := by rw [hrow]; omega
  unfold readCell cellAt
  simp only [hy0, hx0, and_self, if_true, List.getElem?_eq_getElem hylt,
    List.getD_eq_getElem?_getD, Option.getD_some, List.getElem?_eq_getElem hxlt]

theorem readCell_neg (b : Board) {y : Int} (hy : y < 0) (x : Int) : readCell b y x = none := by
  unfold readCell
  rw [if_neg (fun h => by omega)]

theorem writeCell_in {W H : Nat} {b : Board} (hwf : BoardWF W H b) {x y : Int}
    (hin : inBoard W H x y) (v : Int) : writeCell b y x v = some (setAt b y x v) := by
  obtain ⟨hy0, hyH, hx0, hxW⟩ := hin
  have hylt : y.toNat < b.length := by rw [hwf.1]; omega
  have hrow : (b[y.toNat]).length = W := hwf.2 _ (List.getElem_mem _)
  have hxlt : x.toNat < (b[y.toNat]).length := by rw [hrow]; omega
  unfold writeCell setAt
  simp only [hy0, hx0, and_self, if_true, List.getElem?_eq_getElem hylt, hxlt,
    List.getD_eq_getElem?_getD, Option.getD_some]

/-- Copying the cells `xs` of row `k - 1` into row `k`, for a row `k` with a row above it. -/
theorem copyCells_spec {W H : Nat} {k : Int} (hk1 : 1 ≤ k) (hkH : k < (H : Int)) :
    ∀ (xs : List Nat) (b : Board), BoardWF W H b → (∀ x ∈ xs, x < W) →
      ∃ b', xs.foldlM
          (fun (b : Board) (x : Nat) =>
            (readCell b (k - 1) (x : Int)).bind fun v => writeCell b k (x : Int) v) b
          = some b' ∧
        BoardWF W H b' ∧
        ∀ y x, cellAt b' y x =
          if y = k ∧ ∃ x' ∈ xs, x = (x' : Int) then cellAt b (k - 1) x else cellAt b y x := by
  intro xs
  induction xs with
  | nil =>
    intro b hwf _
    exact ⟨b, rfl, hwf, fun y x => by simp⟩
  | cons x0 xs ih =>
    intro b hwf hxs
    have hx0 : x0 < W := hxs x0 (List.mem_cons_self _ _)
    have hin1 : inBoard W H (x0 : Int) (k - 1) := ⟨by omega, by omega, by omega, by omega⟩
    have hin2 : inBoard W H (x0 : Int) k := ⟨by omega, by omega, by omega, by omega⟩
    have hwf1 := setAt_wf hwf k (x0 : Int) (cellAt b (k - 1) (x0 : Int))
    obtain ⟨b', hb', hwf', hc'⟩ := ih _ hwf1 (fun x hx => hxs x (List.mem_cons_of_mem _ hx))
    refine ⟨b', ?_, hwf', fun y x => ?_⟩
    · rw [List.foldlM_cons, readCell_in hwf hin1, Option.bind_eq_bind, Option.some_bind,
        writeCell_in hwf hin2, Option.some_bind]
      exact hb'
    · rw [hc' y x, cellAt_setAt hwf hin2, cellAt_setAt hwf hin2]
      have hk : ¬ (k - 1 = k ∧ x = (x0 : Int)) := fun h => by omega
      rw [if_neg hk]
      by_cases hy : y = k
      · by_cases hxs' : ∃ x' ∈ xs, x = (x' : Int)
        · have h1 : y = k ∧ ∃ x' ∈ xs, x = (x' : Int) := ⟨hy, hxs'⟩
          have h2 : y = k ∧ ∃ x' ∈ x0 :: xs, x = (x' : Int) := by
            obtain ⟨x', hx', he⟩ := hxs'
            exact ⟨hy, x', List.mem_cons_of_mem _ hx', he⟩
          rw [if_pos h1, if_pos h2]
        · have h1 : ¬ (y = k ∧ ∃ x' ∈ xs, x = (x' : Int)) := fun h => hxs' h.2
          rw [if_neg h1]
          by_cases hx : x = (x0 : Int)
          · have h2 : y = k ∧ ∃ x' ∈ x0 :: xs, x = (x' : Int) :=
              ⟨hy, x0, List.mem_cons_self _ _, hx⟩
            rw [if_pos ⟨hy, hx⟩, if_pos h2, hx]
          · have h2 : ¬ (y = k ∧ ∃ x' ∈ x0 :: xs, x = (x' : Int)) := by
              rintro ⟨_, x', hx', he⟩
              rcases List.mem_cons.1 hx' with rfl | hm
              · exact hx he
              · exact hxs' ⟨x', hm, he⟩
            rw [if_neg (fun h => hx h.2), if_neg h2]
      · have h1 : ¬ (y = k ∧ ∃ x' ∈ xs, x = (x' : Int)) := fun h => hy h.1
        have h2 : ¬ (y = k ∧ ∃ x' ∈ x0 :: xs, x = (x' : Int)) := fun h => hy h.1
        rw [if_neg h1, if_neg h2, if_neg (fun h => hy h.1)]

/-- `copyRowDown` on a row `k` with a row above it: row `k` becomes a copy of row
`k - 1`. -/
theorem copyRowDown_spec {W H : Nat} {b : Board} (hwf : BoardWF W H b) {k : Int}
    (hk1 : 1 ≤ k) (hkH : k < (H : Int)) :
    ∃ b', copyRowDown W b k = some b' ∧ BoardWF W H b' ∧
      ∀ y x, cellAt b' y x = if y = k then cellAt b (k - 1) x else cellAt b y x := by
  obtain ⟨b', hb', hwf', hc'⟩ := copyCells_spec hk1 hkH (List.range W) b hwf
    (fun x hx => List.mem_range.1 hx)
  refine ⟨b', hb', hwf', fun y x => ?_⟩
  rw [hc' y x]
  by_cases hy : y = k
  · rw [if_pos hy]
    by_cases hx : ∃ x' ∈ List.range W, x = (x' : Int)
    · rw [if_pos ⟨hy, hx⟩]
    · rw [if_neg (fun h => hx h.2)]
      have hout : ∀ y', ¬ inBoard W H x y' := by
        rintro y' ⟨_, _, h3, h4⟩
        exact hx ⟨x.toNat, List.mem_range.2 (by omega), by omega⟩
      rw [cellAt_out hwf (hout _), cellAt_out hwf (hout _)]
  · rw [if_neg hy, if_neg (fun h => hy h.1)]

/-- `copyRowDown` on row `0`, or on a row of negative index, of a board with at least one
column: the read of the row above is out of range. -/
theorem copyRowDown_none {W : Nat} (hW : 0 < W) (b : Board) {k : Int} (hk : k ≤ 0) :
    copyRowDown W b k = none := by
  unfold copyRowDown
  obtain ⟨w, rfl⟩ : ∃ w, W = w + 1 := ⟨W - 1, by omega⟩
  rw [List.range_succ_eq_map, List.foldlM_cons, readCell_neg b (by omega)]
  rfl

theorem shiftIndices_nil {y s : Int} (h : y < s) : shiftIndices y s = [] := by
  unfold shiftIndices
  have : (y + 1 - s).toNat = 0 := by omega
  rw [this]
  rfl

theorem shiftIndices_cons {y s : Int} (h : s ≤ y) :
    shiftIndices y s = y :: shiftIndices (y - 1) s := by
  unfold shiftIndices
  obtain ⟨n, hn⟩ : ∃ n : Nat, (y + 1 - s).toNat = n + 1 := ⟨(y - s).toNat, by omega⟩
  have hn' : (y - 1 + 1 - s).toNat = n := by omega
  rw [hn, hn', List.range_succ_eq_map, List.map_cons, List.map_map]
  congr 1
  · simp
  · apply List.map_congr_left
    intro i _
    simp only [Function.comp, Nat.succ_eq_add_one, Nat.cast_add, Nat.cast_one]
    ring

theorem mem_shiftIndices {y s k : Int} : k ∈ shiftIndices y s ↔ s ≤ k ∧ k ≤ y := by
  unfold shiftIndices
  simp only [List.mem_map, List.mem_range]
  constructor
  · rintro ⟨i, hi, rfl⟩
    omega
  · rintro ⟨h1, h2⟩
    exact ⟨(y - k).toNat, by omega, by omega⟩

/-- A loop in the `Option` monad stops at the first index where its body fails. -/
theorem foldlM_none_of_mem {α β : Type} (f : β → α → Option β) (a0 : α)
    (hf : ∀ b, f b a0 = none) : ∀ (l : List α) (b : β), a0 ∈ l → l.foldlM f b = none := by
  intro l
  induction l with
  | nil => intro b h; exact absurd h (List.not_mem_nil _)
  | cons a l ih =>
    intro b h
    rw [List.foldlM_cons]
    cases hfa : f b a with
    | none => rfl
    | some b1 =>
      rcases List.mem_cons.1 h with rfl | hm
      · rw [hf b] at hfa
        exact absurd hfa (by simp)
      · exact ih b1 hm

/-- The loop `for k := y; k >= skyline; k--` of `removeLines` when `skyline ≥ 1`: every
row from `skyline` to `y` becomes a copy of the row above it. -/
theorem shiftRows_spec {W H : Nat} {s : Int} (hs : 1 ≤ s) :
    ∀ (n : Nat) (y : Int) (b : Board), (y + 1 - s).toNat = n → y < (H : Int) →
      BoardWF W H b →
      ∃ b', (shiftIndices y s).foldlM (copyRowDown W) b = some b' ∧ BoardWF W H b' ∧
        ∀ k x, cellAt b' k x = if s ≤ k ∧ k ≤ y then cellAt b (k - 1) x else cellAt b k x := by
  intro n
  induction n with
  | zero =>
    intro y b hn _ hwf
    have hlt : y < s := by omega
    rw [shiftIndices_nil hlt]
    refine ⟨b, rfl, hwf, fun k x => ?_⟩
    rw [if_neg (fun h => by omega)]
  | succ n ih =>
    intro y b hn hyH hwf
    have hle : s ≤ y := by omega
    rw [shiftIndices_cons hle, List.foldlM_cons]
    obtain ⟨b1, hb1, hwf1, hc1⟩ := copyRowDown_spec hwf (show 1 ≤ y by omega) hyH
    obtain ⟨b2, hb2, hwf2, hc2⟩ := ih (y - 1) b1 (by omega) (by omega) hwf1
    refine ⟨b2, ?_, hwf2, fun k x => ?_⟩
    · rw [hb1]
      exact hb2
    · rw [hc2 k x, hc1, hc1]
      by_cases h1 : s ≤ k ∧ k ≤ y - 1
      · rw [if_pos h1, if_neg (show ¬ k - 1 = y by omega), if_pos (show s ≤ k ∧ k ≤ y by omega)]
      · rw [if_neg h1]
        by_cases h2 : k = y
        · rw [if_pos h2, if_pos (show s ≤ k ∧ k ≤ y by omega), h2]
        · rw [if_neg h2, if_neg (show ¬ (s ≤ k ∧ k ≤ y) by omega)]

/-- The loop of `removeLines` that clears row `0`. -/
theorem clearTop_spec {W H : Nat} (hH : 0 < H) :
    ∀ (xs : List Nat) (b : Board), BoardWF W H b → (∀ x ∈ xs, x < W) →
      BoardWF W H (xs.foldl (fun (b : Board) (x : Nat) => setAt b 0 (x : Int) 0) b) ∧
      ∀ y x, cellAt (xs.foldl (fun (b : Board) (x : Nat) => setAt b 0 (x : Int) 0) b) y x =
        if y = 0 ∧ ∃ x' ∈ xs, x = (x' : Int) then 0 else cellAt b y x := by
  intro xs
  induction xs with
  | nil => intro b hwf _; exact ⟨hwf, fun y x => by simp⟩
  | cons x0 xs ih =>
    intro b hwf hxs
    have hx0 : x0 < W := hxs x0 (List.mem_cons_self _ _)
    have hin : inBoard W H (x0 : Int) 0 := ⟨by omega, by omega, by omega, by omega⟩
    obtain ⟨hwf', hc'⟩ := ih (setAt b 0 (x0 : Int) 0) (setAt_wf hwf _ _ _)
      (fun x hx => hxs x (List.mem_cons_of_mem _ hx))
    refine ⟨hwf', fun y x => ?_⟩
    rw [List.foldl_cons, hc' y x, cellAt_setAt hwf hin]
    by_cases h1 : y = 0 ∧ ∃ x' ∈ xs, x = (x' : Int)
    · have h2 : y = 0 ∧ ∃ x' ∈ x0 :: xs, x = (x' : Int) := by
        obtain ⟨hy, x', hx', he⟩ := h1
        exact ⟨hy, x', List.mem_cons_of_mem _ hx', he⟩
      rw [if_pos h1, if_pos h2]
    · rw [if_neg h1]
      by_cases h3 : y = 0 ∧ x = (x0 : Int)
      · have h2 : y = 0 ∧ ∃ x' ∈ x0 :: xs, x = (x' : Int) :=
          ⟨h3.1, x0, List.mem_cons_self _ _, h3.2⟩
        rw [if_pos h3, if_pos h2]
      · have h2 : ¬ (y = 0 ∧ ∃ x' ∈ x0 :: xs, x = (x' : Int)) := by
          rintro ⟨hy, x', hx', he⟩
          rcases List.mem_cons.1 hx' with rfl | hm
          · exact h3 ⟨hy, he⟩
          · exact h1 ⟨hy, x', hm, he⟩
        rw [if_neg h3, if_neg h2]

theorem clearTop_row {W H : Nat} (hH : 0 < H) {b : Board} (hwf : BoardWF W H b) :
    BoardWF W H ((List.range W).foldl (fun (b : Board) (x : Nat) => setAt b 0 (x : Int) 0) b) ∧
    ∀ y x, cellAt ((List.range W).foldl
        (fun (b : Board) (x : Nat) => setAt b 0 (x : Int) 0) b) y x =
      if y = 0 then 0 else cellAt b y x := by
  obtain ⟨hwf', hc'⟩ := clearTop_spec hH (List.range W) b hwf (fun x hx => List.mem_range.1 hx)
  refine ⟨hwf', fun y x => ?_⟩
  rw [hc' y x]
  by_cases hy : y = 0
  · rw [if_pos hy]
    by_cases hx : ∃ x' ∈ List.range W, x = (x' : Int)
    · rw [if_pos ⟨hy, hx⟩]
    · rw [if_neg (fun h => hx h.2)]
      apply cellAt_out hwf
      rintro ⟨_, _, h3, h4⟩
      exact hx ⟨x.toNat, List.mem_range.2 (by omega), by omega⟩
  · rw [if_neg hy, if_neg (fun h => hy h.1)]

theorem gapFound_iff (W : Nat) (b : Board) (y : Int) :
    ((List.range W).any fun (x : Nat) => cellAt b y (x : Int) == 0) = true ↔
      ¬ rowFull W b y := by
  unfold rowFull
  simp only [List.any_eq_true, List.mem_range, beq_iff_eq, not_forall, not_not, exists_prop]

theorem removeLinesRow_gap (W : Nat) (g : Game) (y : Nat)
    (h : ¬ rowFull W g.board (y : Int)) : removeLinesRow W g y = some g := by
  unfold removeLinesRow
  simp only
  rw [if_pos ((gapFound_iff W g.board y).2 h)]

theorem level_step (n l : Int) (hn : 0 ≤ n)
    (hl : l = min maxLevel (1 + n / rowsPerLevel)) :
    levelAfterLine n l = min maxLevel (1 + (n + 1) / rowsPerLevel) := by
  unfold levelAfterLine
  unfold maxLevel rowsPerLevel at *
  rw [Int.tmod_eq_emod (by omega) (by omega)]
  split_ifs with h
  · omega
  · omega

/-- `removeLinesRow` at a full row when `skyline ≥ 1`: the rows from `skyline` to `y`
move down by one, row `0` is cleared, and the counters advance. -/
theorem removeLinesRow_full {W H : Nat} (g : Game) (y : Nat) (hwf : BoardWF W H g.board)
    (hy : y < H) (hfull : rowFull W g.board (y : Int)) (hs : 1 ≤ g.skyline) :
    ∃ b', removeLinesRow W g y =
        some { g with board := b', numLines := g.numLines + 1, skyline := g.skyline + 1,
                      curLevel := levelAfterLine g.numLines g.curLevel } ∧
      BoardWF W H b' ∧
      ∀ k x, cellAt b' k x =
        if k = 0 then 0
        else if g.skyline ≤ k ∧ k ≤ (y : Int) then cellAt g.board (k - 1) x
        else cellAt g.board k x := by
  obtain ⟨b1, hb1, hwf1, hc1⟩ :=
    shiftRows_spec hs ((y : Int) + 1 - g.skyline).toNat (y : Int) g.board rfl
      (by omega) hwf
  obtain ⟨hwf2, hc2⟩ := clearTop_row (Nat.lt_of_le_of_lt (Nat.zero_le y) hy) hwf1
  refine ⟨_, ?_, hwf2, fun k x => ?_⟩
  · unfold removeLinesRow
    simp only
    rw [if_neg (fun h => (gapFound_iff W g.board y).1 h hfull), hb1, Option.some_bind]
    rfl
  · rw [hc2 k x, hc1 k x]

/-- `removeLinesRow` at a full row when `skyline ≤ 0`, on a board with at least one
column: the shift reads the row above row `0`. -/
theorem removeLinesRow_none {W : Nat} (hW : 0 < W) (g : Game) (y : Nat)
    (hfull : rowFull W g.board (y : Int)) (hs : g.skyline ≤ 0) :
    removeLinesRow W g y = none := by
  unfold removeLinesRow
  simp only
  rw [if_neg (fun h => (gapFound_iff W g.board y).1 h hfull),
    foldlM_none_of_mem (copyRowDown W) 0 (fun b => copyRowDown_none hW b (le_refl 0)) _ _
      (mem_shiftIndices.2 ⟨hs, by omega⟩)]
  rfl

theorem foldlM_copy_zero_width (l : List Int) (b : Board) :
    l.foldlM (copyRowDown 0) b = some b := by
  induction l with
  | nil => rfl
  | cons k l ih =>
    rw [List.foldlM_cons]
    exact ih

/-- `removeLinesRow` on a board with no column: every row counts as full, and there is
no cell to move. -/
theorem removeLinesRow_zero_width (g : Game) (y : Nat) :
    removeLinesRow 0 g y =
      some { g with numLines := g.numLines + 1, skyline := g.skyline + 1,
                    curLevel := levelAfterLine g.numLines g.curLevel } := by
  unfold removeLinesRow
  simp only [List.range_zero, List.any_nil, Bool.false_eq_true, if_false,
    foldlM_copy_zero_width, Option.some_bind, List.foldl_nil]
  rfl

/-- One row of `removeLines` keeps the settled-board invariant and touches only the
board and the three counters. -/
theorem removeLinesRow_settled {W H : Nat} {g g' : Game} {y : Nat} (hS : Settled W H g)
    (hy : y < H) (h : removeLinesRow W g y = some g') :
    Settled W H g' ∧
      g' = { g with board := g'.board, numLines := g'.numLines, skyline := g'.skyline,
                    curLevel := g'.curLevel } := by
  by_cases hfull : rowFull W g.board (y : Int)
  · rcases Nat.eq_zero_or_pos W with hW | hW
    · subst hW
      rw [removeLinesRow_zero_width] at h
      rw [← Option.some.inj h]
      refine ⟨?_, rfl⟩
      exact
        { wf := hS.wf
          len_dx := hS.len_dx
          len_dy := hS.len_dy
          len_dxPrime := hS.len_dxPrime
          len_dyPrime := hS.len_dyPrime
          nonneg := hS.nonneg
          pos_cells := fun y x hin _ => absurd hin.2.2.2 (by
            have := hin.2.2.1
            simp only [Nat.cast_zero]
            omega)
          level := ⟨by have := hS.level.1; simp only; omega,
            level_step _ _ hS.level.1 hS.level.2⟩ }
    · by_cases hs : 1 ≤ g.skyline
      · obtain ⟨b', hb', hwf', hc'⟩ := removeLinesRow_full g y hS.wf hy hfull hs
        rw [hb'] at h
        rw [← Option.some.inj h]
        refine ⟨?_, rfl⟩
        -- a full row holds a settled cell, so it is not above the skyline
        have hsy : g.skyline ≤ (y : Int) := by
          have hin0 : inBoard W H ((0 : Nat) : Int) (y : Int) :=
            ⟨by omega, by omega, by omega, by omega⟩
          have h0 := hfull 0 hW
          have h1 := hS.nonneg _ _ hin0
          exact (hS.pos_cells _ _ hin0 (lt_of_le_of_ne h1 (Ne.symm h0))).2
        exact
          { wf := hwf'
            len_dx := hS.len_dx
            len_dy := hS.len_dy
            len_dxPrime := hS.len_dxPrime
            len_dyPrime := hS.len_dyPrime
            nonneg := by
              intro k x hin
              simp only
              rw [hc' k x]
              split_ifs with h1 h2
              · exact le_refl _
              · exact hS.nonneg _ _ ⟨by omega, by have := hin.2.1; omega, hin.2.2.1, hin.2.2.2⟩
              · exact hS.nonneg _ _ hin
            pos_cells := by
              intro k x hin
              simp only
              rw [hc' k x]
              split_ifs with h1 h2
              · intro hpos; exact absurd hpos (lt_irrefl _)
              · intro hpos
                have := hS.pos_cells (k - 1) x
                  ⟨by omega, by have := hin.2.1; omega, hin.2.2.1, hin.2.2.2⟩ hpos
                exact ⟨this.1, by omega⟩
              · intro hpos
                have := hS.pos_cells k x hin hpos
                exact ⟨this.1, by omega⟩
            level := ⟨by have := hS.level.1; simp only; omega,
              level_step _ _ hS.level.1 hS.level.2⟩ }
      · rw [removeLinesRow_none hW g y hfull (by omega)] at h
        exact absurd h (by simp)
  · rw [removeLinesRow_gap W g y hfull] at h
    rw [← Option.some.inj h]
    exact ⟨hS, rfl⟩

/-- A loop in the `Option` monad that ends keeps what each of its iterations keeps. -/
theorem foldlM_preserves {α β : Type} (f : β → α → Option β) (P : β → Prop) :
    ∀ (l : List α), (∀ a ∈ l, ∀ b b', P b → f b a = some b' → P b') →
      ∀ b b', P b → l.foldlM f b = some b' → P b' := by
  intro l
  induction l with
  | nil =>
    intro _ b b' hP h
    rw [List.foldlM_nil] at h
    rw [← Option.some.inj h]
    exact hP
  | cons a l ih =>
    intro hstep b b' hP h
    rw [List.foldlM_cons] at h
    cases hfa : f b a with
    | none => rw [hfa] at h; exact absurd h (by simp)
    | some b1 =>
      rw [hfa] at h
      exact ih (fun a' ha' => hstep a' (List.mem_cons_of_mem _ ha')) b1 b'
        (hstep a (List.mem_cons_self _ _) b b1 hP hfa) h

/-- `removeLines` keeps the settled-board invariant and touches only the board and the
three counters. -/
theorem removeLines_settled {W H : Nat} {g g' : Game} (hS : Settled W H g)
    (h : removeLines W H g = some g') :
    Settled W H g' ∧
      g' = { g with board := g'.board, numLines := g'.numLines, skyline := g'.skyline,
                    curLevel := g'.curLevel } := by
  have := foldlM_preserves (removeLinesRow W)
    (fun g1 => Settled W H g1 ∧
      g1 = { g with board := g1.board, numLines := g1.numLines, skyline := g1.skyline,
                    curLevel := g1.curLevel })
    (List.range H)
    (fun y hy b b' hP hb => by
      obtain ⟨h1, h2⟩ := removeLinesRow_settled hP.1 (List.mem_range.1 hy) hb
      refine ⟨h1, ?_⟩
      rw [h2, hP.2])
    g g' ⟨hS, rfl⟩ h
  exact this

/-! ## Settling and spawning -/

/-- Facts about the catalog entry of the type drawn from `r`. -/
theorem bank_facts (r : Nat) :
    1 ≤ 1 + ((r % numTypes : Nat) : Int) ∧ 1 + ((r % numTypes : Nat) : Int) ≤ 7 ∧
    (dxBank.getD (1 + ((r % numTypes : Nat) : Int)).toNat []).length = 4 ∧
    (dyBank.getD (1 + ((r % numTypes : Nat) : Int)).toNat []).length = 4 ∧
    (List.zip (dxBank.getD (1 + ((r % numTypes : Nat) : Int)).toNat [])
      (dyBank.getD (1 + ((r % numTypes : Nat) : Int)).toNat [])).Nodup ∧
    (∀ k, k < numSquares →
      -2 ≤ (dxBank.getD (1 + ((r % numTypes : Nat) : Int)).toNat []).getD k 0 ∧
      (dxBank.getD (1 + ((r % numTypes : Nat) : Int)).toNat []).getD k 0 ≤ 1 ∧
      0 ≤ (dyBank.getD (1 + ((r % numTypes : Nat) : Int)).toNat []).getD k 0 ∧
      (dyBank.getD (1 + ((r % numTypes : Nat) : Int)).toNat []).getD k 0 ≤ 1) := by
  have hm : r % numTypes < 7 := Nat.mod_lt _ (by decide)
  generalize r % numTypes = m at hm
  interval_cases m <;> decide

theorem getPiece_eq (W H : Nat) (r : Nat) (g : Game) (h3 : g.dx.length = 4)
    (h4 : g.dy.length = 4) (h1 : g.dxPrime.length = 4) (h2 : g.dyPrime.length = 4) :
    getPiece W H r g =
      if pieceFits W H (spawned W r g) ((W / 2 : Nat) : Int) 0 = true then
        (placePiece W H (spawned W r g), true)
      else (spawned W r g, false) := by
  obtain ⟨hp1, hp7, hb1, hb2, _, _⟩ := bank_facts r
  have e : stageLive (loadBank { g with curPiece := 1 + ((r % numTypes : Nat) : Int)
                                        curX := ((W / 2 : Nat) : Int)
                                        curY := 0 }) = spawned W r g := by
    have e1 := loadBank_eq ({ g with curPiece := 1 + ((r % numTypes : Nat) : Int)
                                     curX := ((W / 2 : Nat) : Int)
                                     curY := 0 } : Game) h3 h4 hp1 hp7
    rw [e1]
    exact stageLive_eq _ h1 h2 hb1 hb2
  unfold getPiece
  simp only [e]
  by_cases hf : pieceFits W H (spawned W r g) ((W / 2 : Nat) : Int) 0 = true
  · rw [if_pos hf]
    have : (spawned W r g).curX = ((W / 2 : Nat) : Int) ∧ (spawned W r g).curY = 0 := ⟨rfl, rfl⟩
    rw [this.1, this.2, hf]
    rfl
  · rw [if_neg hf]
    have : (spawned W r g).curX = ((W / 2 : Nat) : Int) ∧ (spawned W r g).curY = 0 := ⟨rfl, rfl⟩
    rw [this.1, this.2]
    rw [Bool.not_eq_true] at hf
    rw [hf]
    rfl

/-- `fillMatrix` on a game with a piece in play leaves a settled board. -/
theorem fillMatrix_settled {W H : Nat} {g : Game} (hinv : Inv W H g) (hact : Active g) :
    Settled W H (fillMatrix W H g) := by
  obtain ⟨hwf, hc⟩ := fillMatrix_board W H g hinv.wf
  obtain ⟨hs1, hs2, _⟩ := fillMatrix_skyline_foldl W H (List.range numSquares) g
  have hfr := fillMatrix_frame W H g
  have hsk : (fillMatrix W H g).skyline =
      ((List.range numSquares).foldl (fillMatrixStep W H) g).skyline := rfl
  rw [← hsk] at hs1 hs2
  generalize fillMatrix W H g = gF at hwf hc hfr hs1 hs2 ⊢
  obtain ⟨hp1, hp7, _, hpc⟩ := hinv.piece hact
  exact
    { wf := hwf
      len_dx := by rw [hfr]; exact hinv.len_dx
      len_dy := by rw [hfr]; exact hinv.len_dy
      len_dxPrime := by rw [hfr]; exact hinv.len_dxPrime
      len_dyPrime := by rw [hfr]; exact hinv.len_dyPrime
      nonneg := by
        intro y x hin
        by_cases hon : onPiece g y x
        · rw [(hc y x).1 hin hon]; omega
        · rw [(hc y x).2 (fun h => hon h.2)]
          by_contra hneg
          exact hon (hinv.neg_cells y x hin (not_le.1 hneg)).2
      pos_cells := by
        intro y x hin hpos
        by_cases hon : onPiece g y x
        · rw [(hc y x).1 hin hon]
          refine ⟨hp7, ?_⟩
          obtain ⟨k, hk, hx, hy⟩ := hon
          rw [hy]
          exact hs2 k (List.mem_range.2 hk) (by rw [← hx, ← hy]; exact hin)
        · rw [(hc y x).2 (fun h => hon h.2)] at hpos ⊢
          have := hinv.pos_cells y x hin hpos
          exact ⟨this.1, le_trans hs1 this.2⟩
      level := by rw [hfr]; exact hinv.level }

/-- A settled board with the game marked over satisfies the invariant, whatever the
piece fields hold. -/
theorem inv_of_settled {W H : Nat} {g g' : Game} (hS : Settled W H g)
    (hst : g'.state = GameState.gameOver ∨
      (g'.state = GameState.gameIntro ∧ ∀ y x, cellAt g'.board y x = 0))
    (hb : g'.board = g.board) (hsk : g'.skyline = g.skyline)
    (hn : g'.numLines = g.numLines) (hl : g'.curLevel = g.curLevel)
    (h1 : g'.dx.length = 4) (h2 : g'.dy.length = 4) (h3 : g'.dxPrime.length = 4)
    (h4 : g'.dyPrime.length = 4) : Inv W H g' := by
  have hna : ¬ Active g' := by
    rintro (h | h) <;> rcases hst with h' | ⟨h', _⟩ <;> rw [h] at h' <;> exact absurd h' (by decide)
  exact
    { wf := by rw [hb]; exact hS.wf
      len_dx := h1
      len_dy := h2
      len_dxPrime := h3
      len_dyPrime := h4
      neg_cells := by
        intro y x hin hneg
        rw [hb] at hneg
        have := hS.nonneg y x hin
        omega
      pos_cells := by
        intro y x hin hpos
        rw [hb] at hpos ⊢
        rw [hsk]
        exact hS.pos_cells y x hin hpos
      piece := fun h => absurd h hna
      intro := by
        intro hi
        rcases hst with h' | ⟨_, h'⟩
        · rw [hi] at h'; exact absurd h' (by decide)
        · exact h'
      level := by rw [hn, hl]; exact hS.level
      fits := fun _ _ h => absurd h hna }

/-- Placing the piece `getPiece` has prepared, on a settled board of a started game,
gives a state that satisfies the invariant. -/
theorem spawn_inv {W H : Nat} {g : Game} (r : Nat) (hS : Settled W H g)
    (hst : g.state = GameState.gameStarted)
    (hfit : 4 ≤ W → 2 ≤ H → pieceFits W H (spawned W r g) ((W / 2 : Nat) : Int) 0 = true) :
    Inv W H (placePiece W H (spawned W r g)) := by
  obtain ⟨hp1, hp7, hb1, hb2, hnd, _⟩ := bank_facts r
  have hwfS : BoardWF W H (spawned W r g).board := hS.wf
  obtain ⟨hwf, hc⟩ := placePiece_board W H (spawned W r g) hwfS
  have hfr := placePiece_frame W H (spawned W r g)
  generalize placePiece W H (spawned W r g) = gP at hwf hc hfr ⊢
  have hstP : gP.state = GameState.gameStarted := by rw [hfr]; exact hst
  have hcp : (spawned W r g).curPiece = 1 + ((r % numTypes : Nat) : Int) := rfl
  have hon : ∀ y x, onPiece gP y x ↔ onPiece (spawned W r g) y x := by
    intro y x; rw [hfr]; exact Iff.rfl
  exact
    { wf := hwf
      len_dx := by rw [hfr]; exact hb1
      len_dy := by rw [hfr]; exact hb2
      len_dxPrime := by rw [hfr]; exact hb1
      len_dyPrime := by rw [hfr]; exact hb2
      neg_cells := by
        intro y x hin hneg
        refine ⟨Or.inl hstP, ?_⟩
        rw [hon]
        by_contra hno
        rw [(hc y x).2 (fun h => hno h.2)] at hneg
        have := hS.nonneg y x hin
        exact absurd hneg (not_lt.2 this)
      pos_cells := by
        intro y x hin hpos
        have hsk : gP.skyline = g.skyline := by rw [hfr]; rfl
        rw [hsk]
        by_cases ho : onPiece (spawned W r g) y x
        · rw [(hc y x).1 hin ho, hcp] at hpos
          omega
        · rw [(hc y x).2 (fun h => ho h.2)] at hpos ⊢
          exact hS.pos_cells y x hin hpos
      piece := by
        intro _
        have hcpP : gP.curPiece = 1 + ((r % numTypes : Nat) : Int) := by rw [hfr]; rfl
        refine ⟨by rw [hcpP]; exact hp1, by rw [hcpP]; exact hp7, by rw [hfr]; exact hnd, ?_⟩
        intro y x hin ho
        rw [hcpP, ← hcp]
        exact (hc y x).1 hin ((hon y x).1 ho)
      intro := by
        intro hi
        rw [hstP] at hi
        exact absurd hi (by decide)
      level := by rw [hfr]; exact hS.level
      fits := by
        intro hW hH _ k hk
        have := (pieceFits_eq_true_iff W H _ _ _).1 (hfit hW hH) k hk
        rw [hfr]
        exact ⟨this.1, this.2.1, this.2.2.1⟩ }

/-- Placing again a piece that is already on the board changes no cell. -/
theorem inv_place_again {W H : Nat} {g : Game} (hinv : Inv W H g) (hact : Active g) :
    Inv W H (placePiece W H g) := by
  obtain ⟨hwf, hc⟩ := placePiece_board W H g hinv.wf
  have hfr := placePiece_frame W H g
  generalize placePiece W H g = gP at hwf hc hfr ⊢
  have hcell : ∀ y x, cellAt gP.board y x = cellAt g.board y x := by
    intro y x
    by_cases h : inBoard W H x y ∧ onPiece g y x
    · rw [(hc y x).1 h.1 h.2, (hinv.piece hact).2.2.2 y x h.1 h.2]
    · exact (hc y x).2 h
  have hactP : Active gP ↔ Active g := by rw [hfr]; exact Iff.rfl
  have hon : ∀ y x, onPiece gP y x ↔ onPiece g y x := by
    intro y x; rw [hfr]; exact Iff.rfl
  exact
    { wf := hwf
      len_dx := by rw [hfr]; exact hinv.len_dx
      len_dy := by rw [hfr]; exact hinv.len_dy
      len_dxPrime := by rw [hfr]; exact hinv.len_dxPrime
      len_dyPrime := by rw [hfr]; exact hinv.len_dyPrime
      neg_cells := by
        intro y x hin hneg
        rw [hcell] at hneg
        rw [hactP, hon]
        exact hinv.neg_cells y x hin hneg
      pos_cells := by
        intro y x hin hpos
        rw [hcell] at hpos ⊢
        have hsk : gP.skyline = g.skyline := by rw [hfr]
        rw [hsk]
        exact hinv.pos_cells y x hin hpos
      piece := by
        intro h
        obtain ⟨h1, h2, h3, h4⟩ := hinv.piece (hactP.1 h)
        have hcp : gP.curPiece = g.curPiece := by rw [hfr]
        refine ⟨by rw [hcp]; exact h1, by rw [hcp]; exact h2, by rw [hfr]; exact h3, ?_⟩
        intro y x hin ho
        rw [hcell, hcp]
        exact h4 y x hin ((hon y x).1 ho)
      intro := by
        intro hi y x
        rw [hcell]
        exact hinv.intro (by rw [hfr] at hi; exact hi) y x
      level := by rw [hfr]; exact hinv.level
      fits := by
        intro hW hH h k hk
        have := hinv.fits hW hH (hactP.1 h) k hk
        rw [hfr]
        exact this }

/-- On a board with no settled cell, of width at least 4 and height at least 2, the
piece `getPiece` has prepared passes the fit test at the spawn position. -/
theorem spawn_fits (W H : Nat) (r : Nat) (g : Game) (hW : 4 ≤ W) (hH : 2 ≤ H)
    (hnp : ∀ y x, inBoard W H x y → cellAt g.board y x ≤ 0) :
    pieceFits W H (spawned W r g) ((W / 2 : Nat) : Int) 0 = true := by
  obtain ⟨_, _, _, _, _, hb⟩ := bank_facts r
  rw [pieceFits_eq_true_iff]
  intro k hk
  obtain ⟨h1, h2, h3, h4⟩ := hb k hk
  have e1 : (spawned W r g).dxPrime = dxBank.getD (1 + ((r % numTypes : Nat) : Int)).toNat [] :=
    rfl
  have e2 : (spawned W r g).dyPrime = dyBank.getD (1 + ((r % numTypes : Nat) : Int)).toNat [] :=
    rfl
  rw [e1, e2]
  refine ⟨by omega, by omega, by omega, fun h0 => ?_⟩
  exact hnp _ _ ⟨h0, by omega, by omega, by omega⟩

/-- The four offset slices of a settled game have four entries. -/
theorem settled_lens {W H : Nat} {g : Game} (hS : Settled W H g) :
    g.dx.length = 4 ∧ g.dy.length = 4 ∧ g.dxPrime.length = 4 ∧ g.dyPrime.length = 4 :=
  ⟨hS.len_dx, hS.len_dy, hS.len_dxPrime, hS.len_dyPrime⟩

/-- The tail of `play` once the piece has been settled and the rows compacted. -/
theorem respawn_inv {W H : Nat} {g : Game} (r : Nat) (hS : Settled W H g)
    (hst : g.state = GameState.gameStarted) :
    Inv W H
      (if g.skyline > 0 then
        (if (getPiece W H r g).2 = true then resetFallingTimer (getPiece W H r g).1
         else { (getPiece W H r g).1 with state := GameState.gameOver })
       else { g with state := GameState.gameOver }) := by
  obtain ⟨hb1, hb2⟩ : (dxBank.getD (1 + ((r % numTypes : Nat) : Int)).toNat []).length = 4 ∧
      (dyBank.getD (1 + ((r % numTypes : Nat) : Int)).toNat []).length = 4 :=
    ⟨(bank_facts r).2.2.1, (bank_facts r).2.2.2.1⟩
  by_cases hsk : g.skyline > 0
  · rw [if_pos hsk, getPiece_eq W H r g hS.len_dx hS.len_dy hS.len_dxPrime hS.len_dyPrime]
    by_cases hf : pieceFits W H (spawned W r g) ((W / 2 : Nat) : Int) 0 = true
    · rw [if_pos hf]
      simp only [if_true]
      exact inv_timer (spawn_inv r hS hst (fun _ _ => hf)) _
    · rw [if_neg hf]
      simp only [Bool.false_eq_true, if_false]
      exact inv_of_settled hS (Or.inl rfl) rfl rfl rfl rfl hb1 hb2 hb1 hb2
  · rw [if_neg hsk]
    exact inv_of_settled hS (Or.inl rfl) rfl rfl rfl rfl hS.len_dx hS.len_dy hS.len_dxPrime
      hS.len_dyPrime

theorem play_eq_of_not_fit (W H : Nat) (r : Nat) (g : Game) (hinv : Inv W H g)
    (hst : g.state = GameState.gameStarted)
    (hfit : ¬ pieceFits W H { g with dxPrime := g.dx, dyPrime := g.dy }
      g.curX (g.curY + 1) = true) :
    play W H r g =
      (removeLines W H (fillMatrix W H { g with dxPrime := g.dx, dyPrime := g.dy })).bind
        fun g2 =>
          some (if g2.skyline > 0 then
            (if (getPiece W H r g2).2 = true then resetFallingTimer (getPiece W H r g2).1
             else { (getPiece W H r g2).1 with state := GameState.gameOver })
           else { g2 with state := GameState.gameOver }) := by
  unfold play
  simp only [moveDown_of_not_fit W H g hinv hst hfit, Bool.false_eq_true, if_false]
  congr 1
  funext g2
  split_ifs <;> rfl

theorem play_eq_of_fit (W H : Nat) (r : Nat) (g : Game) (hinv : Inv W H g)
    (hst : g.state = GameState.gameStarted)
    (hfit : pieceFits W H { g with dxPrime := g.dx, dyPrime := g.dy }
      g.curX (g.curY + 1) = true) :
    play W H r g = some (resetFallingTimer (placePiece W H
        { erasePiece W H { g with dxPrime := g.dx, dyPrime := g.dy,
                                  fallingTimer := g.fallingTimer } with
          curX := g.curX, curY := g.curY + 1, dx := g.dx, dy := g.dy })) := by
  unfold play
  simp only [moveDown_of_fit W H g hinv hst hfit, if_true]

theorem play_inv (W H : Nat) (r : Nat) (g g' : Game) (hinv : Inv W H g)
    (hst : g.state = GameState.gameStarted) (h : play W H r g = some g') : Inv W H g' := by
  by_cases hfit : pieceFits W H { g with dxPrime := g.dx, dyPrime := g.dy }
      g.curX (g.curY + 1) = true
  · rw [play_eq_of_fit W H r g hinv hst hfit] at h
    rw [← Option.some.inj h]
    exact inv_timer (relocate_inv W H g hinv hst _ _ g.dx g.dy g.fallingTimer hinv.len_dx
      hinv.len_dy (hinv.piece (Or.inl hst)).2.2.1 hfit).1 _
  · rw [play_eq_of_not_fit W H r g hinv hst hfit] at h
    have hinv1 : Inv W H { g with dxPrime := g.dx, dyPrime := g.dy } :=
      inv_staged hinv g.dx g.dy g.fallingTimer hinv.len_dx hinv.len_dy
    have hS1 := fillMatrix_settled hinv1 (Or.inl hst)
    have hfr1 := fillMatrix_frame W H { g with dxPrime := g.dx, dyPrime := g.dy }
    cases hrl : removeLines W H (fillMatrix W H { g with dxPrime := g.dx, dyPrime := g.dy }) with
    | none => rw [hrl] at h; exact absurd h (by simp)
    | some g2 =>
      rw [hrl, Option.some_bind] at h
      obtain ⟨hS2, hfr2⟩ := removeLines_settled hS1 hrl
      have hst2 : g2.state = GameState.gameStarted := by
        rw [hfr2, hfr1]; exact hst
      rw [← Option.some.inj h]
      exact respawn_inv r hS2 hst2

/-! ## The invariant holds in every reachable state -/

theorem settled_reset (W H : Nat) (g : Game) : Settled W H (resetGame W H g) :=
  { wf := replicate_wf W H
    len_dx := rfl
    len_dy := rfl
    len_dxPrime := rfl
    len_dyPrime := rfl
    nonneg := fun y x _ => by
      have : cellAt (resetGame W H g).board y x = 0 := cellAt_replicate W H y x
      rw [this]
    pos_cells := fun y x _ hpos => by
      have : cellAt (resetGame W H g).board y x = 0 := cellAt_replicate W H y x
      rw [this] at hpos
      exact absurd hpos (lt_irrefl _)
    level := ⟨le_refl _, show (1 : Int) = min maxLevel (1 + 0 / rowsPerLevel) by decide⟩ }

theorem newGame_inv (W H : Nat) : Inv W H (NewGame W H) :=
  inv_of_settled (settled_reset W H zeroGame)
    (Or.inr ⟨rfl, fun y x => cellAt_replicate W H y x⟩) rfl rfl rfl rfl rfl rfl rfl rfl

theorem settled_of_inv {W H : Nat} {g : Game} (hinv : Inv W H g) (hna : ¬ Active g) :
    Settled W H g :=
  { wf := hinv.wf
    len_dx := hinv.len_dx
    len_dy := hinv.len_dy
    len_dxPrime := hinv.len_dxPrime
    len_dyPrime := hinv.len_dyPrime
    nonneg := fun y x hin => by
      by_contra hneg
      exact hna (hinv.neg_cells y x hin (not_le.1 hneg)).1
    pos_cells := hinv.pos_cells
    level := hinv.level }

/-- Switching between started and paused, and touching the timer, do not disturb the
invariant. -/
theorem inv_set_state {W H : Nat} {g : Game} (hinv : Inv W H g) (hact : Active g)
    (s : GameState) (hs : s = GameState.gameStarted ∨ s = GameState.gamePaused)
    (t : Option Int) : Inv W H { g with state := s, fallingTimer := t } :=
  { wf := hinv.wf
    len_dx := hinv.len_dx
    len_dy := hinv.len_dy
    len_dxPrime := hinv.len_dxPrime
    len_dyPrime := hinv.len_dyPrime
    neg_cells := fun y x hin hneg => ⟨hs, (hinv.neg_cells y x hin hneg).2⟩
    pos_cells := hinv.pos_cells
    piece := fun _ => hinv.piece hact
    intro := fun hi => by
      rcases hs with h | h <;> subst h <;> cases hi
    level := hinv.level
    fits := fun hW hH _ => hinv.fits hW hH hact }

theorem startDefault_inv (W H : Nat) (r : Nat) (g : Game) (hS : Settled W H g)
    (hz : ∀ y x, cellAt g.board y x = 0) : Inv W H (startDefault W H r g) := by
  have hS1 : Settled W H { g with state := GameState.gameStarted } :=
    ⟨hS.wf, hS.len_dx, hS.len_dy, hS.len_dxPrime, hS.len_dyPrime, hS.nonneg, hS.pos_cells,
      hS.level⟩
  have hfits : 4 ≤ W → 2 ≤ H →
      pieceFits W H (spawned W r { g with state := GameState.gameStarted })
        ((W / 2 : Nat) : Int) 0 = true :=
    fun hW hH => spawn_fits W H r _ hW hH (fun y x _ => le_of_eq (hz y x))
  have hsp := spawn_inv r hS1 rfl hfits
  unfold startDefault
  simp only
  rw [getPiece_eq W H r { g with state := GameState.gameStarted } hS.len_dx hS.len_dy
    hS.len_dxPrime hS.len_dyPrime]
  by_cases hf : pieceFits W H (spawned W r { g with state := GameState.gameStarted })
      ((W / 2 : Nat) : Int) 0 = true
  · rw [if_pos hf]
    have hstP : (placePiece W H (spawned W r { g with state := GameState.gameStarted })).state
        = GameState.gameStarted := by rw [placePiece_frame]; rfl
    exact inv_timer (inv_place_again hsp (Or.inl hstP)) _
  · rw [if_neg hf]
    exact inv_timer hsp _

theorem resume_inv (W H : Nat) (r : Nat) (g g' : Game) (hinv : Inv W H g) (hact : Active g)
    (h : resume W H r g = some g') : Inv W H g' :=
  play_inv W H r _ g' (inv_set_state hinv hact _ (Or.inl rfl) g.fallingTimer) rfl h

theorem start_inv (W H : Nat) (r : Nat) (g g' : Game) (hinv : Inv W H g)
    (h : start W H r g = some g') : Inv W H g' := by
  unfold start at h
  cases hst : g.state with
  | gameStarted =>
    rw [hst] at h
    rw [← Option.some.inj h]
    exact hinv
  | gamePaused =>
    rw [hst] at h
    exact resume_inv W H r g g' hinv (Or.inr hst) h
  | gameOver =>
    rw [hst] at h
    rw [← Option.some.inj h]
    exact startDefault_inv W H r _ (settled_reset W H g) (fun y x => cellAt_replicate W H y x)
  | gameIntro =>
    rw [hst] at h
    rw [← Option.some.inj h]
    have hna : ¬ Active g := by
      rintro (h' | h') <;> rw [hst] at h' <;> exact absurd h' (by decide)
    exact startDefault_inv W H r g (settled_of_inv hinv hna) (hinv.intro hst)

theorem pause_inv (W H : Nat) (r : Nat) (g g' : Game) (hinv : Inv W H g)
    (h : pause W H r g = some g') : Inv W H g' := by
  unfold pause at h
  cases hst : g.state with
  | gameStarted =>
    rw [hst] at h
    rw [← Option.some.inj h]
    exact inv_set_state hinv (Or.inl hst) _ (Or.inr rfl) none
  | gamePaused =>
    rw [hst] at h
    exact resume_inv W H r g g' hinv (Or.inr hst) h
  | gameOver =>
    rw [hst] at h
    rw [← Option.some.inj h]
    exact hinv
  | gameIntro =>
    rw [hst] at h
    rw [← Option.some.inj h]
    exact hinv

/-- Every reachable state satisfies the invariant. -/
theorem reachable_inv (W H : Nat) (g : Game) (h : Reachable W H g) : Inv W H g := by
  induction h with
  | init => exact newGame_inv W H
  | start r _ hs ih => exact start_inv W H r _ _ ih hs
  | pause r _ hs ih => exact pause_inv W H r _ _ ih hs
  | moveLeft _ ih => exact moveLeft_inv W H _ ih
  | moveRight _ ih => exact moveRight_inv W H _ ih
  | rotate _ ih => exact rotate_inv W H _ ih
  | fall _ hs ih => exact fall_inv W H _ _ ih hs
  | tick r _ hst hs ih => exact play_inv W H r _ _ ih hst hs

/-! ## The claims -/

/-- C5. In every reachable state, a negative board cell holds exactly `-curPiece` and is
one of the four cells of the current piece, and a positive board cell holds a type id
from 1 to 7; while a piece is in play its cells on the board all hold `-curPiece`, so
the piece overlaps no settled cell. -/
theorem C5_cell_values (boardWidth boardHeight : Nat) (g : Game)
    (hr : Reachable boardWidth boardHeight g) (y x : Int)
    (hin : inBoard boardWidth boardHeight x y) :
    (cellAt g.board y x < 0 → cellAt g.board y x = -g.curPiece ∧ onPiece g y x) ∧
    (0 < cellAt g.board y x → 1 ≤ cellAt g.board y x ∧ cellAt g.board y x ≤ 7) ∧
    (Active g → onPiece g y x → cellAt g.board y x = -g.curPiece ∧ cellAt g.board y x < 0) := by
  have hinv := reachable_inv boardWidth boardHeight g hr
  refine ⟨fun hneg => ?_, fun hpos => ⟨by omega, (hinv.pos_cells y x hin hpos).1⟩,
    fun hact hon => ?_⟩
  · obtain ⟨hact, hon⟩ := hinv.neg_cells y x hin hneg
    exact ⟨(hinv.piece hact).2.2.2 y x hin hon, hon⟩
  · obtain ⟨h1, _, _, h4⟩ := hinv.piece hact
    have := h4 y x hin hon
    exact ⟨this, by omega⟩

/-- C6. In every reachable state no board row above the skyline (of index `< skyline`)
holds a settled (positive) cell. -/
theorem C6_skyline (boardWidth boardHeight : Nat) (g : Game)
    (hr : Reachable boardWidth boardHeight g) (y x : Int)
    (hin : inBoard boardWidth boardHeight x y) (hy : y < g.skyline) :
    cellAt g.board y x ≤ 0 := by
  have hinv := reachable_inv boardWidth boardHeight g hr
  by_contra hpos
  have := (hinv.pos_cells y x hin (not_le.1 hpos)).2
  omega

/-- C7. In every reachable state `curLevel = min(10, 1 + numLines / 5)`, with
`numLines ≥ 0`: the level is 1 with no line cleared, 2 once the 5th line is cleared, 10
once the 45th line is cleared, and never more than 10. -/
theorem C7_level (boardWidth boardHeight : Nat) (g : Game)
    (hr : Reachable boardWidth boardHeight g) :
    0 ≤ g.numLines ∧ g.curLevel = min maxLevel (1 + g.numLines / rowsPerLevel) ∧
    (g.numLines = 0 → g.curLevel = 1) ∧ (g.numLines = 5 → g.curLevel = 2) ∧
    (g.numLines = 45 → g.curLevel = 10) ∧ (45 ≤ g.numLines → g.curLevel = 10) ∧
    1 ≤ g.curLevel ∧ g.curLevel ≤ 10 := by
  have hinv := reachable_inv boardWidth boardHeight g hr
  obtain ⟨h0, hl⟩ := hinv.level
  unfold maxLevel rowsPerLevel at hl
  refine ⟨h0, hl, ?_, ?_, ?_, ?_, ?_, ?_⟩ <;> omega

/-- C10. On a board of width at least 4 and height at least 2 with no settled cell, for
every value `rand.Int()` can return, hence for each of the 7 piece types, the fit test
of `getPiece` at the spawn anchor `(boardWidth / 2, 0)` succeeds with the catalog
offsets of the type staged, `getPiece` returns `true`, and the four cells of the piece
are on the board and hold `-curPiece` afterwards. -/
theorem C10_spawn_fits (boardWidth boardHeight : Nat) (r : Nat) (g : Game)
    (hW : 4 ≤ boardWidth) (hH : 2 ≤ boardHeight)
    (hwf : BoardWF boardWidth boardHeight g.board)
    (hlen : g.dx.length = 4 ∧ g.dy.length = 4 ∧ g.dxPrime.length = 4 ∧ g.dyPrime.length = 4)
    (hempty : ∀ y x, inBoard boardWidth boardHeight x y → cellAt g.board y x ≤ 0) :
    pieceFits boardWidth boardHeight (spawned boardWidth r g)
      ((boardWidth / 2 : Nat) : Int) 0 = true ∧
    (getPiece boardWidth boardHeight r g).2 = true ∧
    (getPiece boardWidth boardHeight r g).1.curPiece = 1 + ((r % numTypes : Nat) : Int) ∧
    (getPiece boardWidth boardHeight r g).1.curX = ((boardWidth / 2 : Nat) : Int) ∧
    (getPiece boardWidth boardHeight r g).1.curY = 0 ∧
    (getPiece boardWidth boardHeight r g).1.dx =
      dxBank.getD (1 + ((r % numTypes : Nat) : Int)).toNat [] ∧
    (getPiece boardWidth boardHeight r g).1.dy =
      dyBank.getD (1 + ((r % numTypes : Nat) : Int)).toNat [] ∧
    ∀ k, k < numSquares →
      inBoard boardWidth boardHeight
        (((boardWidth / 2 : Nat) : Int) +
          (dxBank.getD (1 + ((r % numTypes : Nat) : Int)).toNat []).getD k 0)
        (0 + (dyBank.getD (1 + ((r % numTypes : Nat) : Int)).toNat []).getD k 0) ∧
      cellAt (getPiece boardWidth boardHeight r g).1.board
        (0 + (dyBank.getD (1 + ((r % numTypes : Nat) : Int)).toNat []).getD k 0)
        (((boardWidth / 2 : Nat) : Int) +
          (dxBank.getD (1 + ((r % numTypes : Nat) : Int)).toNat []).getD k 0)
        = -(1 + ((r % numTypes : Nat) : Int)) := by
  have hfit := spawn_fits boardWidth boardHeight r g hW hH hempty
  have he := getPiece_eq boardWidth boardHeight r g hlen.1 hlen.2.1 hlen.2.2.1 hlen.2.2.2
  rw [if_pos hfit] at he
  have hwfS : BoardWF boardWidth boardHeight (spawned boardWidth r g).board := hwf
  obtain ⟨_, hc⟩ := placePiece_board boardWidth boardHeight (spawned boardWidth r g) hwfS
  have hfr := placePiece_frame boardWidth boardHeight (spawned boardWidth r g)
  rw [he]
  simp only
  generalize placePiece boardWidth boardHeight (spawned boardWidth r g) = gP at hc hfr ⊢
  refine ⟨hfit, trivial, by rw [hfr]; rfl, by rw [hfr]; rfl, by rw [hfr]; rfl, by rw [hfr]; rfl,
    by rw [hfr]; rfl, fun k hk => ?_⟩
  have hb := (pieceFits_eq_true_iff boardWidth boardHeight _ _ _).1 hfit k hk
  have hb4 := (bank_facts r).2.2.2.2.2 k hk
  have hin : inBoard boardWidth boardHeight
      (((boardWidth / 2 : Nat) : Int) +
        (dxBank.getD (1 + ((r % numTypes : Nat) : Int)).toNat []).getD k 0)
      (0 + (dyBank.getD (1 + ((r % numTypes : Nat) : Int)).toNat []).getD k 0) :=
    ⟨by omega, hb.2.2.1, hb.1, hb.2.1⟩
  exact ⟨hin, (hc _ _).1 hin ⟨k, hk, rfl, rfl⟩⟩

/-- The fit test depends on the board only through which cells are settled. -/
theorem pieceFits_of_settled_same (W H : Nat) (g g' : Game)
    (hx : g'.dxPrime = g.dxPrime) (hy : g'.dyPrime = g.dyPrime)
    (hb : ∀ y x, inBoard W H x y →
      (0 < cellAt g'.board y x ∨ 0 < cellAt g.board y x) →
        cellAt g'.board y x = cellAt g.board y x) (x y : Int) :
    pieceFits W H g' x y = pieceFits W H g x y := by
  have hcell : ∀ cy cx, inBoard W H cx cy →
      (cellAt g'.board cy cx ≤ 0 ↔ cellAt g.board cy cx ≤ 0) := by
    intro cy cx hin
    constructor
    · intro h
      by_contra hpos
      have := hb cy cx hin (Or.inr (not_le.1 hpos))
      omega
    · intro h
      by_contra hpos
      have := hb cy cx hin (Or.inl (not_le.1 hpos))
      omega
  rw [Bool.eq_iff_iff, pieceFits_eq_true_iff, pieceFits_eq_true_iff, hx, hy]
  constructor
  · intro h k hk
    obtain ⟨h1, h2, h3, h4⟩ := h k hk
    exact ⟨h1, h2, h3, fun h0 => (hcell _ _ ⟨h0, h3, h1, h2⟩).1 (h4 h0)⟩
  · intro h k hk
    obtain ⟨h1, h2, h3, h4⟩ := h k hk
    exact ⟨h1, h2, h3, fun h0 => (hcell _ _ ⟨h0, h3, h1, h2⟩).2 (h4 h0)⟩

/-- C9, amended. After `fall()` in a reachable started state the piece rests at the lowest row it
can reach: the new `curY` is at least the old one, the live orientation fits at every
row from the old `curY + 1` to the new `curY` and does not fit one row further, before
and after the drop; `curX`, the orientation and the piece type are unchanged; nothing is
settled (the game is still started, every settled cell is where and what it was, no
settled cell is added, `skyline`, `numLines` and `curLevel` are unchanged) and the
cells of the piece on the board are negative.  On a board with no settled cell, of
width at least 4 and height at least 2, the lowest cell of the piece is in row
`boardHeight - 1`. -/
theorem C9_fall_rests (boardWidth boardHeight : Nat) (g : Game)
    (hr : Reachable boardWidth boardHeight g) (hst : g.state = GameState.gameStarted) :
    ∃ g', fall boardWidth boardHeight g = some g' ∧
      g'.state = GameState.gameStarted ∧ g'.curX = g.curX ∧ g'.dx = g.dx ∧ g'.dy = g.dy ∧
      g'.curPiece = g.curPiece ∧ g.curY ≤ g'.curY ∧
      (∀ y, g.curY < y → y ≤ g'.curY → liveFits boardWidth boardHeight g g.curX y = true) ∧
      liveFits boardWidth boardHeight g g.curX (g'.curY + 1) = false ∧
      liveFits boardWidth boardHeight g' g'.curX (g'.curY + 1) = false ∧
      g'.skyline = g.skyline ∧ g'.numLines = g.numLines ∧ g'.curLevel = g.curLevel ∧
      (∀ y x, inBoard boardWidth boardHeight x y →
        (0 < cellAt g'.board y x ∨ 0 < cellAt g.board y x) →
          cellAt g'.board y x = cellAt g.board y x) ∧
      (∀ y x, inBoard boardWidth boardHeight x y → onPiece g' y x →
        cellAt g'.board y x = -g'.curPiece ∧ cellAt g'.board y x < 0) ∧
      (4 ≤ boardWidth → 2 ≤ boardHeight →
        (∀ y x, inBoard boardWidth boardHeight x y → cellAt g.board y x ≤ 0) →
        (∀ k, k < numSquares → g'.curY + g'.dy.getD k 0 ≤ (boardHeight : Int) - 1) ∧
        ∃ k, k < numSquares ∧ g'.curY + g'.dy.getD k 0 = (boardHeight : Int) - 1) := by
  have hinv := reachable_inv boardWidth boardHeight g hr
  have hact : Active g := Or.inl hst
  -- the facts that do not depend on how far the piece drops
  have key : ∀ g', fall boardWidth boardHeight g = some g' →
      g'.state = GameState.gameStarted → g'.curX = g.curX → g'.dx = g.dx → g'.dy = g.dy →
      g'.curPiece = g.curPiece →
      liveFits boardWidth boardHeight g g.curX (g'.curY + 1) = false →
      (∀ y x, inBoard boardWidth boardHeight x y →
        (0 < cellAt g'.board y x ∨ 0 < cellAt g.board y x) →
          cellAt g'.board y x = cellAt g.board y x) →
      liveFits boardWidth boardHeight g' g'.curX (g'.curY + 1) = false ∧
      (∀ y x, inBoard boardWidth boardHeight x y → onPiece g' y x →
        cellAt g'.board y x = -g'.curPiece ∧ cellAt g'.board y x < 0) ∧
      (4 ≤ boardWidth → 2 ≤ boardHeight →
        (∀ y x, inBoard boardWidth boardHeight x y → cellAt g.board y x ≤ 0) →
        (∀ k, k < numSquares → g'.curY + g'.dy.getD k 0 ≤ (boardHeight : Int) - 1) ∧
        ∃ k, k < numSquares ∧ g'.curY + g'.dy.getD k 0 = (boardHeight : Int) - 1) := by
    intro g' hfall hst' hX hdx hdy hcp hlast hsame
    have hinv' := fall_inv boardWidth boardHeight g g' hinv hfall
    have hact' : Active g' := Or.inl hst'
    refine ⟨?_, ?_, ?_⟩
    · have e := pieceFits_of_settled_same boardWidth boardHeight
        { g with dxPrime := g.dx, dyPrime := g.dy } { g' with dxPrime := g'.dx, dyPrime := g'.dy }
        hdx hdy hsame g'.curX (g'.curY + 1)
      unfold liveFits at hlast ⊢
      rw [e, hX]
      exact hlast
    · intro y x hin hon
      obtain ⟨h1, _, _, h4⟩ := hinv'.piece hact'
      have := h4 y x hin hon
      exact ⟨this, by omega⟩
    · intro hW hH hempty
      have hf' := hinv'.fits hW hH hact'
      have hf := hinv.fits hW hH hact
      refine ⟨fun k hk => by have := (hf' k hk).2.2; omega, ?_⟩
      unfold liveFits at hlast
      obtain ⟨k, hk, hbad⟩ := (pieceFits_eq_false_iff boardWidth boardHeight _ _ _).1 hlast
      simp only at hbad
      refine ⟨k, hk, ?_⟩
      have hfk := hf k hk
      have hfk' := (hf' k hk).2.2
      rw [hdy] at hfk' ⊢
      rcases hbad with hb | hb | hb | ⟨hb0, hb⟩
      · omega
      · omega
      · omega
      · by_cases hlt : g'.curY + 1 + g.dy.getD k 0 < (boardHeight : Int)
        · have := hempty _ _ ⟨hb0, hlt, hfk.1, hfk.2.1⟩
          omega
        · omega
  by_cases hfit : pieceFits boardWidth boardHeight { g with dxPrime := g.dx, dyPrime := g.dy }
      g.curX (g.curY + 1) = true
  · obtain ⟨n, hn, he, hall, hlast⟩ := fall_of_fit boardWidth boardHeight g hinv hst hfit
    have hf := hall (n - 1) (by omega)
    have e : g.curY + ((n - 1 : Nat) : Int) + 1 = g.curY + (n : Int) := by omega
    rw [e] at hf
    obtain ⟨_, hsame⟩ := relocate_inv boardWidth boardHeight g hinv hst g.curX
      (g.curY + (n : Int)) g.dx g.dy none hinv.len_dx hinv.len_dy
      (hinv.piece hact).2.2.1 hf
    obtain ⟨hfr, _, _⟩ := relocate_spec boardWidth boardHeight
      { g with dxPrime := g.dx, dyPrime := g.dy, fallingTimer := none } hinv.wf g.curX
      (g.curY + (n : Int)) g.dx g.dy
    generalize placePiece boardWidth boardHeight
      { erasePiece boardWidth boardHeight
          { g with dxPrime := g.dx, dyPrime := g.dy, fallingTimer := none } with
        curX := g.curX, curY := g.curY + (n : Int), dx := g.dx, dy := g.dy } = gP
      at he hsame hfr
    have hY : (resetFallingTimer gP).curY = g.curY + (n : Int) := by rw [hfr]; rfl
    have hlast' : liveFits boardWidth boardHeight g g.curX ((resetFallingTimer gP).curY + 1)
        = false := by rw [hY]; exact hlast
    have hst' : (resetFallingTimer gP).state = GameState.gameStarted := by rw [hfr]; exact hst
    obtain ⟨k1, k2, k3⟩ := key (resetFallingTimer gP) he hst' (by rw [hfr]; rfl)
      (by rw [hfr]; rfl) (by rw [hfr]; rfl) (by rw [hfr]; rfl) hlast' hsame
    refine ⟨resetFallingTimer gP, he, hst', by rw [hfr]; rfl, by rw [hfr]; rfl,
      by rw [hfr]; rfl, by rw [hfr]; rfl, by rw [hY]; omega, ?_, hlast', k1,
      by rw [hfr]; rfl, by rw [hfr]; rfl, by rw [hfr]; rfl, hsame, k2, k3⟩
    intro y hy1 hy2
    rw [hY] at hy2
    have := hall (y - g.curY - 1).toNat (by omega)
    have e2 : g.curY + ((y - g.curY - 1).toNat : Int) + 1 = y := by omega
    rw [e2] at this
    exact this
  · have he := fall_of_not_fit boardWidth boardHeight g hinv hst hfit
    have hlast : liveFits boardWidth boardHeight g g.curX (g.curY + 1) = false := by
      unfold liveFits
      rw [Bool.not_eq_true] at hfit
      exact hfit
    obtain ⟨k1, k2, k3⟩ := key { g with dxPrime := g.dx, dyPrime := g.dy } he hst rfl rfl rfl rfl
      hlast (fun y x _ _ => rfl)
    exact ⟨_, he, hst, rfl, rfl, rfl, rfl, le_refl _, fun y hy1 hy2 => by simp only at hy2; omega,
      hlast, k1, rfl, rfl, rfl, fun y x _ _ => rfl, k2, k3⟩

/-- A well-formed board is the table of its cells. -/
theorem board_eq_table {W H : Nat} {b : Board} (hwf : BoardWF W H b) :
    b = (List.range H).map fun (y : Nat) =>
      (List.range W).map fun (x : Nat) => cellAt b (y : Int) (x : Int) := by
  apply List.ext_getElem
  · simp [hwf.1]
  · intro i h1 h2
    have hi : i < H := by rw [← hwf.1]; exact h1
    have hrow : (b[i]).length = W := hwf.2 _ (List.getElem_mem _)
    rw [List.getElem_map, List.getElem_range]
    apply List.ext_getElem
    · simp [hrow]
    · intro j h3 h4
      rw [List.getElem_map, List.getElem_range]
      unfold cellAt
      have : (0 : Int) ≤ (i : Int) ∧ (0 : Int) ≤ (j : Int) := ⟨by omega, by omega⟩
      rw [if_pos this]
      simp only [Int.toNat_ofNat, List.getD_eq_getElem?_getD, List.getElem?_eq_getElem h1,
        Option.getD_some, List.getElem?_eq_getElem h3]

theorem count_table (W : Nat) (f : Nat → Nat → Int) : ∀ (ys : List Nat),
    ((ys.map fun (y : Nat) => ((List.range W).map (f y))).map
      fun (row : List Int) => row.countP fun v => decide (v < 0)).sum =
    ((List.product ys (List.range W)).filter
      fun (p : Nat × Nat) => decide (f p.1 p.2 < 0)).length := by
  intro ys
  induction ys with
  | nil => rfl
  | cons y ys ih =>
    have hp : List.product (y :: ys) (List.range W) =
        (List.range W).map (fun x => (y, x)) ++ List.product ys (List.range W) :=
      List.product_cons y ys (List.range W)
    rw [List.map_cons, List.map_cons, List.sum_cons, ih, hp, List.filter_append,
      List.length_append, List.countP_map, List.countP_eq_length_filter, List.filter_map,
      List.length_map]
    rfl

theorem activeCount_eq {W H : Nat} {b : Board} (hwf : BoardWF W H b) :
    activeCount b =
      ((boardCells W H).filter
        fun (p : Nat × Nat) => decide (cellAt b (p.1 : Int) (p.2 : Int) < 0)).length := by
  have h := count_table W (fun y x => cellAt b (y : Int) (x : Int)) (List.range H)
  rw [← board_eq_table hwf] at h
  exact h

theorem mem_boardCells {W H : Nat} {p : Nat × Nat} :
    p ∈ boardCells W H ↔ p.1 < H ∧ p.2 < W := by
  obtain ⟨y, x⟩ := p
  have := @List.mem_product _ _ (List.range H) (List.range W) y x
  rw [List.mem_range, List.mem_range] at this
  exact this

theorem nodup_boardCells (W H : Nat) : (boardCells W H).Nodup :=
  (List.nodup_range H).product (List.nodup_range W)

/-- Distinct cells of the piece have distinct offsets. -/
theorem offsets_inj {dx dy : List Int} (h1 : dx.length = 4) (h2 : dy.length = 4)
    (hnd : (List.zip dx dy).Nodup) {k1 k2 : Nat} (hk1 : k1 < numSquares)
    (hk2 : k2 < numSquares) (hx : dx.getD k1 0 = dx.getD k2 0)
    (hy : dy.getD k1 0 = dy.getD k2 0) : k1 = k2 := by
  obtain ⟨a1, b1, c1, d1, rfl⟩ := length_four h1
  obtain ⟨a2, b2, c2, d2, rfl⟩ := length_four h2
  simp only [List.zip_cons_cons, List.zip_nil_right, List.nodup_cons, List.mem_cons,
    List.mem_singleton, Prod.mk.injEq, List.not_mem_nil, not_false_eq_true, List.nodup_nil,
    and_true, not_or, not_and] at hnd
  have hk1' : k1 < 4 := hk1
  have hk2' : k2 < 4 := hk2
  obtain ⟨⟨n1, n2, n3⟩, ⟨n4, n5⟩, n6⟩ := hnd
  interval_cases k1 <;> interval_cases k2 <;>
    simp only [List.getD_cons_zero, List.getD_cons_succ] at hx hy <;>
    first
      | rfl
      | exact absurd hy (n1 hx)
      | exact absurd hy (n2 hx)
      | exact absurd hy (n3 hx)
      | exact absurd hy (n4 hx)
      | exact absurd hy (n5 hx)
      | exact absurd hy (n6 hx)
      | exact absurd hy.symm (n1 hx.symm)
      | exact absurd hy.symm (n2 hx.symm)
      | exact absurd hy.symm (n3 hx.symm)
      | exact absurd hy.symm (n4 hx.symm)
      | exact absurd hy.symm (n5 hx.symm)
      | exact absurd hy.symm (n6 hx.symm)

/-- In every state that satisfies the invariant, the number of negative cells on the
board is the number of cells of the piece in play that lie on the board, and `0` when
no piece is in play. -/
theorem inv_activeCount {W H : Nat} {g : Game} (hinv : Inv W H g) :
    (Active g → activeCount g.board = onBoardCount W H g) ∧
    (¬ Active g → activeCount g.board = 0) := by
  rw [activeCount_eq hinv.wf]
  constructor
  · intro hact
    obtain ⟨hp1, _, hnd, hpc⟩ := hinv.piece hact
    unfold onBoardCount
    have hL2 : ((List.range numSquares).filter fun k =>
        decide (inBoard W H (g.curX + g.dx.getD k 0) (g.curY + g.dy.getD k 0))).length =
        (((List.range numSquares).filter fun k =>
          decide (inBoard W H (g.curX + g.dx.getD k 0) (g.curY + g.dy.getD k 0))).map
          fun k => ((g.curY + g.dy.getD k 0).toNat, (g.curX + g.dx.getD k 0).toNat)).length := by
      rw [List.length_map]
    rw [hL2]
    apply List.Perm.length_eq
    rw [List.perm_ext_iff_of_nodup]
    · rintro ⟨py, px⟩
      simp only [List.mem_filter, mem_boardCells, List.mem_range, decide_eq_true_eq,
        List.mem_map]
      constructor
      · rintro ⟨⟨hy, hx⟩, hneg⟩
        have hin : inBoard W H (px : Int) (py : Int) := ⟨by omega, by omega, by omega, by omega⟩
        obtain ⟨k, hk, hkx, hky⟩ := (hinv.neg_cells _ _ hin hneg).2
        refine ⟨k, ⟨hk, by rw [← hkx, ← hky]; exact hin⟩, ?_⟩
        rw [← hkx, ← hky]
        simp
      · rintro ⟨k, ⟨hk, hin⟩, he⟩
        simp only [Prod.mk.injEq] at he
        obtain ⟨hin1, hin2, hin3, hin4⟩ := hin
        have hy : (py : Int) = g.curY + g.dy.getD k 0 := by omega
        have hx : (px : Int) = g.curX + g.dx.getD k 0 := by omega
        refine ⟨⟨by omega, by omega⟩, ?_⟩
        rw [hy, hx, hpc _ _ ⟨hin1, hin2, hin3, hin4⟩ ⟨k, hk, rfl, rfl⟩]
        omega
    · exact (nodup_boardCells W H).filter _
    · apply List.Nodup.map_on _ ((List.nodup_range numSquares).filter _)
      intro k1 hk1 k2 hk2 he
      simp only [List.mem_filter, List.mem_range, decide_eq_true_eq] at hk1 hk2
      simp only [Prod.mk.injEq] at he
      obtain ⟨hk1, h11, h12, h13, h14⟩ := hk1
      obtain ⟨hk2, h21, h22, h23, h24⟩ := hk2
      exact offsets_inj hinv.len_dx hinv.len_dy hnd hk1 hk2 (by omega) (by omega)
  · intro hna
    rw [List.length_eq_zero, List.filter_eq_nil_iff]
    rintro ⟨py, px⟩ hmem
    rw [mem_boardCells] at hmem
    simp only [decide_eq_true_eq]
    intro hneg
    exact hna (hinv.neg_cells _ _ ⟨by omega, by omega, by omega, by omega⟩ hneg).1

/-! ## Reachable states where `play` does not return -/

/-- A run of events from a reachable state ends in a reachable state. -/
theorem runEvents_reachable (W H : Nat) : ∀ (es : List Event) (g g' : Game),
    Reachable W H g → runEvents W H es g = some g' → Reachable W H g' := by
  intro es
  induction es with
  | nil =>
    intro g g' hr h
    have : g = g' := Option.some.inj h
    rw [← this]
    exact hr
  | cons e es ih =>
    intro g g' hr h
    unfold runEvents at h
    rw [List.foldlM_cons] at h
    cases he : applyEvent W H g e with
    | none => rw [he] at h; exact absurd h (by simp)
    | some g1 =>
      rw [he] at h
      apply ih g1 g' _ h
      cases e with
      | start r => exact Reachable.start r hr he
      | pause r => exact Reachable.pause r hr he
      | moveLeft => rw [← Option.some.inj he]; exact Reachable.moveLeft hr
      | moveRight => rw [← Option.some.inj he]; exact Reachable.moveRight hr
      | rotate => rw [← Option.some.inj he]; exact Reachable.rotate hr
      | fall => exact Reachable.fall hr he
      | tick r =>
        have hite : (if g.state = GameState.gameStarted then play W H r g else none)
            = some g1 := he
        by_cases hst : g.state = GameState.gameStarted
        · rw [if_pos hst] at hite
          exact Reachable.tick r hr hst hite
        · rw [if_neg hst] at hite
          exact absurd hite (by simp)

/-- `stuckGame` is reached from `NewGame` by `start` (a T piece is drawn), a tick that
moves the piece down, and a tick that settles it and draws an I piece. -/
theorem stuckGame_reachable : Reachable 4 3 stuckGame :=
  runEvents_reachable 4 3 [Event.start 0, Event.tick 0, Event.tick 5] (NewGame 4 3) stuckGame
    Reachable.init (by decide)

set_option maxRecDepth 100000 in
/-- `wideStuckGame` is what `stuckTrace` leads to from `NewGame`. -/
theorem stuckTrace_run : runEvents 10 18 stuckTrace (NewGame 10 18) = some wideStuckGame := by
  decide

/-- `wideStuckGame` is reachable on a board of 10 columns and 18 rows. -/
theorem wideStuckGame_reachable : Reachable 10 18 wideStuckGame :=
  runEvents_reachable 10 18 stuckTrace (NewGame 10 18) wideStuckGame Reachable.init
    stuckTrace_run

/-- C8 fails on the code: `play` does not return in the reachable started state
`wideStuckGame` of a board of 10 columns and 18 rows.  The piece cannot descend,
`fillMatrix` settles it on rows 0 and 1, which lowers `skyline` to 0 and makes row 1
full, and the row shift of `removeLines` then reads `g.board[-1]`.  The same happens
on a board of 4 columns and 3 rows in the reachable state `stuckGame`, where an I piece
fills row 0. -/
theorem C8_play_out_of_range :
    (Reachable 10 18 wideStuckGame ∧ wideStuckGame.state = GameState.gameStarted ∧
      liveFits 10 18 wideStuckGame wideStuckGame.curX (wideStuckGame.curY + 1) = false ∧
      (fillMatrix 10 18 (moveDown 10 18 wideStuckGame).1).skyline = 0 ∧
      rowFull 10 (fillMatrix 10 18 (moveDown 10 18 wideStuckGame).1).board 1 ∧
      removeLines 10 18 (fillMatrix 10 18 (moveDown 10 18 wideStuckGame).1) = none ∧
      play 10 18 0 wideStuckGame = none) ∧
    (Reachable 4 3 stuckGame ∧ stuckGame.state = GameState.gameStarted ∧
      liveFits 4 3 stuckGame stuckGame.curX (stuckGame.curY + 1) = false ∧
      (fillMatrix 4 3 (moveDown 4 3 stuckGame).1).skyline = 0 ∧
      rowFull 4 (fillMatrix 4 3 (moveDown 4 3 stuckGame).1).board 0 ∧
      removeLines 4 3 (fillMatrix 4 3 (moveDown 4 3 stuckGame).1) = none ∧
      play 4 3 0 stuckGame = none) := by
  refine ⟨⟨wideStuckGame_reachable, ?_, ?_, ?_, ?_, ?_, ?_⟩,
    ⟨stuckGame_reachable, ?_, ?_, ?_, ?_, ?_, ?_⟩⟩ <;> decide

/-- What `play` does once the piece cannot descend, when `removeLines` returns: the game
goes on, with a fresh piece at the spawn anchor and the timer armed, exactly when the
skyline left by `removeLines` is positive and the fresh piece fits; otherwise the game
is over. -/
theorem play_settle_outcome (W H : Nat) (r : Nat) (g g2 : Game) (hinv : Inv W H g)
    (hst : g.state = GameState.gameStarted)
    (hnf : liveFits W H g g.curX (g.curY + 1) = false)
    (hrl : removeLines W H (fillMatrix W H { g with dxPrime := g.dx, dyPrime := g.dy })
      = some g2) :
    ∃ g', play W H r g = some g' ∧
      (g'.state = GameState.gameStarted ∨ g'.state = GameState.gameOver) ∧
      (g'.state = GameState.gameStarted ↔
        (0 < g2.skyline ∧ pieceFits W H (spawned W r g2) ((W / 2 : Nat) : Int) 0 = true)) ∧
      (g'.state = GameState.gameStarted →
        g'.curX = ((W / 2 : Nat) : Int) ∧ g'.curY = 0 ∧
        g'.curPiece = 1 + ((r % numTypes : Nat) : Int) ∧
        g'.fallingTimer = some (speed g')) := by
  have hfit : ¬ pieceFits W H { g with dxPrime := g.dx, dyPrime := g.dy }
      g.curX (g.curY + 1) = true := by
    unfold liveFits at hnf
    rw [hnf]; decide
  have hinv1 : Inv W H { g with dxPrime := g.dx, dyPrime := g.dy } :=
    inv_staged hinv g.dx g.dy g.fallingTimer hinv.len_dx hinv.len_dy
  have hS1 := fillMatrix_settled hinv1 (Or.inl hst)
  have hfr1 := fillMatrix_frame W H { g with dxPrime := g.dx, dyPrime := g.dy }
  obtain ⟨hS2, hfr2⟩ := removeLines_settled hS1 hrl
  have hst2 : g2.state = GameState.gameStarted := by
    rw [hfr2, hfr1]; exact hst
  rw [play_eq_of_not_fit W H r g hinv hst hfit, hrl, Option.some_bind]
  refine ⟨_, rfl, ?_⟩
  by_cases hsk : g2.skyline > 0
  · by_cases hf : pieceFits W H (spawned W r g2) ((W / 2 : Nat) : Int) 0 = true
    · have e : (if g2.skyline > 0 then
            (if (getPiece W H r g2).2 = true then resetFallingTimer (getPiece W H r g2).1
             else { (getPiece W H r g2).1 with state := GameState.gameOver })
           else { g2 with state := GameState.gameOver }) =
          resetFallingTimer (placePiece W H (spawned W r g2)) := by
        rw [if_pos hsk,
          getPiece_eq W H r g2 hS2.len_dx hS2.len_dy hS2.len_dxPrime hS2.len_dyPrime,
          if_pos hf]
        rfl
      rw [e]
      have hfr := placePiece_frame W H (spawned W r g2)
      generalize placePiece W H (spawned W r g2) = gP at hfr
      have hstP : (resetFallingTimer gP).state = GameState.gameStarted := by
        rw [hfr]; exact hst2
      exact ⟨Or.inl hstP, ⟨fun _ => ⟨hsk, hf⟩, fun _ => hstP⟩,
        fun _ => ⟨by rw [hfr]; rfl, by rw [hfr]; rfl, by rw [hfr]; rfl, rfl⟩⟩
    · have e : (if g2.skyline > 0 then
            (if (getPiece W H r g2).2 = true then resetFallingTimer (getPiece W H r g2).1
             else { (getPiece W H r g2).1 with state := GameState.gameOver })
           else { g2 with state := GameState.gameOver }) =
          { spawned W r g2 with state := GameState.gameOver } := by
        rw [if_pos hsk,
          getPiece_eq W H r g2 hS2.len_dx hS2.len_dy hS2.len_dxPrime hS2.len_dyPrime,
          if_neg hf]
        rfl
      rw [e]
      exact ⟨Or.inr rfl, ⟨fun h => (by cases h), fun h => absurd h.2 hf⟩, fun h => (by cases h)⟩
  · rw [if_neg hsk]
    exact ⟨Or.inr rfl, ⟨fun h => (by cases h), fun h => absurd h.1 hsk⟩, fun h => (by cases h)⟩

/-- C2 fails on the code: after `start` (a T piece is drawn) and `rotate`, on a board
of 10 columns and 18 rows, one cell of the piece is above row 0 and the board holds 3
negative cells. -/
theorem C2_counterexample :
    Reachable 10 18 (rotate 10 18 (startDefault 10 18 0 (NewGame 10 18))) ∧
    activeCount (rotate 10 18 (startDefault 10 18 0 (NewGame 10 18))).board = 3 :=
  ⟨Reachable.rotate (Reachable.start 0 Reachable.init rfl), by decide⟩

/-- C2, amended. In every reachable state the number of negative cells on the board is
`0` when the game is in `Intro` or `Over`, and when it is started or paused it is the
number of the four cells of the current piece that lie on the board; so it is at most
4, and it is exactly 4 on a board of width at least 4 and height at least 2 when no
cell of the piece is above row 0. -/
theorem C2_active_count (boardWidth boardHeight : Nat) (g : Game)
    (hr : Reachable boardWidth boardHeight g) :
    ((g.state = GameState.gameStarted ∨ g.state = GameState.gamePaused) →
      activeCount g.board = onBoardCount boardWidth boardHeight g) ∧
    ((g.state = GameState.gameIntro ∨ g.state = GameState.gameOver) →
      activeCount g.board = 0) ∧
    activeCount g.board ≤ 4 ∧
    (4 ≤ boardWidth → 2 ≤ boardHeight →
      (g.state = GameState.gameStarted ∨ g.state = GameState.gamePaused) →
      (∀ k, k < numSquares → 0 ≤ g.curY + g.dy.getD k 0) → activeCount g.board = 4) := by
  have hinv := reachable_inv boardWidth boardHeight g hr
  obtain ⟨h1, h2⟩ := inv_activeCount hinv
  have hle : onBoardCount boardWidth boardHeight g ≤ 4 := by
    unfold onBoardCount
    exact le_trans (List.length_filter_le _ _) (by simp [numSquares])
  refine ⟨h1, ?_, ?_, ?_⟩
  · intro hs
    apply h2
    rintro (h | h) <;> rcases hs with h' | h' <;> rw [h] at h' <;> cases h'
  · by_cases hact : Active g
    · rw [h1 hact]; exact hle
    · rw [h2 hact]; exact Nat.zero_le _
  · intro hW hH hact hrows
    rw [h1 hact]
    unfold onBoardCount
    rw [List.filter_eq_self.2]
    · simp [numSquares]
    · intro k hk
      have hk' := List.mem_range.1 hk
      obtain ⟨f1, f2, f3⟩ := hinv.fits hW hH hact k hk'
      exact decide_eq_true ⟨hrows k hk', f3, f1, f2⟩

/-- C4 fails on the code: in the reachable started state that `start` gives on a board
of 10 columns and 18 rows, `pause` followed by `pause` (the resume) leaves the piece one
row lower and the board changed, because `resume` calls `play`. -/
theorem C4_counterexample :
    Reachable 10 18 (startDefault 10 18 0 (NewGame 10 18)) ∧
    (startDefault 10 18 0 (NewGame 10 18)).state = GameState.gameStarted ∧
    (startDefault 10 18 0 (NewGame 10 18)).curY = 0 ∧
    ((pause 10 18 0 (startDefault 10 18 0 (NewGame 10 18))).bind (pause 10 18 0)).map
      (fun g => (g.state, g.curY)) = some (GameState.gameStarted, 1) ∧
    ((pause 10 18 0 (startDefault 10 18 0 (NewGame 10 18))).bind (pause 10 18 0)).map
      (fun g => decide (g.board = (startDefault 10 18 0 (NewGame 10 18)).board)) =
      some false :=
  ⟨Reachable.start 0 Reachable.init rfl, by decide, by decide, by decide, by decide⟩

/-- C4, amended. For every reachable started state, pausing and then resuming, by
`pause()` again or by `start()`, delivers one gravity tick at once: the result is what
`play()` gives from the state with the timer stopped.  When the piece can descend, the
result is a started state with the piece one row lower, `curX`, the live orientation,
the level and every settled cell unchanged, and the timer armed at the interval
`speed` of that level. -/
theorem C4_pause_resume (boardWidth boardHeight : Nat) (r r' : Nat) (g : Game)
    (hr : Reachable boardWidth boardHeight g) (hst : g.state = GameState.gameStarted) :
    (pause boardWidth boardHeight r g).bind (pause boardWidth boardHeight r') =
      play boardWidth boardHeight r' { g with fallingTimer := none } ∧
    (pause boardWidth boardHeight r g).bind (start boardWidth boardHeight r') =
      play boardWidth boardHeight r' { g with fallingTimer := none } ∧
    (liveFits boardWidth boardHeight g g.curX (g.curY + 1) = true →
      ∃ g', (pause boardWidth boardHeight r g).bind (pause boardWidth boardHeight r')
          = some g' ∧
        g'.state = GameState.gameStarted ∧ g'.curX = g.curX ∧ g'.curY = g.curY + 1 ∧
        g'.dx = g.dx ∧ g'.dy = g.dy ∧ g'.curLevel = g.curLevel ∧
        g'.fallingTimer = some (speed g) ∧
        ∀ y x, inBoard boardWidth boardHeight x y →
          (0 < cellAt g'.board y x ∨ 0 < cellAt g.board y x) →
            cellAt g'.board y x = cellAt g.board y x) := by
  have hinv := reachable_inv boardWidth boardHeight g hr
  have e1 : (pause boardWidth boardHeight r g).bind (pause boardWidth boardHeight r') =
      play boardWidth boardHeight r' { g with fallingTimer := none } := by
    cases g
    simp only at hst
    subst hst
    rfl
  have e2 : (pause boardWidth boardHeight r g).bind (start boardWidth boardHeight r') =
      play boardWidth boardHeight r' { g with fallingTimer := none } := by
    cases g
    simp only at hst
    subst hst
    rfl
  refine ⟨e1, e2, fun hfit => ?_⟩
  rw [e1]
  have hinv0 : Inv boardWidth boardHeight { g with fallingTimer := none } := inv_timer hinv none
  have hfit0 : pieceFits boardWidth boardHeight
      { ({ g with fallingTimer := none } : Game) with dxPrime := g.dx, dyPrime := g.dy }
      g.curX (g.curY + 1) = true := hfit
  have hplay := play_eq_of_fit boardWidth boardHeight r' { g with fallingTimer := none }
    hinv0 hst hfit0
  obtain ⟨_, hsame⟩ := relocate_inv boardWidth boardHeight g hinv hst g.curX (g.curY + 1)
    g.dx g.dy none hinv.len_dx hinv.len_dy (hinv.piece (Or.inl hst)).2.2.1 hfit
  obtain ⟨hfr, _, _⟩ := relocate_spec boardWidth boardHeight
    { g with dxPrime := g.dx, dyPrime := g.dy, fallingTimer := none } hinv.wf g.curX
    (g.curY + 1) g.dx g.dy
  simp only at hplay
  generalize placePiece boardWidth boardHeight
    { erasePiece boardWidth boardHeight
        { g with dxPrime := g.dx, dyPrime := g.dy, fallingTimer := none } with
      curX := g.curX, curY := g.curY + 1, dx := g.dx, dy := g.dy } = gP
    at hplay hsame hfr
  refine ⟨resetFallingTimer gP, hplay, by rw [hfr]; exact hst, by rw [hfr]; rfl,
    by rw [hfr]; rfl, by rw [hfr]; rfl, by rw [hfr]; rfl, by rw [hfr]; rfl, ?_, hsame⟩
  have hl : gP.curLevel = g.curLevel := by rw [hfr]
  unfold resetFallingTimer speed
  rw [hl]

/-! ## The claims at concrete states -/

/-- The state `start` gives on a board of 10 columns and 18 rows is reachable. -/
theorem started_reachable : Reachable 10 18 (startDefault 10 18 0 (NewGame 10 18)) :=
  Reachable.start 0 Reachable.init rfl

/-- `clearedGame` is reached from `NewGame` by `start` (an I piece is drawn), `fall`, and
the tick that settles the piece, clears the row it fills and draws a T piece. -/
theorem clearedGame_reachable : Reachable 4 4 clearedGame :=
  runEvents_reachable 4 4 [Event.start 5, Event.fall, Event.tick 0] (NewGame 4 4) clearedGame
    Reachable.init (by decide)

/-- C2, amended, at the state after `start` and `rotate` with a T piece. -/
theorem C2_active_count_witness :
    Reachable 10 18 (rotate 10 18 (startDefault 10 18 0 (NewGame 10 18))) ∧
    ((rotate 10 18 (startDefault 10 18 0 (NewGame 10 18))).state = GameState.gameStarted ∨
      (rotate 10 18 (startDefault 10 18 0 (NewGame 10 18))).state = GameState.gamePaused) ∧
    activeCount (rotate 10 18 (startDefault 10 18 0 (NewGame 10 18))).board =
      onBoardCount 10 18 (rotate 10 18 (startDefault 10 18 0 (NewGame 10 18))) :=
  ⟨Reachable.rotate started_reachable, by decide,
    (C2_active_count 10 18 _ (Reachable.rotate started_reachable)).1 (by decide)⟩

/-- C4, amended, at the state `start` gives on a board of 10 columns and 18 rows. -/
theorem C4_pause_resume_witness :
    Reachable 10 18 (startDefault 10 18 0 (NewGame 10 18)) ∧
    (startDefault 10 18 0 (NewGame 10 18)).state = GameState.gameStarted ∧
    (pause 10 18 0 (startDefault 10 18 0 (NewGame 10 18))).bind (pause 10 18 0) =
      play 10 18 0 { startDefault 10 18 0 (NewGame 10 18) with fallingTimer := none } :=
  ⟨started_reachable, by decide,
    (C4_pause_resume 10 18 0 0 _ started_reachable (by decide)).1⟩

/-- C5 at the settled cell in row 1, column 1 of `stuckGame`. -/
theorem C5_cell_values_witness :
    Reachable 4 3 stuckGame ∧ inBoard 4 3 1 1 ∧
    (0 < cellAt stuckGame.board 1 1 →
      1 ≤ cellAt stuckGame.board 1 1 ∧ cellAt stuckGame.board 1 1 ≤ 7) :=
  ⟨stuckGame_reachable, by decide,
    (C5_cell_values 4 3 stuckGame stuckGame_reachable 1 1 (by decide)).2.1⟩

/-- C6 at row 0, column 2 of `stuckGame`, above its skyline. -/
theorem C6_skyline_witness :
    Reachable 4 3 stuckGame ∧ inBoard 4 3 2 0 ∧ (0 : Int) < stuckGame.skyline ∧
    cellAt stuckGame.board 0 2 ≤ 0 :=
  ⟨stuckGame_reachable, by decide, by decide,
    C6_skyline 4 3 stuckGame stuckGame_reachable 0 2 (by decide) (by decide)⟩

/-- C7 at `clearedGame`, in which one line has been cleared. -/
theorem C7_level_witness :
    Reachable 4 4 clearedGame ∧ clearedGame.numLines = 1 ∧
    clearedGame.curLevel = min maxLevel (1 + clearedGame.numLines / rowsPerLevel) :=
  ⟨clearedGame_reachable, by decide, (C7_level 4 4 clearedGame clearedGame_reachable).2.1⟩

/-- C9, amended, at the state `start` gives on a board of 10 columns and 18 rows, which
has no settled cell: the T piece drops until its lowest cell is in row 17. -/
theorem C9_fall_rests_witness :
    Reachable 10 18 (startDefault 10 18 0 (NewGame 10 18)) ∧
    (startDefault 10 18 0 (NewGame 10 18)).state = GameState.gameStarted ∧
    4 ≤ 10 ∧ 2 ≤ 18 ∧
    (∀ y : Nat, y < 18 → ∀ x : Nat, x < 10 →
      cellAt (startDefault 10 18 0 (NewGame 10 18)).board (y : Int) (x : Int) ≤ 0) ∧
    ∃ g', fall 10 18 (startDefault 10 18 0 (NewGame 10 18)) = some g' ∧
      g'.curX = (startDefault 10 18 0 (NewGame 10 18)).curX ∧
      liveFits 10 18 g' g'.curX (g'.curY + 1) = false ∧
      ∃ k, k < numSquares ∧ g'.curY + g'.dy.getD k 0 = ((18 : Nat) : Int) - 1 := by
  have hcells : ∀ y : Nat, y < 18 → ∀ x : Nat, x < 10 →
      cellAt (startDefault 10 18 0 (NewGame 10 18)).board (y : Int) (x : Int) ≤ 0 := by
    decide
  refine ⟨started_reachable, by decide, by decide, by decide, hcells, ?_⟩
  obtain ⟨g', h1, _, h3, _, _, _, _, _, _, h10, _, _, _, _, _, h16⟩ :=
    C9_fall_rests 10 18 _ started_reachable (by decide)
  refine ⟨g', h1, h3, h10, (h16 (by decide) (by decide) ?_).2⟩
  intro y x hin
  obtain ⟨hy0, hy1, hx0, hx1⟩ := hin
  have := hcells y.toNat (by omega) x.toNat (by omega)
  rw [Int.toNat_of_nonneg hy0, Int.toNat_of_nonneg hx0] at this
  exact this

/-- C10 for a piece of type 4 on the empty board of 10 columns and 18 rows. -/
theorem C10_spawn_fits_witness :
    4 ≤ 10 ∧ 2 ≤ 18 ∧ BoardWF 10 18 (NewGame 10 18).board ∧
    (getPiece 10 18 3 (NewGame 10 18)).2 = true :=
  ⟨by decide, by decide, by decide,
    (C10_spawn_fits 10 18 3 (NewGame 10 18) (by decide) (by decide) (by decide)
      ⟨rfl, rfl, rfl, rfl⟩ (fun y x _ => le_of_eq (cellAt_replicate 10 18 y x))).2.1⟩

/-! ## Rotation -/

theorem getD_map_neg (l : List Int) (k : Nat) :
    (l.map fun a => -a).getD k 0 = -(l.getD k 0) := by
  simp only [List.getD_eq_getElem?_getD, List.getElem?_map]
  cases l[k]? <;> simp

theorem map_neg_neg (l : List Int) : ((l.map fun a => -a).map fun a => -a) = l := by
  rw [List.map_map]
  have : ((fun a : Int => -a) ∘ fun a : Int => -a) = id := by
    funext a; simp
  rw [this, List.map_id]

/-! ## Commands outside their lifecycle state -/

/-- C14. In a state that is not started (`Intro`, `Paused` or `Over`) each of `moveLeft`,
`moveRight`, `rotate`, `moveDown` and `fall` returns with the whole game state as it
was, and `moveDown` returns `false`; so does `start` in a started state, and `pause` in
`Intro` and in `Over`. -/
theorem C14_guards (boardWidth boardHeight : Nat) (r : Nat) (g : Game) :
    (g.state ≠ GameState.gameStarted →
      moveLeft boardWidth boardHeight g = g ∧ moveRight boardWidth boardHeight g = g ∧
      rotate boardWidth boardHeight g = g ∧ moveDown boardWidth boardHeight g = (g, false) ∧
      fall boardWidth boardHeight g = some g) ∧
    (g.state = GameState.gameStarted → start boardWidth boardHeight r g = some g) ∧
    (g.state = GameState.gameIntro ∨ g.state = GameState.gameOver →
      pause boardWidth boardHeight r g = some g) := by
  refine ⟨fun hst => ⟨moveLeft_of_not_started _ _ g hst, moveRight_of_not_started _ _ g hst,
    rotate_of_not_started _ _ g hst, moveDown_of_not_started _ _ g hst,
    fall_of_not_started _ _ g hst⟩, fun hst => ?_, fun hst => ?_⟩
  · unfold start
    rw [hst]
  · unfold pause
    rcases hst with h | h <;> rw [h]

/-! ## Restart -/

/-- `start` in `Over` and `start` on a new game run the same `default` branch on states
that differ at most in `curPiece`, which `getPiece` assigns before it is read. -/
theorem startDefault_reset (W H : Nat) (r : Nat) (g : Game) :
    startDefault W H r (resetGame W H g) = startDefault W H r (NewGame W H) := rfl

/-- The state `start` builds from a freshly reset game. -/
theorem startDefault_new (W H : Nat) (r : Nat) :
    (startDefault W H r (NewGame W H)).state = GameState.gameStarted ∧
    (startDefault W H r (NewGame W H)).curLevel = 1 ∧
    (startDefault W H r (NewGame W H)).numLines = 0 ∧
    (startDefault W H r (NewGame W H)).skyline = (H : Int) - 1 ∧
    (startDefault W H r (NewGame W H)).curPiece = 1 + ((r % numTypes : Nat) : Int) ∧
    (startDefault W H r (NewGame W H)).curX = ((W / 2 : Nat) : Int) ∧
    (startDefault W H r (NewGame W H)).curY = 0 ∧
    (startDefault W H r (NewGame W H)).dx =
      dxBank.getD (1 + ((r % numTypes : Nat) : Int)).toNat [] ∧
    (startDefault W H r (NewGame W H)).dy =
      dyBank.getD (1 + ((r % numTypes : Nat) : Int)).toNat [] ∧
    (startDefault W H r (NewGame W H)).fallingTimer = some (slowestSpeed - fastestSpeed * 1) ∧
    BoardWF W H (startDefault W H r (NewGame W H)).board ∧
    ∀ y x,
      (inBoard W H x y → onPiece (startDefault W H r (NewGame W H)) y x →
        cellAt (startDefault W H r (NewGame W H)).board y x
          = -(1 + ((r % numTypes : Nat) : Int))) ∧
      (¬ (inBoard W H x y ∧ onPiece (startDefault W H r (NewGame W H)) y x) →
        cellAt (startDefault W H r (NewGame W H)).board y x = 0) := by
  have hsp : ∀ g0 : Game, g0 = spawned W r { NewGame W H with state := GameState.gameStarted } →
      BoardWF W H g0.board ∧ ∀ y x, cellAt g0.board y x = 0 := by
    intro g0 h0
    rw [h0]
    exact ⟨replicate_wf W H, fun y x => cellAt_replicate W H y x⟩
  obtain ⟨hwfS, hzS⟩ := hsp _ rfl
  obtain ⟨hwf1, hc1⟩ := placePiece_board W H _ hwfS
  have hfr1 := placePiece_frame W H
    (spawned W r { NewGame W H with state := GameState.gameStarted })
  -- the state after `getPiece`, whether the piece fits or not
  have hgp : ∃ g1, (getPiece W H r { NewGame W H with state := GameState.gameStarted }).1 = g1 ∧
      g1 = { spawned W r { NewGame W H with state := GameState.gameStarted } with
             board := g1.board } ∧
      BoardWF W H g1.board ∧
      ∀ y x, (¬ (inBoard W H x y ∧
          onPiece (spawned W r { NewGame W H with state := GameState.gameStarted }) y x) →
        cellAt g1.board y x = 0) := by
    rw [getPiece_eq W H r { NewGame W H with state := GameState.gameStarted } rfl rfl rfl rfl]
    by_cases hf : pieceFits W H (spawned W r { NewGame W H with state := GameState.gameStarted })
        ((W / 2 : Nat) : Int) 0 = true
    · rw [if_pos hf]
      refine ⟨_, rfl, hfr1, hwf1, fun y x hn => ?_⟩
      rw [(hc1 y x).2 hn]
      exact hzS y x
    · rw [if_neg hf]
      exact ⟨_, rfl, rfl, hwfS, fun y x _ => hzS y x⟩
  obtain ⟨g1, hg1, hfrg1, hwfg1, hzg1⟩ := hgp
  obtain ⟨hwf2, hc2⟩ := placePiece_board W H g1 hwfg1
  have hfr2 := placePiece_frame W H g1
  have hsd : startDefault W H r (NewGame W H) = resetFallingTimer (placePiece W H g1) := by
    unfold startDefault
    simp only
    rw [hg1]
  rw [hsd]
  generalize placePiece W H g1 = g2 at hwf2 hc2 hfr2 ⊢
  have hon : ∀ y x, onPiece (resetFallingTimer g2) y x ↔ onPiece g1 y x := by
    intro y x; rw [hfr2]; exact Iff.rfl
  have hon1 : ∀ y x, onPiece g1 y x ↔
      onPiece (spawned W r { NewGame W H with state := GameState.gameStarted }) y x := by
    intro y x; rw [hfrg1]; exact Iff.rfl
  have hcp1 : g1.curPiece = 1 + ((r % numTypes : Nat) : Int) := by rw [hfrg1]; rfl
  refine ⟨by rw [hfr2, hfrg1]; rfl, by rw [hfr2, hfrg1]; rfl, by rw [hfr2, hfrg1]; rfl,
    by rw [hfr2, hfrg1]; rfl, by rw [hfr2, hfrg1]; rfl, by rw [hfr2, hfrg1]; rfl,
    by rw [hfr2, hfrg1]; rfl, by rw [hfr2, hfrg1]; rfl, by rw [hfr2, hfrg1]; rfl,
    by rw [hfr2, hfrg1]; rfl, hwf2, fun y x => ⟨fun hin ho => ?_, fun hn => ?_⟩⟩
  · rw [← hcp1]
    exact (hc2 y x).1 hin ((hon y x).1 ho)
  · have hn1 : ¬ (inBoard W H x y ∧ onPiece g1 y x) := fun h => hn ⟨h.1, (hon y x).2 h.2⟩
    have : cellAt (resetFallingTimer g2).board y x = cellAt g1.board y x := (hc2 y x).2 hn1
    rw [this]
    exact hzg1 y x (fun h => hn1 ⟨h.1, (hon1 y x).2 h.2⟩)

/-- C17. In `Over`, `start()` produces exactly the state `start()` produces on a newly
constructed game when the same piece type is drawn: a started game at level 1 with no
line cleared, `skyline = boardHeight - 1`, the piece at anchor `(boardWidth / 2, 0)`
with the catalog offsets of its type, the timer armed, and a board that is all zero
except the cells of the piece on the board, which hold `-curPiece`. -/
theorem C17_restart (boardWidth boardHeight : Nat) (r : Nat) (g : Game)
    (hst : g.state = GameState.gameOver) :
    start boardWidth boardHeight r g = start boardWidth boardHeight r (NewGame boardWidth boardHeight) ∧
    ∃ g', start boardWidth boardHeight r g = some g' ∧
      g'.state = GameState.gameStarted ∧ g'.curLevel = 1 ∧ g'.numLines = 0 ∧
      g'.skyline = (boardHeight : Int) - 1 ∧
      g'.curPiece = 1 + ((r % numTypes : Nat) : Int) ∧
      g'.curX = ((boardWidth / 2 : Nat) : Int) ∧ g'.curY = 0 ∧
      g'.dx = dxBank.getD (1 + ((r % numTypes : Nat) : Int)).toNat [] ∧
      g'.dy = dyBank.getD (1 + ((r % numTypes : Nat) : Int)).toNat [] ∧
      g'.fallingTimer = some (slowestSpeed - fastestSpeed * 1) ∧
      BoardWF boardWidth boardHeight g'.board ∧
      ∀ y x,
        (inBoard boardWidth boardHeight x y → onPiece g' y x →
          cellAt g'.board y x = -(1 + ((r % numTypes : Nat) : Int))) ∧
        (¬ (inBoard boardWidth boardHeight x y ∧ onPiece g' y x) → cellAt g'.board y x = 0) := by
  have h1 : start boardWidth boardHeight r g =
      some (startDefault boardWidth boardHeight r (NewGame boardWidth boardHeight)) := by
    unfold start
    rw [hst]
    exact congrArg some (startDefault_reset boardWidth boardHeight r g)
  have h2 : start boardWidth boardHeight r (NewGame boardWidth boardHeight) =
      some (startDefault boardWidth boardHeight r (NewGame boardWidth boardHeight)) := rfl
  refine ⟨h1.trans h2.symm, _, h1, startDefault_new boardWidth boardHeight r⟩

/-! ## Termination of the hard drop -/

theorem fallLoop_succ (W H : Nat) : ∀ (fuel : Nat) (g g' : Game),
    fallLoop W H fuel g = some g' → fallLoop W H (fuel + 1) g = some g' := by
  intro fuel
  induction fuel with
  | zero =>
    intro g g' h
    unfold fallLoop at h ⊢
    by_cases hf : pieceFits W H g g.curX (g.curY + 1) = true
    · rw [if_pos hf] at h
      exact absurd h (by simp)
    · rw [if_neg hf] at h ⊢
      exact h
  | succ fuel ih =>
    intro g g' h
    rw [fallLoop] at h ⊢
    by_cases hf : pieceFits W H g g.curX (g.curY + 1) = true
    · rw [if_pos hf] at h ⊢
      exact ih _ _ h
    · rw [if_neg hf] at h ⊢
      exact h

theorem fallLoop_mono (W H : Nat) (g g' : Game) (fuel : Nat)
    (h : fallLoop W H fuel g = some g') :
    ∀ more : Nat, fallLoop W H (fuel + more) g = some g' := by
  intro more
  induction more with
  | zero => exact h
  | succ m ih => exact fallLoop_succ W H _ _ _ ih

/-- `fall` returns in every state. -/
theorem fall_isSome (W H : Nat) (g : Game) : ∃ g', fall W H g = some g' := by
  unfold fall
  by_cases hst : g.state ≠ GameState.gameStarted
  · rw [if_pos hst]
    exact ⟨g, rfl⟩
  · rw [if_neg hst]
    simp only
    by_cases hf : (!pieceFits W H (stageLive g) (stageLive g).curX ((stageLive g).curY + 1))
        = true
    · rw [if_pos hf]
      exact ⟨_, rfl⟩
    · rw [if_neg hf]
      obtain ⟨g3, h3⟩ := fallLoop_isSome W H _
        (erasePiece W H { stageLive g with fallingTimer := none }) (le_refl _)
      rw [h3]
      exact ⟨_, rfl⟩

/-! ## The interval of the falling timer -/

theorem speed_bounds (g : Game) (h1 : 1 ≤ g.curLevel) (h10 : g.curLevel ≤ 10) :
    100 * millisecond ≤ speed g ∧ speed g ≤ 640 * millisecond := by
  unfold speed slowestSpeed fastestSpeed millisecond
  constructor <;> omega

theorem moveLeft_timer (W H : Nat) (g : Game) (hinv : Inv W H g) :
    (moveLeft W H g).fallingTimer = g.fallingTimer := by
  by_cases hst : g.state = GameState.gameStarted
  · by_cases hfit : pieceFits W H { g with dxPrime := g.dx, dyPrime := g.dy }
        (g.curX - 1) g.curY = true
    · rw [moveLeft_of_fit W H g hinv hst hfit, placePiece_frame, erasePiece_frame]
    · rw [moveLeft_of_not_fit W H g hinv hst hfit]
  · rw [moveLeft_of_not_started W H g hst]

theorem moveRight_timer (W H : Nat) (g : Game) (hinv : Inv W H g) :
    (moveRight W H g).fallingTimer = g.fallingTimer := by
  by_cases hst : g.state = GameState.gameStarted
  · by_cases hfit : pieceFits W H { g with dxPrime := g.dx, dyPrime := g.dy }
        (g.curX + 1) g.curY = true
    · rw [moveRight_of_fit W H g hinv hst hfit, placePiece_frame, erasePiece_frame]
    · rw [moveRight_of_not_fit W H g hinv hst hfit]
  · rw [moveRight_of_not_started W H g hst]

theorem rotate_timer (W H : Nat) (g : Game) (hinv : Inv W H g) :
    (rotate W H g).fallingTimer = g.fallingTimer := by
  by_cases hst : g.state = GameState.gameStarted
  · by_cases hfit : pieceFits W H { g with dxPrime := g.dy, dyPrime := g.dx.map fun a => -a }
        g.curX g.curY = true
    · rw [rotate_of_fit W H g hinv hst hfit, placePiece_frame, erasePiece_frame]
    · rw [rotate_of_not_fit W H g hinv hst hfit]
  · rw [rotate_of_not_started W H g hst]

theorem fall_timer (W H : Nat) (g g' : Game) (hinv : Inv W H g) (h : fall W H g = some g') :
    g'.fallingTimer = g.fallingTimer ∨ g'.fallingTimer = some (speed g') := by
  by_cases hst : g.state = GameState.gameStarted
  · by_cases hfit : pieceFits W H { g with dxPrime := g.dx, dyPrime := g.dy }
        g.curX (g.curY + 1) = true
    · obtain ⟨n, _, he, _, _⟩ := fall_of_fit W H g hinv hst hfit
      rw [he] at h
      rw [← Option.some.inj h]
      exact Or.inr rfl
    · rw [fall_of_not_fit W H g hinv hst hfit] at h
      rw [← Option.some.inj h]
      exact Or.inl rfl
  · rw [fall_of_not_started W H g hst] at h
    rw [← Option.some.inj h]
    exact Or.inl rfl

theorem play_timer (W H : Nat) (r : Nat) (g g' : Game) (hinv : Inv W H g)
    (hst : g.state = GameState.gameStarted) (h : play W H r g = some g') :
    g'.fallingTimer = g.fallingTimer ∨ g'.fallingTimer = some (speed g') := by
  by_cases hfit : pieceFits W H { g with dxPrime := g.dx, dyPrime := g.dy }
      g.curX (g.curY + 1) = true
  · rw [play_eq_of_fit W H r g hinv hst hfit] at h
    rw [← Option.some.inj h]
    exact Or.inr rfl
  · rw [play_eq_of_not_fit W H r g hinv hst hfit] at h
    have hinv1 : Inv W H { g with dxPrime := g.dx, dyPrime := g.dy } :=
      inv_staged hinv g.dx g.dy g.fallingTimer hinv.len_dx hinv.len_dy
    have hS1 := fillMatrix_settled hinv1 (Or.inl hst)
    have hfr1 := fillMatrix_frame W H { g with dxPrime := g.dx, dyPrime := g.dy }
    cases hrl : removeLines W H (fillMatrix W H { g with dxPrime := g.dx, dyPrime := g.dy }) with
    | none => rw [hrl] at h; exact absurd h (by simp)
    | some g2 =>
      rw [hrl, Option.some_bind] at h
      obtain ⟨hS2, hfr2⟩ := removeLines_settled hS1 hrl
      have ht2 : g2.fallingTimer = g.fallingTimer := by rw [hfr2, hfr1]
      rw [← Option.some.inj h]
      by_cases hsk : g2.skyline > 0
      · rw [if_pos hsk,
          getPiece_eq W H r g2 hS2.len_dx hS2.len_dy hS2.len_dxPrime hS2.len_dyPrime]
        by_cases hf : pieceFits W H (spawned W r g2) ((W / 2 : Nat) : Int) 0 = true
        · rw [if_pos hf]
          exact Or.inr rfl
        · rw [if_neg hf]
          exact Or.inl ht2
      · rw [if_neg hsk]
        exact Or.inl ht2

theorem start_timer (W H : Nat) (r : Nat) (g g' : Game) (hinv : Inv W H g)
    (h : start W H r g = some g') :
    g'.fallingTimer = g.fallingTimer ∨ g'.fallingTimer = some (speed g') := by
  unfold start at h
  cases hst : g.state with
  | gameStarted =>
    rw [hst] at h
    rw [← Option.some.inj h]
    exact Or.inl rfl
  | gamePaused =>
    rw [hst] at h
    exact play_timer W H r { g with state := GameState.gameStarted } g'
      (inv_set_state hinv (Or.inr hst) _ (Or.inl rfl) g.fallingTimer) rfl h
  | gameOver =>
    rw [hst] at h
    rw [← Option.some.inj h]
    exact Or.inr rfl
  | gameIntro =>
    rw [hst] at h
    rw [← Option.some.inj h]
    exact Or.inr rfl

theorem pause_timer (W H : Nat) (r : Nat) (g g' : Game) (hinv : Inv W H g)
    (h : pause W H r g = some g') :
    g'.fallingTimer = g.fallingTimer ∨ g'.fallingTimer = none ∨
      g'.fallingTimer = some (speed g') := by
  unfold pause at h
  cases hst : g.state with
  | gameStarted =>
    rw [hst] at h
    rw [← Option.some.inj h]
    exact Or.inr (Or.inl rfl)
  | gamePaused =>
    rw [hst] at h
    rcases play_timer W H r { g with state := GameState.gameStarted } g'
      (inv_set_state hinv (Or.inr hst) _ (Or.inl rfl) g.fallingTimer) rfl h with h1 | h1
    · exact Or.inl h1
    · exact Or.inr (Or.inr h1)
  | gameOver =>
    rw [hst] at h
    rw [← Option.some.inj h]
    exact Or.inl rfl
  | gameIntro =>
    rw [hst] at h
    rw [← Option.some.inj h]
    exact Or.inl rfl

/-- In every reachable state the level is between 1 and 10. -/
theorem reachable_level (W H : Nat) (g : Game) (hr : Reachable W H g) :
    1 ≤ g.curLevel ∧ g.curLevel ≤ 10 := by
  obtain ⟨h0, hl⟩ := (reachable_inv W H g hr).level
  unfold maxLevel rowsPerLevel at hl
  constructor <;> omega

/-- In every reachable state an armed timer holds an interval between 100 and 640
milliseconds. -/
theorem reachable_timer (W H : Nat) (g : Game) (hr : Reachable W H g) :
    ∀ d, g.fallingTimer = some d → 100 * millisecond ≤ d ∧ d ≤ 640 * millisecond := by
  induction hr with
  | init => intro d hd; exact absurd hd (by simp [NewGame, resetGame])
  | start r hg hs ih =>
    intro d hd
    have hl := reachable_level W H _ (Reachable.start r hg hs)
    rcases start_timer W H r _ _ (reachable_inv W H _ hg) hs with h | h
    · exact ih d (h ▸ hd)
    · rw [h] at hd
      rw [← Option.some.inj hd]
      exact speed_bounds _ hl.1 hl.2
  | pause r hg hs ih =>
    intro d hd
    have hl := reachable_level W H _ (Reachable.pause r hg hs)
    rcases pause_timer W H r _ _ (reachable_inv W H _ hg) hs with h | h | h
    · exact ih d (h ▸ hd)
    · rw [h] at hd
      exact absurd hd (by simp)
    · rw [h] at hd
      rw [← Option.some.inj hd]
      exact speed_bounds _ hl.1 hl.2
  | moveLeft hg ih =>
    intro d hd
    rw [moveLeft_timer W H _ (reachable_inv W H _ hg)] at hd
    exact ih d hd
  | moveRight hg ih =>
    intro d hd
    rw [moveRight_timer W H _ (reachable_inv W H _ hg)] at hd
    exact ih d hd
  | rotate hg ih =>
    intro d hd
    rw [rotate_timer W H _ (reachable_inv W H _ hg)] at hd
    exact ih d hd
  | fall hg hs ih =>
    intro d hd
    have hl := reachable_level W H _ (Reachable.fall hg hs)
    rcases fall_timer W H _ _ (reachable_inv W H _ hg) hs with h | h
    · exact ih d (h ▸ hd)
    · rw [h] at hd
      rw [← Option.some.inj hd]
      exact speed_bounds _ hl.1 hl.2
  | tick r hg hst hs ih =>
    intro d hd
    have hl := reachable_level W H _ (Reachable.tick r hg hst hs)
    rcases play_timer W H r _ _ (reachable_inv W H _ hg) hst hs with h | h
    · exact ih d (h ▸ hd)
    · rw [h] at hd
      rw [← Option.some.inj hd]
      exact speed_bounds _ hl.1 hl.2

/-! ## What a move does -/

/-- The state after the piece of a started game has been moved to a position and
orientation that pass the fit test: the piece fields are the new ones, the negative
cells of the board are exactly the cells of the piece at its new place, they hold
`-curPiece`, every settled cell is where and what it was, and nothing else changes. -/
theorem relocate_outcome (W H : Nat) (g : Game) (hinv : Inv W H g)
    (hst : g.state = GameState.gameStarted) (nx ny : Int) (ndx ndy : List Int)
    (t : Option Int) (hl1 : ndx.length = 4) (hl2 : ndy.length = 4)
    (hnd : (List.zip ndx ndy).Nodup)
    (hfit : pieceFits W H { g with dxPrime := ndx, dyPrime := ndy, fallingTimer := t }
      nx ny = true) (g' : Game)
    (hg' : g' = placePiece W H
      { erasePiece W H { g with dxPrime := ndx, dyPrime := ndy, fallingTimer := t } with
        curX := nx, curY := ny, dx := ndx, dy := ndy }) :
    g'.curX = nx ∧ g'.curY = ny ∧ g'.dx = ndx ∧ g'.dy = ndy ∧
    g'.curPiece = g.curPiece ∧ g'.state = g.state ∧ g'.skyline = g.skyline ∧
    g'.numLines = g.numLines ∧ g'.curLevel = g.curLevel ∧ g'.fallingTimer = t ∧
    (∀ y x, inBoard W H x y →
      (cellAt g'.board y x < 0 ↔ onCells nx ny ndx ndy y x) ∧
      (onCells nx ny ndx ndy y x → cellAt g'.board y x = -g.curPiece)) ∧
    (∀ y x, inBoard W H x y → (0 < cellAt g'.board y x ∨ 0 < cellAt g.board y x) →
      cellAt g'.board y x = cellAt g.board y x) := by
  obtain ⟨hinv', hsame⟩ := relocate_inv W H g hinv hst nx ny ndx ndy t hl1 hl2 hnd hfit
  obtain ⟨hfr, _, hc⟩ := relocate_spec W H
    { g with dxPrime := ndx, dyPrime := ndy, fallingTimer := t } hinv.wf nx ny ndx ndy
  rw [← hg'] at hinv' hsame hfr hc
  have hp1 := (hinv.piece (Or.inl hst)).1
  have hon : ∀ y x, onPiece g' y x ↔ onCells nx ny ndx ndy y x := by
    intro y x; rw [hfr]; exact Iff.rfl
  refine ⟨by rw [hfr], by rw [hfr], by rw [hfr], by rw [hfr], by rw [hfr], by rw [hfr],
    by rw [hfr], by rw [hfr], by rw [hfr], by rw [hfr], fun y x hin => ⟨⟨fun hneg => ?_,
      fun ho => ?_⟩, fun ho => (hc y x).1 hin ho⟩, hsame⟩
  · exact (hon y x).1 (hinv'.neg_cells y x hin hneg).2
  · have := (hc y x).1 hin ho
    simp only at this
    rw [this]
    omega

/-- C13. In a reachable started state `moveLeft()` sets `curX` to `curX - 1` exactly when
the live orientation fits at `(curX - 1, curY)`, and then the active cells of the board
are the cells of the piece one column to the left; when it does not fit, `curX` and the
board are unchanged.  `moveRight()` does the same with `curX + 1`.  In every case
`curY`, the live orientation and every settled cell are unchanged. -/
theorem C13_moves (boardWidth boardHeight : Nat) (g : Game)
    (hr : Reachable boardWidth boardHeight g) (hst : g.state = GameState.gameStarted) :
    ((liveFits boardWidth boardHeight g (g.curX - 1) g.curY = true →
        (moveLeft boardWidth boardHeight g).curX = g.curX - 1 ∧
        ∀ y x, inBoard boardWidth boardHeight x y →
          (cellAt (moveLeft boardWidth boardHeight g).board y x < 0 ↔
            onCells (g.curX - 1) g.curY g.dx g.dy y x) ∧
          (onCells (g.curX - 1) g.curY g.dx g.dy y x →
            cellAt (moveLeft boardWidth boardHeight g).board y x = -g.curPiece)) ∧
      (liveFits boardWidth boardHeight g (g.curX - 1) g.curY = false →
        (moveLeft boardWidth boardHeight g).curX = g.curX ∧
        (moveLeft boardWidth boardHeight g).board = g.board) ∧
      (moveLeft boardWidth boardHeight g).curY = g.curY ∧
      (moveLeft boardWidth boardHeight g).dx = g.dx ∧
      (moveLeft boardWidth boardHeight g).dy = g.dy ∧
      (moveLeft boardWidth boardHeight g).state = GameState.gameStarted ∧
      (moveLeft boardWidth boardHeight g).skyline = g.skyline ∧
      ∀ y x, inBoard boardWidth boardHeight x y →
        (0 < cellAt (moveLeft boardWidth boardHeight g).board y x ∨ 0 < cellAt g.board y x) →
          cellAt (moveLeft boardWidth boardHeight g).board y x = cellAt g.board y x) ∧
    ((liveFits boardWidth boardHeight g (g.curX + 1) g.curY = true →
        (moveRight boardWidth boardHeight g).curX = g.curX + 1 ∧
        ∀ y x, inBoard boardWidth boardHeight x y →
          (cellAt (moveRight boardWidth boardHeight g).board y x < 0 ↔
            onCells (g.curX + 1) g.curY g.dx g.dy y x) ∧
          (onCells (g.curX + 1) g.curY g.dx g.dy y x →
            cellAt (moveRight boardWidth boardHeight g).board y x = -g.curPiece)) ∧
      (liveFits boardWidth boardHeight g (g.curX + 1) g.curY = false →
        (moveRight boardWidth boardHeight g).curX = g.curX ∧
        (moveRight boardWidth boardHeight g).board = g.board) ∧
      (moveRight boardWidth boardHeight g).curY = g.curY ∧
      (moveRight boardWidth boardHeight g).dx = g.dx ∧
      (moveRight boardWidth boardHeight g).dy = g.dy ∧
      (moveRight boardWidth boardHeight g).state = GameState.gameStarted ∧
      (moveRight boardWidth boardHeight g).skyline = g.skyline ∧
      ∀ y x, inBoard boardWidth boardHeight x y →
        (0 < cellAt (moveRight boardWidth boardHeight g).board y x ∨ 0 < cellAt g.board y x) →
          cellAt (moveRight boardWidth boardHeight g).board y x = cellAt g.board y x) := by
  have hinv := reachable_inv boardWidth boardHeight g hr
  have hnd := (hinv.piece (Or.inl hst)).2.2.1
  constructor
  · by_cases hfit : pieceFits boardWidth boardHeight { g with dxPrime := g.dx, dyPrime := g.dy }
        (g.curX - 1) g.curY = true
    · obtain ⟨o1, o2, o3, o4, _, o6, o7, _, _, _, o11, o12⟩ :=
        relocate_outcome boardWidth boardHeight g hinv hst (g.curX - 1) g.curY g.dx g.dy
          g.fallingTimer hinv.len_dx hinv.len_dy hnd hfit _
          (moveLeft_of_fit boardWidth boardHeight g hinv hst hfit)
      refine ⟨fun _ => ⟨o1, o11⟩, fun hf => ?_, o2, o3, o4, o6.trans hst, o7, o12⟩
      unfold liveFits at hf
      rw [hfit] at hf
      exact absurd hf (by decide)
    · rw [moveLeft_of_not_fit boardWidth boardHeight g hinv hst hfit]
      exact ⟨fun hf => absurd hf hfit, fun _ => ⟨rfl, rfl⟩, rfl, rfl, rfl, hst, rfl,
        fun y x _ _ => rfl⟩
  · by_cases hfit : pieceFits boardWidth boardHeight { g with dxPrime := g.dx, dyPrime := g.dy }
        (g.curX + 1) g.curY = true
    · obtain ⟨o1, o2, o3, o4, _, o6, o7, _, _, _, o11, o12⟩ :=
        relocate_outcome boardWidth boardHeight g hinv hst (g.curX + 1) g.curY g.dx g.dy
          g.fallingTimer hinv.len_dx hinv.len_dy hnd hfit _
          (moveRight_of_fit boardWidth boardHeight g hinv hst hfit)
      refine ⟨fun _ => ⟨o1, o11⟩, fun hf => ?_, o2, o3, o4, o6.trans hst, o7, o12⟩
      unfold liveFits at hf
      rw [hfit] at hf
      exact absurd hf (by decide)
    · rw [moveRight_of_not_fit boardWidth boardHeight g hinv hst hfit]
      exact ⟨fun hf => absurd hf hfit, fun _ => ⟨rfl, rfl⟩, rfl, rfl, rfl, hst, rfl,
        fun y x _ _ => rfl⟩

/-- C12. In a reachable started state `rotate()` replaces each live offset
`(dx[k], dy[k])` by `(dy[k], -dx[k])` and redraws the piece exactly when the rotated
piece passes the fit test at the current anchor `(curX, curY)`; otherwise the rotation
is rejected and the board and the live orientation are unchanged.  `curX`, `curY` and
every settled cell are unchanged in both cases. -/
theorem C12_rotate (boardWidth boardHeight : Nat) (g : Game)
    (hr : Reachable boardWidth boardHeight g) (hst : g.state = GameState.gameStarted) :
    (pieceFits boardWidth boardHeight (stageRotated g) g.curX g.curY = true →
      (rotate boardWidth boardHeight g).dx = g.dy ∧
      (rotate boardWidth boardHeight g).dy = (g.dx.map fun a => -a) ∧
      (∀ k, k < numSquares →
        (rotate boardWidth boardHeight g).dx.getD k 0 = g.dy.getD k 0 ∧
        (rotate boardWidth boardHeight g).dy.getD k 0 = -(g.dx.getD k 0)) ∧
      ∀ y x, inBoard boardWidth boardHeight x y →
        (cellAt (rotate boardWidth boardHeight g).board y x < 0 ↔
          onCells g.curX g.curY g.dy (g.dx.map fun a => -a) y x) ∧
        (onCells g.curX g.curY g.dy (g.dx.map fun a => -a) y x →
          cellAt (rotate boardWidth boardHeight g).board y x = -g.curPiece)) ∧
    (pieceFits boardWidth boardHeight (stageRotated g) g.curX g.curY = false →
      (rotate boardWidth boardHeight g).dx = g.dx ∧
      (rotate boardWidth boardHeight g).dy = g.dy ∧
      (rotate boardWidth boardHeight g).board = g.board) ∧
    (rotate boardWidth boardHeight g).curX = g.curX ∧
    (rotate boardWidth boardHeight g).curY = g.curY ∧
    (rotate boardWidth boardHeight g).state = GameState.gameStarted ∧
    (rotate boardWidth boardHeight g).curPiece = g.curPiece ∧
    (rotate boardWidth boardHeight g).skyline = g.skyline ∧
    ∀ y x, inBoard boardWidth boardHeight x y →
      (0 < cellAt (rotate boardWidth boardHeight g).board y x ∨ 0 < cellAt g.board y x) →
        cellAt (rotate boardWidth boardHeight g).board y x = cellAt g.board y x := by
  have hinv := reachable_inv boardWidth boardHeight g hr
  have hnd := (hinv.piece (Or.inl hst)).2.2.1
  have hl : (g.dx.map fun a => -a).length = 4 := by rw [List.length_map]; exact hinv.len_dx
  rw [stageRotated_eq g hinv.len_dxPrime hinv.len_dyPrime hinv.len_dx hinv.len_dy]
  by_cases hfit : pieceFits boardWidth boardHeight
      { g with dxPrime := g.dy, dyPrime := g.dx.map fun a => -a } g.curX g.curY = true
  · obtain ⟨o1, o2, o3, o4, o5, o6, o7, _, _, _, o11, o12⟩ :=
      relocate_outcome boardWidth boardHeight g hinv hst g.curX g.curY g.dy
        (g.dx.map fun a => -a) g.fallingTimer hinv.len_dy hl
        (nodup_rotated hinv.len_dx hinv.len_dy hnd) hfit _
        (rotate_of_fit boardWidth boardHeight g hinv hst hfit)
    refine ⟨fun _ => ⟨o3, o4, fun k _ => ⟨by rw [o3], by rw [o4, getD_map_neg]⟩, o11⟩,
      fun hf => ?_, o1, o2, o6.trans hst, o5, o7, o12⟩
    rw [hfit] at hf
    exact absurd hf (by decide)
  · rw [rotate_of_not_fit boardWidth boardHeight g hinv hst hfit]
    exact ⟨fun hf => absurd hf hfit, fun _ => ⟨rfl, rfl, rfl⟩, rfl, rfl, hst, rfl, rfl,
      fun y x _ _ => rfl⟩

/-- C15. In a reachable started state whose piece cannot descend, the settle step
`fillMatrix` of `play` writes `curPiece`, a type id from 1 to 7, at every cell of the
piece that is on the board, leaves every other cell and every field but `board` and
`skyline` unchanged, leaves no negative cell on the board, and sets `skyline` to the
least of the old `skyline` and the rows of the cells written. -/
theorem C15_fillMatrix (boardWidth boardHeight : Nat) (g : Game)
    (hr : Reachable boardWidth boardHeight g) (hst : g.state = GameState.gameStarted)
    (hnf : liveFits boardWidth boardHeight g g.curX (g.curY + 1) = false) :
    (moveDown boardWidth boardHeight g).2 = false ∧
    1 ≤ g.curPiece ∧ g.curPiece ≤ 7 ∧
    fillMatrix boardWidth boardHeight (moveDown boardWidth boardHeight g).1 =
      { (moveDown boardWidth boardHeight g).1 with
        board := (fillMatrix boardWidth boardHeight (moveDown boardWidth boardHeight g).1).board
        skyline :=
          (fillMatrix boardWidth boardHeight (moveDown boardWidth boardHeight g).1).skyline } ∧
    (∀ y x,
      (inBoard boardWidth boardHeight x y → onPiece g y x →
        cellAt (fillMatrix boardWidth boardHeight (moveDown boardWidth boardHeight g).1).board
          y x = g.curPiece) ∧
      (¬ (inBoard boardWidth boardHeight x y ∧ onPiece g y x) →
        cellAt (fillMatrix boardWidth boardHeight (moveDown boardWidth boardHeight g).1).board
          y x = cellAt g.board y x) ∧
      (inBoard boardWidth boardHeight x y →
        0 ≤ cellAt (fillMatrix boardWidth boardHeight
          (moveDown boardWidth boardHeight g).1).board y x)) ∧
    (fillMatrix boardWidth boardHeight (moveDown boardWidth boardHeight g).1).skyline
      ≤ g.skyline ∧
    (∀ k, k < numSquares →
      inBoard boardWidth boardHeight (g.curX + g.dx.getD k 0) (g.curY + g.dy.getD k 0) →
      (fillMatrix boardWidth boardHeight (moveDown boardWidth boardHeight g).1).skyline
        ≤ g.curY + g.dy.getD k 0) ∧
    ((fillMatrix boardWidth boardHeight (moveDown boardWidth boardHeight g).1).skyline
        = g.skyline ∨
      ∃ k, k < numSquares ∧
        inBoard boardWidth boardHeight (g.curX + g.dx.getD k 0) (g.curY + g.dy.getD k 0) ∧
        (fillMatrix boardWidth boardHeight (moveDown boardWidth boardHeight g).1).skyline
          = g.curY + g.dy.getD k 0) := by
  have hinv := reachable_inv boardWidth boardHeight g hr
  have hfit : ¬ pieceFits boardWidth boardHeight { g with dxPrime := g.dx, dyPrime := g.dy }
      g.curX (g.curY + 1) = true := by
    unfold liveFits at hnf
    rw [hnf]; decide
  rw [moveDown_of_not_fit boardWidth boardHeight g hinv hst hfit]
  simp only
  have hinv1 : Inv boardWidth boardHeight { g with dxPrime := g.dx, dyPrime := g.dy } :=
    inv_staged hinv g.dx g.dy g.fallingTimer hinv.len_dx hinv.len_dy
  have hS := fillMatrix_settled hinv1 (Or.inl hst)
  obtain ⟨_, hc⟩ := fillMatrix_board boardWidth boardHeight
    { g with dxPrime := g.dx, dyPrime := g.dy } hinv.wf
  obtain ⟨hs1, hs2, hs3⟩ := fillMatrix_skyline_foldl boardWidth boardHeight
    (List.range numSquares) { g with dxPrime := g.dx, dyPrime := g.dy }
  obtain ⟨hp1, hp7, _, _⟩ := hinv.piece (Or.inl hst)
  refine ⟨trivial, hp1, hp7, fillMatrix_frame boardWidth boardHeight _,
    fun y x => ⟨(hc y x).1, (hc y x).2, hS.nonneg y x⟩, hs1,
    fun k hk hin => hs2 k (List.mem_range.2 hk) hin, ?_⟩
  rcases hs3 with h | ⟨k, hk, hin, he⟩
  · exact Or.inl h
  · exact Or.inr ⟨k, List.mem_range.1 hk, hin, he⟩

/-! ## `removeLines` against the reference compaction -/

/-- `overGame` is reached from `NewGame` on a board of 4 columns and 4 rows: a T piece
settles on the floor, and the O piece drawn next settles on rows 0 and 1, after which
the piece drawn does not fit. -/
theorem overGame_reachable : Reachable 4 4 overGame :=
  runEvents_reachable 4 4
    [Event.start 0, Event.tick 0, Event.tick 0, Event.tick 6, Event.tick 0]
    (NewGame 4 4) overGame Reachable.init (by decide)

/-- C18 fails on the code.  On a board of 10 columns and 18 rows, in the reachable
started state `wideStuckGame`, the piece cannot descend and `play` settles it; the state
so handed to `removeLines` has `skyline = 0` and a full row 1, so the row shift runs
with `k = 1` and then with `k = 0`, where it reads `g.board[-1]`: `removeLines` does not
return.  On a board of 4 columns and 3 rows the same happens in the reachable state
`stuckGame`, where row 0 itself is full and the first shift already has `k = 0`. -/
theorem C18_removeLines_out_of_range :
    (Reachable 10 18 wideStuckGame ∧ wideStuckGame.state = GameState.gameStarted ∧
      (moveDown 10 18 wideStuckGame).2 = false ∧
      (fillMatrix 10 18 (moveDown 10 18 wideStuckGame).1).skyline = 0 ∧
      rowFull 10 (fillMatrix 10 18 (moveDown 10 18 wideStuckGame).1).board 1 ∧
      shiftIndices 1 (fillMatrix 10 18 (moveDown 10 18 wideStuckGame).1).skyline = [1, 0] ∧
      (∀ b : Board, readCell b (0 - 1) 0 = none) ∧
      (∀ b : Board, copyRowDown 10 b 0 = none) ∧
      removeLinesRow 10 (fillMatrix 10 18 (moveDown 10 18 wideStuckGame).1) 1 = none ∧
      removeLines 10 18 (fillMatrix 10 18 (moveDown 10 18 wideStuckGame).1) = none) ∧
    (Reachable 4 3 stuckGame ∧ stuckGame.state = GameState.gameStarted ∧
      (moveDown 4 3 stuckGame).2 = false ∧
      (fillMatrix 4 3 (moveDown 4 3 stuckGame).1).skyline = 0 ∧
      rowFull 4 (fillMatrix 4 3 (moveDown 4 3 stuckGame).1).board 0 ∧
      shiftIndices 0 (fillMatrix 4 3 (moveDown 4 3 stuckGame).1).skyline = [0] ∧
      (∀ b : Board, copyRowDown 4 b 0 = none) ∧
      removeLinesRow 4 (fillMatrix 4 3 (moveDown 4 3 stuckGame).1) 0 = none ∧
      removeLines 4 3 (fillMatrix 4 3 (moveDown 4 3 stuckGame).1) = none) := by
  refine ⟨⟨wideStuckGame_reachable, by decide, by decide, by decide, by decide, by decide,
      fun b => rfl, fun b => copyRowDown_none (by decide) b (le_refl 0), by decide, by decide⟩,
    ⟨stuckGame_reachable, by decide, by decide, by decide, by decide, by decide,
      fun b => copyRowDown_none (by decide) b (le_refl 0), by decide, by decide⟩⟩

/-- C12 at the state `start` gives on a board of 10 columns and 18 rows, where the
rotated piece fits. -/
theorem C12_rotate_witness :
    Reachable 10 18 (startDefault 10 18 0 (NewGame 10 18)) ∧
    (startDefault 10 18 0 (NewGame 10 18)).state = GameState.gameStarted ∧
    pieceFits 10 18 (stageRotated (startDefault 10 18 0 (NewGame 10 18)))
      (startDefault 10 18 0 (NewGame 10 18)).curX
      (startDefault 10 18 0 (NewGame 10 18)).curY = true ∧
    (rotate 10 18 (startDefault 10 18 0 (NewGame 10 18))).dx =
      (startDefault 10 18 0 (NewGame 10 18)).dy ∧
    (rotate 10 18 (startDefault 10 18 0 (NewGame 10 18))).dy =
      ((startDefault 10 18 0 (NewGame 10 18)).dx.map fun a => -a) :=
  ⟨started_reachable, by decide, by decide,
    ((C12_rotate 10 18 _ started_reachable (by decide)).1 (by decide)).1,
    ((C12_rotate 10 18 _ started_reachable (by decide)).1 (by decide)).2.1⟩

/-- C13 at the state `start` gives on a board of 10 columns and 18 rows, where the piece
fits one column to the left and one column to the right. -/
theorem C13_moves_witness :
    Reachable 10 18 (startDefault 10 18 0 (NewGame 10 18)) ∧
    (startDefault 10 18 0 (NewGame 10 18)).state = GameState.gameStarted ∧
    liveFits 10 18 (startDefault 10 18 0 (NewGame 10 18))
      ((startDefault 10 18 0 (NewGame 10 18)).curX - 1)
      (startDefault 10 18 0 (NewGame 10 18)).curY = true ∧
    liveFits 10 18 (startDefault 10 18 0 (NewGame 10 18))
      ((startDefault 10 18 0 (NewGame 10 18)).curX + 1)
      (startDefault 10 18 0 (NewGame 10 18)).curY = true ∧
    (moveLeft 10 18 (startDefault 10 18 0 (NewGame 10 18))).curX =
      (startDefault 10 18 0 (NewGame 10 18)).curX - 1 ∧
    (moveRight 10 18 (startDefault 10 18 0 (NewGame 10 18))).curX =
      (startDefault 10 18 0 (NewGame 10 18)).curX + 1 :=
  ⟨started_reachable, by decide, by decide, by decide,
    ((C13_moves 10 18 _ started_reachable (by decide)).1.1 (by decide)).1,
    ((C13_moves 10 18 _ started_reachable (by decide)).2.1 (by decide)).1⟩

/-- C14 at a newly constructed game, which is in `Intro`. -/
theorem C14_guards_witness :
    (NewGame 10 18).state ≠ GameState.gameStarted ∧
    moveLeft 10 18 (NewGame 10 18) = NewGame 10 18 ∧
    moveRight 10 18 (NewGame 10 18) = NewGame 10 18 ∧
    rotate 10 18 (NewGame 10 18) = NewGame 10 18 ∧
    moveDown 10 18 (NewGame 10 18) = (NewGame 10 18, false) ∧
    fall 10 18 (NewGame 10 18) = some (NewGame 10 18) ∧
    pause 10 18 0 (NewGame 10 18) = some (NewGame 10 18) :=
  ⟨by decide, ((C14_guards 10 18 0 (NewGame 10 18)).1 (by decide)).1,
    ((C14_guards 10 18 0 (NewGame 10 18)).1 (by decide)).2.1,
    ((C14_guards 10 18 0 (NewGame 10 18)).1 (by decide)).2.2.1,
    ((C14_guards 10 18 0 (NewGame 10 18)).1 (by decide)).2.2.2.1,
    ((C14_guards 10 18 0 (NewGame 10 18)).1 (by decide)).2.2.2.2,
    (C14_guards 10 18 0 (NewGame 10 18)).2.2 (Or.inl (by decide))⟩

/-- C15 at `stuckGame`, whose piece lies on row 0 and cannot descend. -/
theorem C15_fillMatrix_witness :
    Reachable 4 3 stuckGame ∧ stuckGame.state = GameState.gameStarted ∧
    liveFits 4 3 stuckGame stuckGame.curX (stuckGame.curY + 1) = false ∧
    (moveDown 4 3 stuckGame).2 = false ∧
    (fillMatrix 4 3 (moveDown 4 3 stuckGame).1).skyline ≤ stuckGame.skyline ∧
    ∀ y x, inBoard 4 3 x y →
      0 ≤ cellAt (fillMatrix 4 3 (moveDown 4 3 stuckGame).1).board y x :=
  ⟨stuckGame_reachable, by decide, by decide,
    (C15_fillMatrix 4 3 stuckGame stuckGame_reachable (by decide) (by decide)).1,
    (C15_fillMatrix 4 3 stuckGame stuckGame_reachable (by decide) (by decide)).2.2.2.2.2.1,
    fun y x =>
      ((C15_fillMatrix 4 3 stuckGame stuckGame_reachable (by decide)
        (by decide)).2.2.2.2.1 y x).2.2⟩

/-- C17 at `overGame`, a reachable state in `Over` on a board of 4 columns and 4 rows. -/
theorem C17_restart_witness :
    Reachable 4 4 overGame ∧ overGame.state = GameState.gameOver ∧
    start 4 4 0 overGame = start 4 4 0 (NewGame 4 4) :=
  ⟨overGame_reachable, by decide, (C17_restart 4 4 0 overGame (by decide)).1⟩

/-! ## Go's 64-bit `int` -/

theorem wrapInt_isInt64 (n : Int) : IsInt64 (wrapInt n) := by
  unfold wrapInt IsInt64
  omega

/-- Where the exact result is a value of `int`, Go's result is the exact result. -/
theorem wrapInt_of_isInt64 {n : Int} (h : IsInt64 n) : wrapInt n = n := by
  unfold IsInt64 at h
  unfold wrapInt
  omega

/-- `pieceFits64` fails exactly when one of the four staged cells, as the code computes
it, is outside the columns of the board, at or below row `boardHeight`, or on a row
`≥ 0` at a positive cell. -/
theorem pieceFits64_eq_false_iff (boardWidth boardHeight : Nat) (g : Game) (x y : Int) :
    pieceFits64 boardWidth boardHeight g x y = false ↔
      ∃ k, k < 4 ∧
        (wrapInt (x + g.dxPrime.getD k 0) < 0 ∨
          (boardWidth : Int) ≤ wrapInt (x + g.dxPrime.getD k 0) ∨
          (boardHeight : Int) ≤ wrapInt (y + g.dyPrime.getD k 0) ∨
          (0 ≤ wrapInt (y + g.dyPrime.getD k 0) ∧
            0 < cellAt g.board (wrapInt (y + g.dyPrime.getD k 0))
              (wrapInt (x + g.dxPrime.getD k 0)))) := by
  unfold pieceFits64
  rw [← Bool.not_eq_true, List.all_eq_true]
  simp only [List.mem_range, numSquares, not_forall]
  constructor
  · rintro ⟨k, hk, h⟩
    refine ⟨k, hk, ?_⟩
    generalize wrapInt (x + g.dxPrime.getD k 0) = cx at h ⊢
    generalize wrapInt (y + g.dyPrime.getD k 0) = cy at h ⊢
    by_contra hcon
    apply h
    simp only [not_or, not_and, not_lt, not_le] at hcon
    obtain ⟨h1, h2, h3, h4⟩ := hcon
    have hA : ¬ (cx < 0 ∨ cx ≥ (boardWidth : Int) ∨ cy ≥ (boardHeight : Int)) := by
      intro hh; omega
    have hB : ¬ (cy > -1 ∧ cellAt g.board cy cx > 0) := by
      rintro ⟨ha, hb⟩
      have := h4 (by omega)
      omega
    simp only [hA, hB, if_false]
  · rintro ⟨k, hk, h⟩
    refine ⟨k, hk, ?_⟩
    generalize wrapInt (x + g.dxPrime.getD k 0) = cx at h ⊢
    generalize wrapInt (y + g.dyPrime.getD k 0) = cy at h ⊢
    intro hcon
    by_cases hA : (cx < 0 ∨ cx ≥ (boardWidth : Int) ∨ cy ≥ (boardHeight : Int))
    · simp only [hA, if_true] at hcon
      exact absurd hcon (by decide)
    · by_cases hB : (cy > -1 ∧ cellAt g.board cy cx > 0)
      · simp only [hA, hB, if_true, if_false] at hcon
        exact absurd hcon (by decide)
      · apply hA
        rcases h with h | h | h | ⟨h, h'⟩
        · exact Or.inl h
        · exact Or.inr (Or.inl h)
        · exact Or.inr (Or.inr h)
        · exact absurd ⟨by omega, h'⟩ hB

theorem pieceFits64_eq_true_iff (W H : Nat) (g : Game) (x y : Int) :
    pieceFits64 W H g x y = true ↔
      ∀ k, k < 4 →
        0 ≤ wrapInt (x + g.dxPrime.getD k 0) ∧
        wrapInt (x + g.dxPrime.getD k 0) < (W : Int) ∧
        wrapInt (y + g.dyPrime.getD k 0) < (H : Int) ∧
        (0 ≤ wrapInt (y + g.dyPrime.getD k 0) →
          cellAt g.board (wrapInt (y + g.dyPrime.getD k 0))
            (wrapInt (x + g.dxPrime.getD k 0)) ≤ 0) := by
  rw [← Bool.not_eq_false, pieceFits64_eq_false_iff]
  constructor
  · intro h k hk
    by_contra hcon
    apply h
    refine ⟨k, hk, ?_⟩
    by_contra hno
    apply hcon
    simp only [not_or, not_and, not_lt, not_le] at hno
    exact ⟨hno.1, hno.2.1, hno.2.2.1, hno.2.2.2⟩
  · rintro h ⟨k, hk, hbad⟩
    obtain ⟨h1, h2, h3, h4⟩ := h k hk
    rcases hbad with hb | hb | hb | ⟨hb, hb'⟩
    · omega
    · omega
    · omega
    · have := h4 hb
      omega

/-- Where no sum leaves the range of `int`, the fit test in 64-bit `int`s is the fit
test in the integers. -/
theorem pieceFits64_eq_pieceFits (W H : Nat) (g : Game) (x y : Int)
    (h : ∀ k, k < numSquares →
      IsInt64 (x + g.dxPrime.getD k 0) ∧ IsInt64 (y + g.dyPrime.getD k 0)) :
    pieceFits64 W H g x y = pieceFits W H g x y := by
  have key : pieceFits64 W H g x y = true ↔ pieceFits W H g x y = true := by
    rw [pieceFits64_eq_true_iff, pieceFits_eq_true_iff]
    constructor
    · intro hh k hk
      have := hh k hk
      rw [wrapInt_of_isInt64 (h k hk).1, wrapInt_of_isInt64 (h k hk).2] at this
      exact this
    · intro hh k hk
      rw [wrapInt_of_isInt64 (h k hk).1, wrapInt_of_isInt64 (h k hk).2]
      exact hh k hk
  cases h1 : pieceFits64 W H g x y <;> cases h2 : pieceFits W H g x y
  · rfl
  · rw [key.2 h2] at h1
    exact absurd h1 (by decide)
  · rw [key.1 h1] at h2
    exact absurd h2 (by decide)
  · rfl

/-- C1 fails on the code as the claim states it, with the exact sums: on the empty board
of 10 columns and 18 rows, with the four staged cells one row below the anchor and the
anchor at `(0, 2^63 - 1)`, every staged cell has exact row `2^63 ≥ 18`, yet the fit
test passes, because Go's sum wraps to `-2^63`, a row above the board. -/
theorem C1_counterexample :
    BoardWF 10 18 lowStagedGame.board ∧ IsInt64 0 ∧ IsInt64 9223372036854775807 ∧
    (∀ k, k < numSquares → IsInt64 (lowStagedGame.dxPrime.getD k 0) ∧
      IsInt64 (lowStagedGame.dyPrime.getD k 0)) ∧
    (∀ k, k < numSquares →
      (18 : Int) ≤ 9223372036854775807 + lowStagedGame.dyPrime.getD k 0 ∧
      wrapInt (9223372036854775807 + lowStagedGame.dyPrime.getD k 0)
        = -9223372036854775808) ∧
    pieceFits64 10 18 lowStagedGame 0 9223372036854775807 = true := by
  decide

/-- C1, amended. `pieceFits(x, y)` returns `false` if and only if one of the four staged
cells `(x + dxPrime[k], y + dyPrime[k])`, with both sums taken in Go's 64-bit `int`,
has its column outside `[0, boardWidth)`, or its row at or beyond `boardHeight`, or its
row `≥ 0` and a positive board value; so a cell with a negative row, and a cell that
holds `0` or a negative value, never makes the test fail.  The sums are the exact sums
whenever these are values of `int`, and then the same holds of the exact sums. -/
theorem C1_pieceFits64_false_iff (boardWidth boardHeight : Nat) (g : Game) (x y : Int) :
    (pieceFits64 boardWidth boardHeight g x y = false ↔
      ∃ k, k < numSquares ∧
        (wrapInt (x + g.dxPrime.getD k 0) < 0 ∨
          (boardWidth : Int) ≤ wrapInt (x + g.dxPrime.getD k 0) ∨
          (boardHeight : Int) ≤ wrapInt (y + g.dyPrime.getD k 0) ∨
          (0 ≤ wrapInt (y + g.dyPrime.getD k 0) ∧
            0 < cellAt g.board (wrapInt (y + g.dyPrime.getD k 0))
              (wrapInt (x + g.dxPrime.getD k 0))))) ∧
    ((∀ k, k < numSquares →
        0 ≤ wrapInt (x + g.dxPrime.getD k 0) ∧
        wrapInt (x + g.dxPrime.getD k 0) < (boardWidth : Int) ∧
        wrapInt (y + g.dyPrime.getD k 0) < (boardHeight : Int) ∧
        (wrapInt (y + g.dyPrime.getD k 0) < 0 ∨
          cellAt g.board (wrapInt (y + g.dyPrime.getD k 0))
            (wrapInt (x + g.dxPrime.getD k 0)) ≤ 0)) →
      pieceFits64 boardWidth boardHeight g x y = true) ∧
    (∀ k, (IsInt64 (x + g.dxPrime.getD k 0) →
        wrapInt (x + g.dxPrime.getD k 0) = x + g.dxPrime.getD k 0) ∧
      (IsInt64 (y + g.dyPrime.getD k 0) →
        wrapInt (y + g.dyPrime.getD k 0) = y + g.dyPrime.getD k 0)) ∧
    ((∀ k, k < numSquares →
        IsInt64 (x + g.dxPrime.getD k 0) ∧ IsInt64 (y + g.dyPrime.getD k 0)) →
      (pieceFits64 boardWidth boardHeight g x y = false ↔
        ∃ k, k < numSquares ∧
          (x + g.dxPrime.getD k 0 < 0 ∨ (boardWidth : Int) ≤ x + g.dxPrime.getD k 0 ∨
            (boardHeight : Int) ≤ y + g.dyPrime.getD k 0 ∨
            (0 ≤ y + g.dyPrime.getD k 0 ∧
              0 < cellAt g.board (y + g.dyPrime.getD k 0) (x + g.dxPrime.getD k 0))))) := by
  refine ⟨pieceFits64_eq_false_iff boardWidth boardHeight g x y, fun h => ?_,
    fun k => ⟨wrapInt_of_isInt64, wrapInt_of_isInt64⟩, fun h => ?_⟩
  · rw [pieceFits64_eq_true_iff]
    intro k hk
    obtain ⟨h1, h2, h3, h4⟩ := h k hk
    refine ⟨h1, h2, h3, fun h0 => ?_⟩
    rcases h4 with h4 | h4
    · omega
    · exact h4
  · rw [pieceFits64_eq_pieceFits boardWidth boardHeight g x y h]
    exact pieceFits_eq_false_iff boardWidth boardHeight g x y

/-- C1, amended, at the anchor `(5, 17)` of the empty board of 10 columns and 18 rows
with the four staged cells one row below the anchor: no sum leaves the range of `int`,
the cells are in row 18, and the fit test fails. -/
theorem C1_pieceFits64_false_iff_witness :
    (∀ k, k < numSquares →
      IsInt64 (5 + lowStagedGame.dxPrime.getD k 0) ∧
      IsInt64 (17 + lowStagedGame.dyPrime.getD k 0)) ∧
    (∃ k, k < numSquares ∧ (18 : Int) ≤ 17 + lowStagedGame.dyPrime.getD k 0) ∧
    pieceFits64 10 18 lowStagedGame 5 17 = false :=
  ⟨by decide, ⟨0, by decide, by decide⟩,
    ((C1_pieceFits64_false_iff 10 18 lowStagedGame 5 17).2.2.2 (by decide)).2
      ⟨0, by decide, Or.inr (Or.inr (Or.inl (by decide)))⟩⟩

/-! ## Rotation in 64-bit `int`s -/

theorem stageRotated64_eq (g : Game) (h1 : g.dxPrime.length = 4) (h2 : g.dyPrime.length = 4)
    (h3 : g.dx.length = 4) (h4 : g.dy.length = 4) :
    stageRotated64 g =
      { g with dxPrime := g.dy, dyPrime := g.dx.map fun a => wrapInt (-a) } := by
  obtain ⟨a1, b1, c1, d1, e1⟩ := length_four h1
  obtain ⟨a2, b2, c2, d2, e2⟩ := length_four h2
  obtain ⟨a3, b3, c3, d3, e3⟩ := length_four h3
  obtain ⟨a4, b4, c4, d4, e4⟩ := length_four h4
  cases g
  simp only at e1 e2 e3 e4
  subst e1 e2 e3 e4
  rfl

/-- Where no `dx[k]` is the least value of `int`, staging the rotated offsets in 64-bit
`int`s is staging them in the integers. -/
theorem stageRotated64_eq_stageRotated (g : Game) (h1 : g.dxPrime.length = 4)
    (h2 : g.dyPrime.length = 4) (h3 : g.dx.length = 4) (h4 : g.dy.length = 4)
    (h : ∀ a ∈ g.dx, IsInt64 (-a)) :
    stageRotated64 g = stageRotated g := by
  rw [stageRotated64_eq g h1 h2 h3 h4, stageRotated_eq g h1 h2 h3 h4]
  have : (g.dx.map fun a => wrapInt (-a)) = (g.dx.map fun a => -a) :=
    List.map_congr_left fun a ha => wrapInt_of_isInt64 (h a ha)
  rw [this]

/-- One rotation: the new `dx` is the old `dy`, the new `dy` is the old `dx` negated, and
the four slices keep their four entries, which are values of `int`. -/
theorem rotateLive64_fields (g : Game) (h1 : g.dxPrime.length = 4) (h2 : g.dyPrime.length = 4)
    (h3 : g.dx.length = 4) (h4 : g.dy.length = 4) :
    (rotateLive64 g).dx = g.dy ∧ (rotateLive64 g).dy = (g.dx.map fun a => wrapInt (-a)) ∧
    (rotateLive64 g).dxPrime.length = 4 ∧ (rotateLive64 g).dyPrime.length = 4 ∧
    (rotateLive64 g).dx.length = 4 ∧ (rotateLive64 g).dy.length = 4 := by
  have hl : (g.dx.map fun a => wrapInt (-a)).length = 4 := by rw [List.length_map]; exact h3
  have e : rotateLive64 g =
      { g with dx := g.dy
               dy := (g.dx.map fun a => wrapInt (-a))
               dxPrime := g.dy
               dyPrime := (g.dx.map fun a => wrapInt (-a)) } := by
    unfold rotateLive64
    rw [stageRotated64_eq g h1 h2 h3 h4]
    exact commitStaged_eq _ h4 hl h3 h4
  rw [e]
  exact ⟨rfl, rfl, h4, hl, h4, hl⟩

theorem getD_map_wrap_neg (l : List Int) (k : Nat) :
    (l.map fun a => wrapInt (-a)).getD k 0 = wrapInt (-(l.getD k 0)) := by
  simp only [List.getD_eq_getElem?_getD, List.getElem?_map]
  cases l[k]? with
  | none => rfl
  | some a => rfl

/-- Negating twice in 64-bit `int`s gives back every value of `int`. -/
theorem map_wrap_neg_twice (l : List Int) (h : ∀ a ∈ l, IsInt64 a) :
    ((l.map fun a => wrapInt (-a)).map fun a => wrapInt (-a)) = l := by
  rw [List.map_map]
  have : l.map ((fun a => wrapInt (-a)) ∘ fun a => wrapInt (-a)) = l.map id := by
    apply List.map_congr_left
    intro a ha
    have := h a ha
    unfold IsInt64 at this
    simp only [Function.comp, id]
    unfold wrapInt
    omega
  rw [this, List.map_id]

theorem isInt64_getD {l : List Int} (h : ∀ a ∈ l, IsInt64 a) (k : Nat) :
    IsInt64 (l.getD k 0) := by
  rw [List.getD_eq_getElem?_getD]
  cases hk : l[k]? with
  | none => exact ⟨by decide, by decide⟩
  | some a => exact h a (List.getElem?_mem hk)

/-- C11 fails on the code as the claim states it: the offset `(-2^63, -2^63)` is not
zero, and one application of the rotation gives it back, because in Go's 64-bit `int`
the least value is its own negation. -/
theorem C11_counterexample :
    (∀ a ∈ minOffsetGame.dx, IsInt64 a) ∧ (∀ a ∈ minOffsetGame.dy, IsInt64 a) ∧
    minOffsetGame.dx.getD 0 0 ≠ 0 ∧ minOffsetGame.dy.getD 0 0 ≠ 0 ∧
    (rotateLive64 minOffsetGame).dx.getD 0 0 = minOffsetGame.dx.getD 0 0 ∧
    (rotateLive64 minOffsetGame).dy.getD 0 0 = minOffsetGame.dy.getD 0 0 := by
  decide

/-- C11, amended. The rotation of `rotate()`, which replaces each offset
`(dx[k], dy[k])` by `(dy[k], -dx[k])` in Go's 64-bit `int`, gives back the live offsets
exactly after 4 applications.  An offset is given back after none of 1, 2 and 3
applications exactly when one of its components is neither `0` nor `-2^63`, the least
value of `int`; so an offset other than `(0, 0)` with no component equal to `-2^63` is
not given back after 1, 2 or 3 applications. -/
theorem C11_rotate64_four (g : Game) (h1 : g.dxPrime.length = 4) (h2 : g.dyPrime.length = 4)
    (h3 : g.dx.length = 4) (h4 : g.dy.length = 4)
    (hdx : ∀ a ∈ g.dx, IsInt64 a) (hdy : ∀ a ∈ g.dy, IsInt64 a) :
    (rotateLive64 g).dx = g.dy ∧ (rotateLive64 g).dy = (g.dx.map fun a => wrapInt (-a)) ∧
    (rotateLive64 (rotateLive64 (rotateLive64 (rotateLive64 g)))).dx = g.dx ∧
    (rotateLive64 (rotateLive64 (rotateLive64 (rotateLive64 g)))).dy = g.dy ∧
    (∀ k, k < numSquares →
      ((¬ ((rotateLive64 g).dx.getD k 0 = g.dx.getD k 0 ∧
            (rotateLive64 g).dy.getD k 0 = g.dy.getD k 0) ∧
        ¬ ((rotateLive64 (rotateLive64 g)).dx.getD k 0 = g.dx.getD k 0 ∧
            (rotateLive64 (rotateLive64 g)).dy.getD k 0 = g.dy.getD k 0) ∧
        ¬ ((rotateLive64 (rotateLive64 (rotateLive64 g))).dx.getD k 0 = g.dx.getD k 0 ∧
            (rotateLive64 (rotateLive64 (rotateLive64 g))).dy.getD k 0 = g.dy.getD k 0)) ↔
        ((g.dx.getD k 0 ≠ 0 ∧ g.dx.getD k 0 ≠ -9223372036854775808) ∨
          (g.dy.getD k 0 ≠ 0 ∧ g.dy.getD k 0 ≠ -9223372036854775808)))) ∧
    (∀ k, k < numSquares → (g.dx.getD k 0 ≠ 0 ∨ g.dy.getD k 0 ≠ 0) →
      g.dx.getD k 0 ≠ -9223372036854775808 → g.dy.getD k 0 ≠ -9223372036854775808 →
      ((rotateLive64 g).dx.getD k 0 ≠ g.dx.getD k 0 ∨
        (rotateLive64 g).dy.getD k 0 ≠ g.dy.getD k 0) ∧
      ((rotateLive64 (rotateLive64 g)).dx.getD k 0 ≠ g.dx.getD k 0 ∨
        (rotateLive64 (rotateLive64 g)).dy.getD k 0 ≠ g.dy.getD k 0) ∧
      ((rotateLive64 (rotateLive64 (rotateLive64 g))).dx.getD k 0 ≠ g.dx.getD k 0 ∨
        (rotateLive64 (rotateLive64 (rotateLive64 g))).dy.getD k 0 ≠ g.dy.getD k 0)) := by
  obtain ⟨x1, y1, p1, q1, r1, s1⟩ := rotateLive64_fields g h1 h2 h3 h4
  obtain ⟨x2, y2, p2, q2, r2, s2⟩ := rotateLive64_fields (rotateLive64 g) p1 q1 r1 s1
  obtain ⟨x3, y3, p3, q3, r3, s3⟩ :=
    rotateLive64_fields (rotateLive64 (rotateLive64 g)) p2 q2 r2 s2
  obtain ⟨x4, y4, _, _, _, _⟩ :=
    rotateLive64_fields (rotateLive64 (rotateLive64 (rotateLive64 g))) p3 q3 r3 s3
  refine ⟨x1, y1, ?_, ?_, ?_, ?_⟩
  · rw [x4, y3, x2, y1, map_wrap_neg_twice _ hdx]
  · rw [y4, x3, y2, x1, map_wrap_neg_twice _ hdy]
  · intro k _
    have bx := isInt64_getD hdx k
    have bY := isInt64_getD hdy k
    rw [x3, y3, x2, y2, x1, y1, map_wrap_neg_twice _ hdx]
    simp only [getD_map_wrap_neg]
    generalize g.dx.getD k 0 = a at bx ⊢
    generalize g.dy.getD k 0 = b at bY ⊢
    unfold IsInt64 at bx bY
    unfold wrapInt
    omega
  · intro k _ hne hx hy
    have bx := isInt64_getD hdx k
    have bY := isInt64_getD hdy k
    rw [x3, y3, x2, y2, x1, y1, map_wrap_neg_twice _ hdx]
    simp only [getD_map_wrap_neg]
    generalize g.dx.getD k 0 = a at bx hne hx hy ⊢
    generalize g.dy.getD k 0 = b at bY hne hx hy ⊢
    unfold IsInt64 at bx bY
    unfold wrapInt
    omega

/-- C11, amended, at the state `start` gives on a board of 10 columns and 18 rows, for
the offset `(1, 0)` of the T piece. -/
theorem C11_rotate64_four_witness :
    (startDefault 10 18 0 (NewGame 10 18)).dxPrime.length = 4 ∧
    (startDefault 10 18 0 (NewGame 10 18)).dyPrime.length = 4 ∧
    (startDefault 10 18 0 (NewGame 10 18)).dx.length = 4 ∧
    (startDefault 10 18 0 (NewGame 10 18)).dy.length = 4 ∧
    (∀ a ∈ (startDefault 10 18 0 (NewGame 10 18)).dx, IsInt64 a) ∧
    (∀ a ∈ (startDefault 10 18 0 (NewGame 10 18)).dy, IsInt64 a) ∧
    (startDefault 10 18 0 (NewGame 10 18)).dx.getD 1 0 = 1 ∧
    (rotateLive64 (rotateLive64 (rotateLive64 (rotateLive64
      (startDefault 10 18 0 (NewGame 10 18)))))).dx = (startDefault 10 18 0 (NewGame 10 18)).dx ∧
    (rotateLive64 (rotateLive64 (rotateLive64 (rotateLive64
      (startDefault 10 18 0 (NewGame 10 18)))))).dy = (startDefault 10 18 0 (NewGame 10 18)).dy ∧
    ((rotateLive64 (startDefault 10 18 0 (NewGame 10 18))).dx.getD 1 0 ≠
        (startDefault 10 18 0 (NewGame 10 18)).dx.getD 1 0 ∨
      (rotateLive64 (startDefault 10 18 0 (NewGame 10 18))).dy.getD 1 0 ≠
        (startDefault 10 18 0 (NewGame 10 18)).dy.getD 1 0) :=
  ⟨by decide, by decide, by decide, by decide, by decide, by decide, by decide,
    (C11_rotate64_four (startDefault 10 18 0 (NewGame 10 18)) (by decide) (by decide)
      (by decide) (by decide) (by decide) (by decide)).2.2.1,
    (C11_rotate64_four (startDefault 10 18 0 (NewGame 10 18)) (by decide) (by decide)
      (by decide) (by decide) (by decide) (by decide)).2.2.2.1,
    ((C11_rotate64_four (startDefault 10 18 0 (NewGame 10 18)) (by decide) (by decide)
      (by decide) (by decide) (by decide) (by decide)).2.2.2.2.2 1 (by decide)
      (Or.inl (by decide)) (by decide) (by decide)).1⟩

/-! ## Termination of the hard drop in 64-bit `int`s -/

theorem timerInv_of_frame {g g' : Game} (hs : g'.state = g.state)
    (ht : g'.fallingTimer = g.fallingTimer) (hl : g'.curLevel = g.curLevel)
    (h : TimerInv g) : TimerInv g' := by
  have hsp : speed g' = speed g := by unfold speed; rw [hl]
  unfold TimerInv
  rw [hs, ht, hsp]
  exact h

/-- A state that is started with the timer armed at `speed()`, or over. -/
theorem timerInv_of_outcome {g : Game}
    (h : (g.state = GameState.gameStarted ∧ g.fallingTimer = some (speed g)) ∨
      g.state = GameState.gameOver) : TimerInv g := by
  rcases h with ⟨h1, h2⟩ | h
  · refine ⟨fun _ => h2, fun hs => ?_⟩
    rcases hs with hs | hs <;> rw [h1] at hs <;> cases hs
  · refine ⟨fun hs => ?_, fun hs => ?_⟩
    · rw [h] at hs
      cases hs
    · rcases hs with hs | hs <;> rw [h] at hs <;> cases hs

theorem moveLeft_timerInv (W H : Nat) (g : Game) (hinv : Inv W H g) (h : TimerInv g) :
    TimerInv (moveLeft W H g) := by
  by_cases hst : g.state = GameState.gameStarted
  · by_cases hfit : pieceFits W H { g with dxPrime := g.dx, dyPrime := g.dy }
        (g.curX - 1) g.curY = true
    · rw [moveLeft_of_fit W H g hinv hst hfit, placePiece_frame, erasePiece_frame]
      exact timerInv_of_frame rfl rfl rfl h
    · rw [moveLeft_of_not_fit W H g hinv hst hfit]
      exact timerInv_of_frame rfl rfl rfl h
  · rw [moveLeft_of_not_started W H g hst]
    exact h

theorem moveRight_timerInv (W H : Nat) (g : Game) (hinv : Inv W H g) (h : TimerInv g) :
    TimerInv (moveRight W H g) := by
  by_cases hst : g.state = GameState.gameStarted
  · by_cases hfit : pieceFits W H { g with dxPrime := g.dx, dyPrime := g.dy }
        (g.curX + 1) g.curY = true
    · rw [moveRight_of_fit W H g hinv hst hfit, placePiece_frame, erasePiece_frame]
      exact timerInv_of_frame rfl rfl rfl h
    · rw [moveRight_of_not_fit W H g hinv hst hfit]
      exact timerInv_of_frame rfl rfl rfl h
  · rw [moveRight_of_not_started W H g hst]
    exact h

theorem rotate_timerInv (W H : Nat) (g : Game) (hinv : Inv W H g) (h : TimerInv g) :
    TimerInv (rotate W H g) := by
  by_cases hst : g.state = GameState.gameStarted
  · by_cases hfit : pieceFits W H { g with dxPrime := g.dy, dyPrime := g.dx.map fun a => -a }
        g.curX g.curY = true
    · rw [rotate_of_fit W H g hinv hst hfit, placePiece_frame, erasePiece_frame]
      exact timerInv_of_frame rfl rfl rfl h
    · rw [rotate_of_not_fit W H g hinv hst hfit]
      exact timerInv_of_frame rfl rfl rfl h
  · rw [rotate_of_not_started W H g hst]
    exact h

theorem fall_timerInv (W H : Nat) (g g' : Game) (hinv : Inv W H g) (h : TimerInv g)
    (hf : fall W H g = some g') : TimerInv g' := by
  by_cases hst : g.state = GameState.gameStarted
  · by_cases hfit : pieceFits W H { g with dxPrime := g.dx, dyPrime := g.dy }
        g.curX (g.curY + 1) = true
    · obtain ⟨n, _, he, _, _⟩ := fall_of_fit W H g hinv hst hfit
      rw [he] at hf
      rw [← Option.some.inj hf]
      apply timerInv_of_outcome
      refine Or.inl ⟨?_, rfl⟩
      rw [placePiece_frame, erasePiece_frame]
      exact hst
    · rw [fall_of_not_fit W H g hinv hst hfit] at hf
      rw [← Option.some.inj hf]
      exact timerInv_of_frame rfl rfl rfl h
  · rw [fall_of_not_started W H g hst] at hf
    rw [← Option.some.inj hf]
    exact h

/-- A tick leaves the game started with the timer armed at `speed()`, or over. -/
theorem play_timerInv (W H : Nat) (r : Nat) (g g' : Game) (hinv : Inv W H g)
    (hst : g.state = GameState.gameStarted) (h : play W H r g = some g') :
    TimerInv g' := by
  apply timerInv_of_outcome
  by_cases hfit : pieceFits W H { g with dxPrime := g.dx, dyPrime := g.dy }
      g.curX (g.curY + 1) = true
  · rw [play_eq_of_fit W H r g hinv hst hfit] at h
    rw [← Option.some.inj h]
    refine Or.inl ⟨?_, rfl⟩
    rw [placePiece_frame, erasePiece_frame]
    exact hst
  · rw [play_eq_of_not_fit W H r g hinv hst hfit] at h
    have hinv1 : Inv W H { g with dxPrime := g.dx, dyPrime := g.dy } :=
      inv_staged hinv g.dx g.dy g.fallingTimer hinv.len_dx hinv.len_dy
    have hS1 := fillMatrix_settled hinv1 (Or.inl hst)
    have hfr1 := fillMatrix_frame W H { g with dxPrime := g.dx, dyPrime := g.dy }
    cases hrl : removeLines W H (fillMatrix W H { g with dxPrime := g.dx, dyPrime := g.dy }) with
    | none => rw [hrl] at h; exact absurd h (by simp)
    | some g2 =>
      rw [hrl, Option.some_bind] at h
      obtain ⟨hS2, hfr2⟩ := removeLines_settled hS1 hrl
      have hs2 : g2.state = GameState.gameStarted := by rw [hfr2, hfr1]; exact hst
      rw [← Option.some.inj h]
      by_cases hsk : g2.skyline > 0
      · rw [if_pos hsk,
          getPiece_eq W H r g2 hS2.len_dx hS2.len_dy hS2.len_dxPrime hS2.len_dyPrime]
        by_cases hf : pieceFits W H (spawned W r g2) ((W / 2 : Nat) : Int) 0 = true
        · rw [if_pos hf]
          refine Or.inl ⟨?_, rfl⟩
          simp only [if_true]
          rw [placePiece_frame]
          exact hs2
        · rw [if_neg hf]
          exact Or.inr rfl
      · rw [if_neg hsk]
        exact Or.inr rfl

theorem placePiece_state (W H : Nat) (g : Game) : (placePiece W H g).state = g.state := by
  rw [placePiece_frame]

/-- The `default` branch of `start` leaves the game started with the timer armed. -/
theorem startDefault_outcome (W H : Nat) (r : Nat) (g : Game) (h3 : g.dx.length = 4)
    (h4 : g.dy.length = 4) (h1 : g.dxPrime.length = 4) (h2 : g.dyPrime.length = 4) :
    (startDefault W H r g).state = GameState.gameStarted ∧
    (startDefault W H r g).fallingTimer = some (speed (startDefault W H r g)) := by
  refine ⟨?_, rfl⟩
  unfold startDefault resetFallingTimer
  simp only
  rw [placePiece_state,
    getPiece_eq W H r { g with state := GameState.gameStarted } h3 h4 h1 h2]
  by_cases hf : pieceFits W H (spawned W r { g with state := GameState.gameStarted })
      ((W / 2 : Nat) : Int) 0 = true
  · rw [if_pos hf]
    simp only
    rw [placePiece_state]
    rfl
  · rw [if_neg hf]
    rfl

theorem start_timerInv (W H : Nat) (r : Nat) (g g' : Game) (hinv : Inv W H g)
    (ht : TimerInv g) (h : start W H r g = some g') : TimerInv g' := by
  unfold start at h
  cases hst : g.state with
  | gameStarted =>
    rw [hst] at h
    rw [← Option.some.inj h]
    exact ht
  | gamePaused =>
    rw [hst] at h
    exact play_timerInv W H r { g with state := GameState.gameStarted } g'
      (inv_set_state hinv (Or.inr hst) _ (Or.inl rfl) g.fallingTimer) rfl h
  | gameOver =>
    rw [hst] at h
    rw [← Option.some.inj h]
    exact timerInv_of_outcome (Or.inl (startDefault_outcome W H r _ rfl rfl rfl rfl))
  | gameIntro =>
    rw [hst] at h
    rw [← Option.some.inj h]
    exact timerInv_of_outcome (Or.inl (startDefault_outcome W H r g hinv.len_dx hinv.len_dy
      hinv.len_dxPrime hinv.len_dyPrime))

theorem pause_timerInv (W H : Nat) (r : Nat) (g g' : Game) (hinv : Inv W H g)
    (ht : TimerInv g) (h : pause W H r g = some g') : TimerInv g' := by
  unfold pause at h
  cases hst : g.state with
  | gameStarted =>
    rw [hst] at h
    rw [← Option.some.inj h]
    exact ⟨fun hs => (by cases hs), fun _ => rfl⟩
  | gamePaused =>
    rw [hst] at h
    exact play_timerInv W H r { g with state := GameState.gameStarted } g'
      (inv_set_state hinv (Or.inr hst) _ (Or.inl rfl) g.fallingTimer) rfl h
  | gameOver =>
    rw [hst] at h
    rw [← Option.some.inj h]
    exact ht
  | gameIntro =>
    rw [hst] at h
    rw [← Option.some.inj h]
    exact ht

/-- In every reachable state the falling timer is armed at `speed()` if the game is
started, and stopped if the game is in `Intro` or paused. -/
theorem reachable_timerInv (W H : Nat) (g : Game) (hr : Reachable W H g) : TimerInv g := by
  induction hr with
  | init =>
    refine ⟨fun hs => ?_, fun _ => rfl⟩
    exact absurd hs (by simp [NewGame, resetGame])
  | start r hg hs ih => exact start_timerInv W H r _ _ (reachable_inv W H _ hg) ih hs
  | pause r hg hs ih => exact pause_timerInv W H r _ _ (reachable_inv W H _ hg) ih hs
  | moveLeft hg ih => exact moveLeft_timerInv W H _ (reachable_inv W H _ hg) ih
  | moveRight hg ih => exact moveRight_timerInv W H _ (reachable_inv W H _ hg) ih
  | rotate hg ih => exact rotate_timerInv W H _ (reachable_inv W H _ hg) ih
  | fall hg hs ih => exact fall_timerInv W H _ _ (reachable_inv W H _ hg) ih hs
  | tick r hg hst hs ih => exact play_timerInv W H r _ _ (reachable_inv W H _ hg) hst hs

/-- C16 fails on the code as the claim states it: the newly constructed game and the
game paused right after `start` are reachable, and in both the falling timer is
stopped, not armed. -/
theorem C16_counterexample :
    Reachable 10 18 (NewGame 10 18) ∧ (NewGame 10 18).fallingTimer = none ∧
    Reachable 10 18 { startDefault 10 18 0 (NewGame 10 18) with
      state := GameState.gamePaused, fallingTimer := none } ∧
    pause 10 18 0 (startDefault 10 18 0 (NewGame 10 18)) =
      some { startDefault 10 18 0 (NewGame 10 18) with
        state := GameState.gamePaused, fallingTimer := none } :=
  ⟨Reachable.init, by decide, Reachable.pause 0 started_reachable (by decide), by decide⟩

/-- C16, amended. `speed()` is 700 ms minus 60 ms times the level; it is strictly
decreasing in the level, and at every level from 1 to 10 it is at least 100 ms, hence
positive.  In every reachable state the level is from 1 to 10; if the game is started
the falling timer is armed with the interval `speed()` of the current level, which is
positive; if the game is in `Intro` or paused the timer is stopped; and whenever the
timer is armed its interval is positive. -/
theorem C16_speed (boardWidth boardHeight : Nat) (g : Game) :
    speed g = 700 * millisecond - 60 * millisecond * g.curLevel ∧
    (∀ g' : Game, g'.curLevel = g.curLevel + 1 → speed g' < speed g) ∧
    (1 ≤ g.curLevel → g.curLevel ≤ 10 → 100 * millisecond ≤ speed g ∧ 0 < speed g) ∧
    (Reachable boardWidth boardHeight g →
      1 ≤ g.curLevel ∧ g.curLevel ≤ 10 ∧ 0 < speed g ∧
      (g.state = GameState.gameStarted → g.fallingTimer = some (speed g)) ∧
      (g.state = GameState.gameIntro ∨ g.state = GameState.gamePaused →
        g.fallingTimer = none) ∧
      ∀ d, g.fallingTimer = some d → 0 < d) := by
  refine ⟨rfl, fun g' h => ?_, fun h1 h10 => ?_, fun hr => ?_⟩
  · unfold speed slowestSpeed fastestSpeed millisecond
    rw [h]
    omega
  · have := speed_bounds g h1 h10
    unfold millisecond at this
    exact ⟨this.1, by omega⟩
  · have hl := reachable_level boardWidth boardHeight g hr
    have hs := speed_bounds g hl.1 hl.2
    have ht := reachable_timerInv boardWidth boardHeight g hr
    unfold millisecond at hs
    refine ⟨hl.1, hl.2, by omega, ht.1, ht.2, fun d hd => ?_⟩
    have := (reachable_timer boardWidth boardHeight g hr d hd).1
    unfold millisecond at this
    omega

/-- C16, amended, at the state `start` gives on a board of 10 columns and 18 rows: the
timer is armed with 640 ms, the interval of level 1. -/
theorem C16_speed_witness :
    Reachable 10 18 (startDefault 10 18 0 (NewGame 10 18)) ∧
    (startDefault 10 18 0 (NewGame 10 18)).state = GameState.gameStarted ∧
    speed (startDefault 10 18 0 (NewGame 10 18)) = 640 * millisecond ∧
    0 < speed (startDefault 10 18 0 (NewGame 10 18)) ∧
    (startDefault 10 18 0 (NewGame 10 18)).fallingTimer =
      some (speed (startDefault 10 18 0 (NewGame 10 18))) :=
  ⟨started_reachable, by decide, by decide,
    ((C16_speed 10 18 (startDefault 10 18 0 (NewGame 10 18))).2.2.2 started_reachable).2.2.1,
    ((C16_speed 10 18 (startDefault 10 18 0 (NewGame 10 18))).2.2.2
      started_reachable).2.2.2.1 (by decide)⟩

/-- C9 fails on the code as the claim states it, in its last sentence.  On a board of 3
columns and 2 rows `start()` draws an I piece that does not fit; the state is reachable
and started, no cell is settled, `fall()` changes nothing, and every cell of the piece
is in row 0, not in row `boardHeight - 1 = 1`.  On a board of 4 columns and 1 row
`start()` draws a T piece, `fall()` changes nothing, and the lowest cell of the piece
is in row 1, not in row `boardHeight - 1 = 0`. -/
theorem C9_counterexample :
    (Reachable 3 2 (startDefault 3 2 5 (NewGame 3 2)) ∧
      (startDefault 3 2 5 (NewGame 3 2)).state = GameState.gameStarted ∧
      (∀ y : Nat, y < 2 → ∀ x : Nat, x < 3 →
        cellAt (startDefault 3 2 5 (NewGame 3 2)).board (y : Int) (x : Int) ≤ 0) ∧
      fall 3 2 (startDefault 3 2 5 (NewGame 3 2)) = some (startDefault 3 2 5 (NewGame 3 2)) ∧
      ∀ k, k < numSquares →
        (startDefault 3 2 5 (NewGame 3 2)).curY +
          (startDefault 3 2 5 (NewGame 3 2)).dy.getD k 0 ≠ ((2 : Nat) : Int) - 1) ∧
    (Reachable 4 1 (startDefault 4 1 0 (NewGame 4 1)) ∧
      (startDefault 4 1 0 (NewGame 4 1)).state = GameState.gameStarted ∧
      (∀ y : Nat, y < 1 → ∀ x : Nat, x < 4 →
        cellAt (startDefault 4 1 0 (NewGame 4 1)).board (y : Int) (x : Int) ≤ 0) ∧
      fall 4 1 (startDefault 4 1 0 (NewGame 4 1)) = some (startDefault 4 1 0 (NewGame 4 1)) ∧
      ∃ k, k < numSquares ∧
        ((1 : Nat) : Int) - 1 < (startDefault 4 1 0 (NewGame 4 1)).curY +
          (startDefault 4 1 0 (NewGame 4 1)).dy.getD k 0) :=
  ⟨⟨Reachable.start 5 Reachable.init (by decide), by decide, by decide, by decide, by decide⟩,
    ⟨Reachable.start 0 Reachable.init (by decide), by decide, by decide, by decide,
      ⟨3, by decide, by decide⟩⟩⟩

/-! ## The range of the coordinates in reachable states -/

theorem small_getD {l : List Int} (h : ∀ a ∈ l, -2 ≤ a ∧ a ≤ 2) (k : Nat) :
    -2 ≤ l.getD k 0 ∧ l.getD k 0 ≤ 2 := by
  rw [List.getD_eq_getElem?_getD]
  cases hk : l[k]? with
  | none => exact ⟨by decide, by decide⟩
  | some a => exact h a (List.getElem?_mem hk)

theorem small_of_getD {l : List Int} (hl : l.length = 4)
    (h : ∀ k, k < numSquares → -2 ≤ l.getD k 0 ∧ l.getD k 0 ≤ 2) :
    ∀ a ∈ l, -2 ≤ a ∧ a ≤ 2 := by
  intro a ha
  obtain ⟨i, hi, rfl⟩ := List.mem_iff_getElem.1 ha
  have := h i (by rw [hl] at hi; exact hi)
  rw [List.getD_eq_getElem l 0 hi] at this
  exact this

theorem small_map_neg {l : List Int} (h : ∀ a ∈ l, -2 ≤ a ∧ a ≤ 2) :
    ∀ a ∈ (l.map fun a => -a), -2 ≤ a ∧ a ≤ 2 := by
  intro a ha
  obtain ⟨b, hb, rfl⟩ := List.mem_map.1 ha
  have := h b hb
  constructor <;> omega

theorem ranged_of_fields {W H : Nat} {g g' : Game} (h : Ranged W H g)
    (hdx : g'.dx = g.dx) (hdy : g'.dy = g.dy) (hx : g'.curX = g.curX)
    (hy : g'.curY = g.curY) : Ranged W H g' :=
  { dx_small := by rw [hdx]; exact h.dx_small
    dy_small := by rw [hdy]; exact h.dy_small
    curX_range := by rw [hx]; exact h.curX_range
    curY_range := by rw [hy]; exact h.curY_range }

theorem ranged_of_values {W H : Nat} {g' : Game} (dx dy : List Int) (x y : Int)
    (hdx : g'.dx = dx) (hdy : g'.dy = dy) (hx : g'.curX = x) (hy : g'.curY = y)
    (h1 : ∀ a ∈ dx, -2 ≤ a ∧ a ≤ 2) (h2 : ∀ a ∈ dy, -2 ≤ a ∧ a ≤ 2)
    (h3 : -2 ≤ x ∧ x ≤ (W : Int) + 2) (h4 : 0 ≤ y ∧ y ≤ (H : Int) + 2) : Ranged W H g' :=
  { dx_small := by rw [hdx]; exact h1
    dy_small := by rw [hdy]; exact h2
    curX_range := by rw [hx]; exact h3
    curY_range := by rw [hy]; exact h4 }

theorem moveLeft_ranged (W H : Nat) (g : Game) (hinv : Inv W H g) (h : Ranged W H g) :
    Ranged W H (moveLeft W H g) := by
  by_cases hst : g.state = GameState.gameStarted
  · by_cases hfit : pieceFits W H { g with dxPrime := g.dx, dyPrime := g.dy }
        (g.curX - 1) g.curY = true
    · rw [moveLeft_of_fit W H g hinv hst hfit, placePiece_frame]
      have h0 := ((pieceFits_eq_true_iff W H _ _ _).1 hfit 0 (by decide)).1
      have hs := small_getD h.dx_small 0
      have hx := h.curX_range
      simp only at h0
      exact ranged_of_values g.dx g.dy (g.curX - 1) g.curY rfl rfl rfl rfl h.dx_small
        h.dy_small ⟨by omega, by omega⟩ h.curY_range
    · rw [moveLeft_of_not_fit W H g hinv hst hfit]
      exact ranged_of_fields h rfl rfl rfl rfl
  · rw [moveLeft_of_not_started W H g hst]
    exact h

theorem moveRight_ranged (W H : Nat) (g : Game) (hinv : Inv W H g) (h : Ranged W H g) :
    Ranged W H (moveRight W H g) := by
  by_cases hst : g.state = GameState.gameStarted
  · by_cases hfit : pieceFits W H { g with dxPrime := g.dx, dyPrime := g.dy }
        (g.curX + 1) g.curY = true
    · rw [moveRight_of_fit W H g hinv hst hfit, placePiece_frame]
      have h0 := ((pieceFits_eq_true_iff W H _ _ _).1 hfit 0 (by decide)).2.1
      have hs := small_getD h.dx_small 0
      have hx := h.curX_range
      simp only at h0
      exact ranged_of_values g.dx g.dy (g.curX + 1) g.curY rfl rfl rfl rfl h.dx_small
        h.dy_small ⟨by omega, by omega⟩ h.curY_range
    · rw [moveRight_of_not_fit W H g hinv hst hfit]
      exact ranged_of_fields h rfl rfl rfl rfl
  · rw [moveRight_of_not_started W H g hst]
    exact h

theorem rotate_ranged (W H : Nat) (g : Game) (hinv : Inv W H g) (h : Ranged W H g) :
    Ranged W H (rotate W H g) := by
  by_cases hst : g.state = GameState.gameStarted
  · by_cases hfit : pieceFits W H { g with dxPrime := g.dy, dyPrime := g.dx.map fun a => -a }
        g.curX g.curY = true
    · rw [rotate_of_fit W H g hinv hst hfit, placePiece_frame]
      exact ranged_of_values g.dy (g.dx.map fun a => -a) g.curX g.curY rfl rfl rfl rfl
        h.dy_small (small_map_neg h.dx_small) h.curX_range h.curY_range
    · rw [rotate_of_not_fit W H g hinv hst hfit]
      exact ranged_of_fields h rfl rfl rfl rfl
  · rw [rotate_of_not_started W H g hst]
    exact h

theorem fall_ranged (W H : Nat) (g g' : Game) (hinv : Inv W H g) (h : Ranged W H g)
    (hf : fall W H g = some g') : Ranged W H g' := by
  by_cases hst : g.state = GameState.gameStarted
  · by_cases hfit : pieceFits W H { g with dxPrime := g.dx, dyPrime := g.dy }
        g.curX (g.curY + 1) = true
    · obtain ⟨n, hn, he, hall, _⟩ := fall_of_fit W H g hinv hst hfit
      rw [he] at hf
      rw [← Option.some.inj hf]
      unfold resetFallingTimer
      rw [placePiece_frame]
      have h0 := ((pieceFits_eq_true_iff W H _ _ _).1 (hall (n - 1) (by omega)) 0
        (by decide)).2.2.1
      have hs := small_getD h.dy_small 0
      have hy := h.curY_range
      simp only at h0
      have e : ((n - 1 : Nat) : Int) = (n : Int) - 1 := by omega
      rw [e] at h0
      exact ranged_of_values g.dx g.dy g.curX (g.curY + (n : Int)) rfl rfl rfl rfl
        h.dx_small h.dy_small h.curX_range ⟨by omega, by omega⟩
    · rw [fall_of_not_fit W H g hinv hst hfit] at hf
      rw [← Option.some.inj hf]
      exact ranged_of_fields h rfl rfl rfl rfl
  · rw [fall_of_not_started W H g hst] at hf
    rw [← Option.some.inj hf]
    exact h

/-- The state `getPiece` builds is in range, whatever the state it starts from. -/
theorem spawned_ranged (W H : Nat) (r : Nat) (g : Game) : Ranged W H (spawned W r g) := by
  obtain ⟨_, _, hb1, hb2, _, hb⟩ := bank_facts r
  have hx : -2 ≤ ((W / 2 : Nat) : Int) ∧ ((W / 2 : Nat) : Int) ≤ (W : Int) + 2 := by omega
  have hy : (0 : Int) ≤ 0 ∧ (0 : Int) ≤ (H : Int) + 2 := by omega
  exact ranged_of_values (dxBank.getD (1 + ((r % numTypes : Nat) : Int)).toNat [])
    (dyBank.getD (1 + ((r % numTypes : Nat) : Int)).toNat []) ((W / 2 : Nat) : Int) 0
    rfl rfl rfl rfl
    (small_of_getD hb1 fun k hk => ⟨(hb k hk).1, by have := (hb k hk).2.1; omega⟩)
    (small_of_getD hb2 fun k hk =>
      ⟨by have := (hb k hk).2.2.1; omega, by have := (hb k hk).2.2.2; omega⟩)
    hx hy

theorem play_ranged (W H : Nat) (r : Nat) (g g' : Game) (hinv : Inv W H g)
    (hr : Ranged W H g) (hst : g.state = GameState.gameStarted)
    (h : play W H r g = some g') : Ranged W H g' := by
  by_cases hfit : pieceFits W H { g with dxPrime := g.dx, dyPrime := g.dy }
      g.curX (g.curY + 1) = true
  · rw [play_eq_of_fit W H r g hinv hst hfit] at h
    rw [← Option.some.inj h]
    unfold resetFallingTimer
    rw [placePiece_frame]
    have h0 := ((pieceFits_eq_true_iff W H _ _ _).1 hfit 0 (by decide)).2.2.1
    have hs := small_getD hr.dy_small 0
    have hy := hr.curY_range
    simp only at h0
    exact ranged_of_values g.dx g.dy g.curX (g.curY + 1) rfl rfl rfl rfl
      hr.dx_small hr.dy_small hr.curX_range ⟨by omega, by omega⟩
  · rw [play_eq_of_not_fit W H r g hinv hst hfit] at h
    have hinv1 : Inv W H { g with dxPrime := g.dx, dyPrime := g.dy } :=
      inv_staged hinv g.dx g.dy g.fallingTimer hinv.len_dx hinv.len_dy
    have hS1 := fillMatrix_settled hinv1 (Or.inl hst)
    have hfr1 := fillMatrix_frame W H { g with dxPrime := g.dx, dyPrime := g.dy }
    cases hrl : removeLines W H (fillMatrix W H { g with dxPrime := g.dx, dyPrime := g.dy }) with
    | none => rw [hrl] at h; exact absurd h (by simp)
    | some g2 =>
      rw [hrl, Option.some_bind] at h
      obtain ⟨hS2, hfr2⟩ := removeLines_settled hS1 hrl
      have hr2 : Ranged W H g2 :=
        ranged_of_fields hr (by rw [hfr2, hfr1]) (by rw [hfr2, hfr1]) (by rw [hfr2, hfr1])
          (by rw [hfr2, hfr1])
      rw [← Option.some.inj h]
      by_cases hsk : g2.skyline > 0
      · rw [if_pos hsk,
          getPiece_eq W H r g2 hS2.len_dx hS2.len_dy hS2.len_dxPrime hS2.len_dyPrime]
        by_cases hf : pieceFits W H (spawned W r g2) ((W / 2 : Nat) : Int) 0 = true
        · rw [if_pos hf]
          simp only [if_true]
          unfold resetFallingTimer
          rw [placePiece_frame]
          exact ranged_of_fields (spawned_ranged W H r g2) rfl rfl rfl rfl
        · rw [if_neg hf]
          simp only [Bool.false_eq_true, if_false]
          exact ranged_of_fields (spawned_ranged W H r g2) rfl rfl rfl rfl
      · rw [if_neg hsk]
        exact ranged_of_fields hr2 rfl rfl rfl rfl

theorem startDefault_ranged (W H : Nat) (r : Nat) (g : Game) (h3 : g.dx.length = 4)
    (h4 : g.dy.length = 4) (h1 : g.dxPrime.length = 4) (h2 : g.dyPrime.length = 4) :
    Ranged W H (startDefault W H r g) := by
  unfold startDefault resetFallingTimer
  simp only
  rw [placePiece_frame,
    getPiece_eq W H r { g with state := GameState.gameStarted } h3 h4 h1 h2]
  by_cases hf : pieceFits W H (spawned W r { g with state := GameState.gameStarted })
      ((W / 2 : Nat) : Int) 0 = true
  · rw [if_pos hf]
    simp only
    rw [placePiece_frame]
    exact ranged_of_fields (spawned_ranged W H r { g with state := GameState.gameStarted })
      rfl rfl rfl rfl
  · rw [if_neg hf]
    exact ranged_of_fields (spawned_ranged W H r { g with state := GameState.gameStarted })
      rfl rfl rfl rfl

theorem start_ranged (W H : Nat) (r : Nat) (g g' : Game) (hinv : Inv W H g)
    (hr : Ranged W H g) (h : start W H r g = some g') : Ranged W H g' := by
  unfold start at h
  cases hst : g.state with
  | gameStarted =>
    rw [hst] at h
    rw [← Option.some.inj h]
    exact hr
  | gamePaused =>
    rw [hst] at h
    exact play_ranged W H r { g with state := GameState.gameStarted } g'
      (inv_set_state hinv (Or.inr hst) _ (Or.inl rfl) g.fallingTimer)
      (ranged_of_fields hr rfl rfl rfl rfl) rfl h
  | gameOver =>
    rw [hst] at h
    rw [← Option.some.inj h]
    exact startDefault_ranged W H r _ rfl rfl rfl rfl
  | gameIntro =>
    rw [hst] at h
    rw [← Option.some.inj h]
    exact startDefault_ranged W H r g hinv.len_dx hinv.len_dy hinv.len_dxPrime
      hinv.len_dyPrime

theorem pause_ranged (W H : Nat) (r : Nat) (g g' : Game) (hinv : Inv W H g)
    (hr : Ranged W H g) (h : pause W H r g = some g') : Ranged W H g' := by
  unfold pause at h
  cases hst : g.state with
  | gameStarted =>
    rw [hst] at h
    rw [← Option.some.inj h]
    exact ranged_of_fields hr rfl rfl rfl rfl
  | gamePaused =>
    rw [hst] at h
    exact play_ranged W H r { g with state := GameState.gameStarted } g'
      (inv_set_state hinv (Or.inr hst) _ (Or.inl rfl) g.fallingTimer)
      (ranged_of_fields hr rfl rfl rfl rfl) rfl h
  | gameOver =>
    rw [hst] at h
    rw [← Option.some.inj h]
    exact hr
  | gameIntro =>
    rw [hst] at h
    rw [← Option.some.inj h]
    exact hr

/-- In every reachable state the anchor is within two cells of the board and every live
offset is between `-2` and `2`. -/
theorem reachable_ranged (W H : Nat) (g : Game) (hr : Reachable W H g) : Ranged W H g := by
  induction hr with
  | init =>
    exact
      { dx_small := by intro a ha; simp [NewGame, resetGame] at ha; omega
        dy_small := by intro a ha; simp [NewGame, resetGame] at ha; omega
        curX_range := by
          show (-2 : Int) ≤ 1 ∧ (1 : Int) ≤ (W : Int) + 2
          omega
        curY_range := by
          show (0 : Int) ≤ 1 ∧ (1 : Int) ≤ (H : Int) + 2
          omega }
  | start r hg hs ih => exact start_ranged W H r _ _ (reachable_inv W H _ hg) ih hs
  | pause r hg hs ih => exact pause_ranged W H r _ _ (reachable_inv W H _ hg) ih hs
  | moveLeft hg ih => exact moveLeft_ranged W H _ (reachable_inv W H _ hg) ih
  | moveRight hg ih => exact moveRight_ranged W H _ (reachable_inv W H _ hg) ih
  | rotate hg ih => exact rotate_ranged W H _ (reachable_inv W H _ hg) ih
  | fall hg hs ih => exact fall_ranged W H _ _ (reachable_inv W H _ hg) ih hs
  | tick r hg hst hs ih => exact play_ranged W H r _ _ (reachable_inv W H _ hg) ih hst hs

/-- On a board whose sides are below `2^62`, in every reachable state the exact
arithmetic of the embedding is Go's 64-bit arithmetic: the fit test with the live
offsets staged gives the same result in 64-bit `int`s at every anchor the commands
test, so does the fit test of `rotate`, the rotated offsets are the same, and no
coordinate the commands compute leaves the range of `int`. -/
theorem reachable_exact (W H : Nat) (g : Game) (hr : Reachable W H g)
    (hW : (W : Int) < 4611686018427387904) (hH : (H : Int) < 4611686018427387904) :
    (∀ x y, g.curX - 1 ≤ x → x ≤ g.curX + 1 → g.curY ≤ y → y ≤ (H : Int) + 4 →
      pieceFits64 W H { g with dxPrime := g.dx, dyPrime := g.dy } x y = liveFits W H g x y) ∧
    stageRotated64 g = stageRotated g ∧
    pieceFits64 W H (stageRotated g) g.curX g.curY =
      pieceFits W H (stageRotated g) g.curX g.curY ∧
    wrapInt (g.curX - 1) = g.curX - 1 ∧ wrapInt (g.curX + 1) = g.curX + 1 ∧
    wrapInt (g.curY + 1) = g.curY + 1 ∧
    (∀ k, IsInt64 (g.curX + g.dx.getD k 0) ∧ IsInt64 (g.curY + g.dy.getD k 0) ∧
      IsInt64 (-(g.dx.getD k 0))) := by
  have hinv := reachable_inv W H g hr
  have hrg := reachable_ranged W H g hr
  have hx := hrg.curX_range
  have hy := hrg.curY_range
  refine ⟨fun x y h1 h2 h3 h4 => ?_, ?_, ?_, ?_, ?_, ?_, fun k => ?_⟩
  · unfold liveFits
    apply pieceFits64_eq_pieceFits
    intro k _
    have hdx := small_getD hrg.dx_small k
    have hdy := small_getD hrg.dy_small k
    unfold IsInt64
    simp only
    omega
  · apply stageRotated64_eq_stageRotated g hinv.len_dxPrime hinv.len_dyPrime hinv.len_dx
      hinv.len_dy
    intro a ha
    have := hrg.dx_small a ha
    unfold IsInt64
    omega
  · apply pieceFits64_eq_pieceFits
    intro k _
    rw [stageRotated_eq g hinv.len_dxPrime hinv.len_dyPrime hinv.len_dx hinv.len_dy]
    simp only [getD_map_neg]
    have hdx := small_getD hrg.dx_small k
    have hdy := small_getD hrg.dy_small k
    unfold IsInt64
    omega
  · apply wrapInt_of_isInt64
    unfold IsInt64
    omega
  · apply wrapInt_of_isInt64
    unfold IsInt64
    omega
  · apply wrapInt_of_isInt64
    unfold IsInt64
    omega
  · have hdx := small_getD hrg.dx_small k
    have hdy := small_getD hrg.dy_small k
    unfold IsInt64
    omega

end GoTetris
